import Mathlib

/-!
The dashboard controller of ktwins, `internal/ui/ui.go`.

A shallow embedding of the interactive controller of the ktwins terminal
dashboard: the selectability predicate, the resource resolver, the
browse/selection state machine, the refresh commit and the key handler, with
the builders of `internal/data/data.go` whose text the controller resolves.

Conventions of the embedding.

* Go strings are lists of runes (`Str`); the text is taken to be valid UTF-8.
* Go `int` values that index lines are `Int`; they never leave the range of
  line counts, so no wrap-around arithmetic is involved.
* Library tables that are not part of the repository (Unicode case mapping,
  simple case folding, `tview.Escape`) are taken as a parameter `Lib`, constrained
  by what they do on ASCII.  The general theorems hold for every such library;
  the examples are evaluated on ASCII text with `asciiLib`, with which every
  library agrees there.
* The focus changes through the `app.SetFocus` calls of the source and through
  the toolkit.  What the `Pages` widget does to the focus when its pages change is
  part of the library parameter; what the toolkit does on its own, as when the
  root is set or the mouse is clicked, arrives as an event.
* A method with an index expression that can fail at run time returns an
  `Option`, and `none` is the failure.
-/

namespace KTwins

/-! ## Strings -/

/-- A Go string, as its sequence of runes. -/
abbrev Str := List Char

/-- Go `unicode.IsSpace`: the white-space runes of Unicode. -/
def isSpace (c : Char) : Bool :=
  let n := c.toNat
  n == 0x09 || n == 0x0A || n == 0x0B || n == 0x0C || n == 0x0D || n == 0x20 ||
  n == 0x85 || n == 0xA0 || n == 0x1680 || (0x2000 ≤ n && n ≤ 0x200A) ||
  n == 0x2028 || n == 0x2029 || n == 0x202F || n == 0x205F || n == 0x3000

/-- Upper-casing of the ASCII range; every other rune is left alone. -/
def asciiUpper (c : Char) : Char :=
  if 97 ≤ c.toNat ∧ c.toNat ≤ 122 then Char.ofNat (c.toNat - 32) else c

/-- Lower-casing of the ASCII range; every other rune is left alone. -/
def asciiLower (c : Char) : Char :=
  if 65 ≤ c.toNat ∧ c.toNat ≤ 90 then Char.ofNat (c.toNat + 32) else c

/-- Go `strings.TrimSpace`: leading and trailing white space removed. -/
def TrimSpace (s : Str) : Str := (s.dropWhile isSpace).rdropWhile isSpace

/-- The scan of Go `strings.Fields`: `cur` holds the field being read, reversed. -/
def FieldsGo : Option Str → Str → List Str
  | cur, [] =>
    match cur with
    | none => []
    | some w => [w.reverse]
  | cur, c :: cs =>
    if isSpace c then
      match cur with
      | none => FieldsGo none cs
      | some w => w.reverse :: FieldsGo none cs
    else FieldsGo (some (c :: cur.getD [])) cs

/-- Go `strings.Fields`: the maximal runs of non-space runes. -/
def Fields (s : Str) : List Str := FieldsGo none s

/-- Go `strings.Split(s, "\n")`. -/
def SplitLines (s : Str) : List Str := s.splitOn '\n'

/-- Go `strings.Join(parts, sep)`. -/
def Join (parts : List Str) (sep : Str) : Str := sep.intercalate parts

/-- Go `strings.HasPrefix`, here named startsWith. -/
def startsWith : Str → Str → Bool
  | _, [] => true
  | [], _ :: _ => false
  | c :: s, p :: ps => c == p && startsWith s ps

/-- Go `strings.Contains`. -/
def Contains : Str → Str → Bool
  | [], sub => startsWith [] sub
  | c :: s, sub => startsWith (c :: s) sub || Contains s sub

/-- Go `len(s)` of a string: its length in UTF-8 bytes. -/
def byteLen (s : Str) : Nat := (s.map Char.utf8Size).sum

/-- Go `strings.TrimRight(s, "\n")`. -/
def TrimRightNewlines (s : Str) : Str := s.rdropWhile (fun c => c == '\n')

/-- Line `i` of a slice indexed by a Go `int` already checked to be in range. -/
def lineAt (lines : List Str) (i : Int) : Str := lines.getD i.toNat []

/-! ## Widgets -/

/-- The text views held by the `Dashboard` struct. -/
inductive TextView
  | modalLogs | infoPopup | overview | alertsView | eventsView | namespacesView
  | infraView | configView | storageView | networkView | workloadsView | podsView
  | metricsView | pageIndicator
  deriving DecidableEq, Repr

/-- The `tcell` colors the controller uses; `default` is the zero value of the
type, which a lookup in a Go map yields for an absent key. -/
inductive Color
  | default | white | lightSkyBlue | green | wheat | purple | orange | yellow | lightCyan
  | gray
  deriving DecidableEq, Repr

/-- The flex containers that hold the panels of a page. -/
inductive PageFlex
  | workloadsPage | clusterPage | networkPage | metricsPage
  deriving DecidableEq, Repr

/-- A `tview.Primitive` that can hold focus: a text view of the dashboard or some
container, named by a number. -/
inductive Primitive
  | textView (v : TextView)
  | container (id : Nat)
  deriving DecidableEq, Repr

/-- What the controller reads and writes of one `tview.TextView`. -/
structure Widget where
  text : Str
  title : Str
  border : Bool
  borderColor : Color
  scrollRow : Int
  scrollCol : Int
  innerHeight : Int
  deriving DecidableEq

/-! ## The dashboard state -/

/-- The goroutines the handlers launch; what they fetch lands later through
`QueueUpdateDraw`. -/
inductive Goroutine
  | showInfo (msg : Str)
  | fetchLogs (name targetNS : Str)
  | fetchDescribe (kind name targetNS : Str)
  deriving DecidableEq, Repr

/-- The fields of the `Dashboard` struct the controller works on, with the state
of the toolkit objects it drives: the application focus, the text views, the
item sizes of the page containers and the pages shown. `updateCh` is the number
of signals buffered in the channel of capacity 1. -/
structure Dashboard where
  ns : Str
  focus : Option Primitive
  stopped : Bool
  views : TextView → Widget
  slots : PageFlex → TextView → Option (Int × Int)
  shownPage : Str
  modalPage : Bool
  infoPage : Bool
  currentPage : Str
  pageOrder : List Str
  contentCache : TextView → Option Str
  browseBox : Option TextView
  selectedLine : Int
  modalOpen : Bool
  restoreFocus : Option Primitive
  nsList : List Str
  borderDefaults : TextView → Option Color
  originalTitles : TextView → Option Str
  updateCh : Nat
  goroutines : List Goroutine

namespace Dashboard

/-- The call `box.SetText(s)`. -/
def setText (d : Dashboard) (box : TextView) (s : Str) : Dashboard :=
  { d with views := Function.update d.views box { (d.views box) with text := s } }

/-- The call `box.SetTitle(s)`. -/
def setTitle (d : Dashboard) (box : TextView) (s : Str) : Dashboard :=
  { d with views := Function.update d.views box { (d.views box) with title := s } }

/-- The call `box.SetBorderColor(c)`. -/
def setBorderColor (d : Dashboard) (box : TextView) (c : Color) : Dashboard :=
  { d with views := Function.update d.views box { (d.views box) with borderColor := c } }

/-- The call `box.SetBorder(b)`. -/
def setBorder (d : Dashboard) (box : TextView) (b : Bool) : Dashboard :=
  { d with views := Function.update d.views box { (d.views box) with border := b } }

/-- The call `box.ScrollTo(row, column)`. -/
def scrollTo (d : Dashboard) (box : TextView) (row col : Int) : Dashboard :=
  { d with views := (Function.update d.views box
      { (d.views box) with scrollRow := row, scrollCol := col }) }

/-- The call `app.SetFocus(p)`. -/
def setFocus (d : Dashboard) (p : Primitive) : Dashboard :=
  { d with focus := some p }

/-- The call `f.ResizeItem(item, fixed, proportion)`: it changes the size of an
item the container holds and nothing otherwise. -/
def resizeItem (d : Dashboard) (f : PageFlex) (item : TextView) (fixed prop : Int) :
    Dashboard :=
  match d.slots f item with
  | none => d
  | some _ =>
    { d with slots := (Function.update d.slots f (Function.update (d.slots f) item
        (some (fixed, prop)))) }

/-- The read `d.contentCache[box]` of a Go map: the empty string for an absent key. -/
def cached (d : Dashboard) (box : TextView) : Str := (d.contentCache box).getD []

/-- The write `d.contentCache[box] = s`. -/
def setCache (d : Dashboard) (box : TextView) (s : Str) : Dashboard :=
  { d with contentCache := Function.update d.contentCache box (some s) }

/-- The write `d.borderDefaults[box] = c`. -/
def setBorderDefault (d : Dashboard) (box : TextView) (c : Color) : Dashboard :=
  { d with borderDefaults := Function.update d.borderDefaults box (some c) }

end Dashboard

open Dashboard

/-! ## The libraries outside the repository -/

/-- The panels of a page, in the order `NewDashboard` adds them to the container of
the page; no panel for a name that is not a page. -/
def pagePanels (page : Str) : List TextView :=
  if page = "workloads".toList then [.workloadsView, .podsView]
  else if page = "network".toList then [.networkView]
  else if page = "cluster".toList then [.infraView, .configView, .storageView]
  else if page = "metrics".toList then [.metricsView]
  else []

/-- The text views `NewDashboard` places outside the `Pages` widget: the three
panels of the header row with the events panel under the alerts panel, and the
page indicator under the pages. -/
def outsidePages (v : TextView) : Bool :=
  v = .namespacesView || v = .overview || v = .alertsView || v = .eventsView
    || v = .pageIndicator

/-- The library functions the controller calls and the repository does not
contain: `unicode.ToUpper`, `unicode.ToLower`, membership of two runes in one
simple-folding orbit, `tview.Escape`, and the focus the `Pages` widget of tview
leaves once `AddPage`, `RemovePage` or `SwitchToPage` has changed its pages, which
it may hand to the page on top when the focus is inside the widget.  The laws fix
the string functions on ASCII, where Unicode agrees with the ASCII case tables; the
only ASCII letters with a non-ASCII folding partner are k and s, which the folding
law leaves out.  Of the focus they fix that no focus stays no focus and a focus
stays a focus, that a focus on a text view outside the widget stays there, and that
a text view inside the widget that is left with the focus is a panel of the page
shown or the text view of the overlay or of the toast. -/
structure Lib where
  upper : Char → Char
  lower : Char → Char
  foldEq : Char → Char → Bool
  escape : Str → Str
  pagesFocus : Dashboard → Option Primitive
  upper_ascii : ∀ c : Char, c.toNat < 128 → upper c = asciiUpper c
  lower_ascii : ∀ c : Char, c.toNat < 128 → lower c = asciiLower c
  fold_ascii : ∀ a b : Char, b.toNat < 128 →
    b ≠ 'k' → b ≠ 'K' → b ≠ 's' → b ≠ 'S' → foldEq a b = (asciiLower a == asciiLower b)
  pagesFocus_none : ∀ d : Dashboard, d.focus = none → pagesFocus d = none
  pagesFocus_some : ∀ d : Dashboard, d.focus ≠ none → pagesFocus d ≠ none
  pagesFocus_outside : ∀ (d : Dashboard) (v : TextView), outsidePages v = true →
    d.focus = some (.textView v) → pagesFocus d = some (.textView v)
  pagesFocus_shown : ∀ (d : Dashboard) (v : TextView), outsidePages v = false →
    pagesFocus d = some (.textView v) →
    v ∈ pagePanels d.shownPage ∨ v = .modalLogs ∨ v = .infoPopup

/-- The primitive that takes the focus when `Pages` hands it to the page on top, in
the layout of `NewDashboard`: the text view of the toast or of the overlay, which
are added with the focus flag; on the workloads page the workloads panel, the one
item of a page added with the flag; on the other pages the container of the page,
here named by the place of the page among the pages. When the toast and the overlay
are both there the one added later is on top; the toast is taken. -/
def topOfPages (d : Dashboard) : Primitive :=
  if d.infoPage then .textView .infoPopup
  else if d.modalPage then .textView .modalLogs
  else if d.shownPage = "workloads".toList then .textView .workloadsView
  else if d.shownPage = "network".toList then .container 1
  else if d.shownPage = "cluster".toList then .container 2
  else .container 3

/-- The hand-over of the focus by `Pages` as tview does it: when the focus is
inside the widget, on one of its text views or on a container, which is then the
container of a page, it goes to the page on top, and else it stays. -/
def tviewPagesFocus (d : Dashboard) : Option Primitive :=
  match d.focus with
  | none => none
  | some (.textView v) => if outsidePages v then some (.textView v) else some (topOfPages d)
  | some (.container _) => some (topOfPages d)

/-- The library that treats every non-ASCII rune as caseless, escapes nothing and
hands the focus over as `tviewPagesFocus` does; used to evaluate the controller on
ASCII text. -/
def asciiLib : Lib where
  upper := asciiUpper
  lower := asciiLower
  foldEq := fun a b => asciiLower a == asciiLower b
  escape := fun s => s
  pagesFocus := tviewPagesFocus
  upper_ascii := fun _ _ => rfl
  lower_ascii := fun _ _ => rfl
  fold_ascii := fun _ _ _ _ _ _ _ => rfl
  pagesFocus_none := fun d h => by unfold tviewPagesFocus; rw [h]
  pagesFocus_some := fun d h => by
    unfold tviewPagesFocus
    cases hf : d.focus with
    | none => exact absurd hf h
    | some p =>
      cases p with
      | textView u =>
        dsimp only
        split <;> exact Option.some_ne_none _
      | container n => exact Option.some_ne_none _
  pagesFocus_outside := fun d v hv h => by
    unfold tviewPagesFocus
    rw [h]
    simp only [hv, if_true]
  pagesFocus_shown := fun d v hv h => by
    have top : topOfPages d = .textView v →
        v ∈ pagePanels d.shownPage ∨ v = .modalLogs ∨ v = .infoPopup := by
      unfold topOfPages
      intro e
      split at e
      · cases e; exact Or.inr (Or.inr rfl)
      · split at e
        · cases e; exact Or.inr (Or.inl rfl)
        · split at e
          · rename_i hw
            cases e
            rw [hw]
            exact Or.inl (by decide)
          · split at e
            · cases e
            · split at e <;> cases e
    unfold tviewPagesFocus at h
    cases hf : d.focus with
    | none => rw [hf] at h; cases h
    | some p =>
      rw [hf] at h
      cases p with
      | textView u =>
        dsimp only at h
        split at h
        · rename_i hu
          cases h
          rw [hu] at hv
          cases hv
        · exact top (Option.some.inj h)
      | container n => exact top (Option.some.inj h)

/-- What `AddPage`, `RemovePage` and `SwitchToPage` of `tview.Pages` do to the focus,
once the pages are as the call leaves them. -/
def pagesRefocus (L : Lib) (d : Dashboard) : Dashboard :=
  { d with focus := L.pagesFocus d }

/-- Go `strings.ToUpper`. -/
def ToUpper (L : Lib) (s : Str) : Str := s.map L.upper

/-- Go `strings.ToLower`. -/
def ToLower (L : Lib) (s : Str) : Str := s.map L.lower

/-- Go `strings.EqualFold`: equality of two strings under simple case folding,
rune by rune. -/
def EqualFold (L : Lib) : Str → Str → Bool
  | [], [] => true
  | a :: s, b :: t => (a == b || L.foldEq a b) && EqualFold L s t
  | _, _ => false

/-! ## The selectability predicate and the resource resolver -/

/-- The method `isSelectable` of ui.go. -/
def isSelectable (L : Lib) (box : TextView) (lines : List Str) (idx : Int) : Bool :=
  if idx < 0 ∨ idx ≥ (lines.length : Int) then false
  else
    let line := TrimSpace (lineAt lines idx)
    if line = [] then false
    else if ToUpper L line = line then false
    else
      let fields := Fields line
      if fields.length = 0 then false
      else
        let joined := ToLower L (Join fields " ".toList)
        if Contains joined "no resources found".toList then false
        else if fields.headD [] = "NAME".toList then false
        else if ToUpper L (fields.headD []) = fields.headD [] ∧ byteLen (fields.headD []) ≤ 8
            ∧ fields.length = 1 then false
        else
          match box with
          | .workloadsView => if fields.length ≤ 1 then false else true
          | .podsView => decide (fields.length > 1)
          | .alertsView => decide (fields.length > 0)
          | .eventsView => decide (fields.length > 0)
          | _ => decide (fields.length > 1)

/-- The title switch of the workloads panel in `resourceKindFor`. -/
def workloadsKind (title : Str) : Option Str :=
  if title = "DEPLOY".toList then some "deploy".toList
  else if title = "RS".toList then some "rs".toList
  else if title = "STS".toList then some "sts".toList
  else if title = "DS".toList then some "ds".toList
  else if title = "JOBS".toList then some "jobs".toList
  else if title = "CRONJOBS".toList then some "cronjobs".toList
  else none

/-- The title switch of the config panel in `resourceKindFor`. -/
def configKind (title : Str) : Option Str :=
  if title = "SECRETS".toList then some "secrets".toList
  else if title = "CONFIGMAPS".toList then some "configmaps".toList
  else if title = "SERVICEACCOUNTS".toList then some "serviceaccounts".toList
  else none

/-- The title switch of the network panel in `resourceKindFor`. -/
def networkKind (title : Str) : Option Str :=
  if title = "SVC".toList then some "svc".toList
  else if title = "INGRESS".toList then some "ingress".toList
  else if title = "ENDPOINTS".toList then some "endpoints".toList
  else none

/-- The title switch of the storage panel in `resourceKindFor`. -/
def storageKind (title : Str) : Option Str :=
  if title = "PVC".toList then some "pvc".toList
  else if title = "PV".toList then some "pv".toList
  else none

/-- The title switch of the infra panel in `resourceKindFor`. -/
def infraKind (title : Str) : Option Str :=
  if title = "NODES".toList then some "nodes".toList
  else if title = "CRDS".toList then some "crd".toList
  else none

/-- The loop `for i := idx; i >= 0; i--` of `resourceKindFor`: the first title the
switch recognises, walking from line `i` up to line 0. -/
def scanUp (kindOf : Str → Option Str) (lines : List Str) : Nat → Str
  | 0 =>
    match kindOf (TrimSpace (lines.getD 0 [])) with
    | some k => k
    | none => []
  | i + 1 =>
    match kindOf (TrimSpace (lines.getD (i + 1) [])) with
    | some k => k
    | none => scanUp kindOf lines i

/-- The method `resourceKindFor` of ui.go. -/
def resourceKindFor (box : TextView) (lines : List Str) (idx : Int) : Str :=
  if idx < 0 ∨ idx ≥ (lines.length : Int) then []
  else
    match box with
    | .podsView => "pod".toList
    | .alertsView => "pod".toList
    | .workloadsView => scanUp workloadsKind lines idx.toNat
    | .configView => scanUp configKind lines idx.toNat
    | .networkView => scanUp networkKind lines idx.toNat
    | .storageView => scanUp storageKind lines idx.toNat
    | .infraView => scanUp infraKind lines idx.toNat
    | _ => []

/-- The group titles of a panel with their kind tags, as the switch of
`resourceKindFor` for that panel has them; no title for a panel without a scan. -/
def titleKind : TextView → Str → Option Str
  | .workloadsView => workloadsKind
  | .configView => configKind
  | .networkView => networkKind
  | .storageView => storageKind
  | .infraView => infraKind
  | _ => fun _ => none

/-- The group titles of the multi-kind panels, each with its kind tag: the table
the rule of the resolver is stated against, one row for each title line the data
layer can write above a block of resources. -/
def groupTitles : TextView → List (Str × Str)
  | .workloadsView =>
    [("DEPLOY".toList, "deploy".toList), ("RS".toList, "rs".toList),
      ("STS".toList, "sts".toList), ("DS".toList, "ds".toList),
      ("JOBS".toList, "jobs".toList), ("CRONJOBS".toList, "cronjobs".toList)]
  | .configView =>
    [("SECRETS".toList, "secrets".toList), ("CONFIGMAPS".toList, "configmaps".toList),
      ("SERVICEACCOUNTS".toList, "serviceaccounts".toList)]
  | .networkView =>
    [("SVC".toList, "svc".toList), ("INGRESS".toList, "ingress".toList),
      ("ENDPOINTS".toList, "endpoints".toList)]
  | .storageView => [("PVC".toList, "pvc".toList), ("PV".toList, "pv".toList)]
  | .infraView => [("NODES".toList, "nodes".toList), ("CRDS".toList, "crd".toList)]
  | _ => []

/-- The kind tag a table gives a title: that of the first row with this title. -/
def lookupTitle : List (Str × Str) → Str → Option Str
  | [], _ => none
  | (a, k) :: rest, t => if t = a then some k else lookupTitle rest t

/-- The panels that hold several kinds of resources under group titles. -/
def multiKind (box : TextView) : Bool :=
  box = .workloadsView || box = .configView || box = .networkView || box = .storageView
    || box = .infraView

/-- The test `isAll` shared by `resourceNSFor` and `resourceNameFor`. -/
def isAllNS (L : Lib) (nsTrim : Str) : Bool :=
  decide (nsTrim = []) || EqualFold L nsTrim "all".toList

/-- The method `resourceNSFor` of ui.go. -/
def resourceNSFor (L : Lib) (_box : TextView) (line : Str) (currentNS : Str) : Str :=
  let fields := Fields line
  if fields.length = 0 then []
  else
    let nsTrim := TrimSpace currentNS
    if isAllNS L nsTrim then fields.headD [] else nsTrim

/-- The method `resourceNameFor` of ui.go. -/
def resourceNameFor (L : Lib) (box : TextView) (line : Str) (currentNS : Str) : Str :=
  let fields := Fields line
  if fields.length = 0 then []
  else
    let nsTrim := TrimSpace currentNS
    if box = .infraView ∨ (box = .storageView ∧ fields.length > 0) then fields.headD []
    else if isAllNS L nsTrim then
      if fields.length ≥ 2 then fields.getD 1 [] else []
    else fields.headD []

/-- The function `newBox` (and `newTextArea`, which differs in wrapping only). -/
def newBox (title : Str) : Widget :=
  { text := [], title := title, border := true, borderColor := .white,
    scrollRow := 0, scrollCol := 0, innerHeight := 0 }

/-- A bare `tview.NewTextView()`, as the page indicator is. -/
def newTextView : Widget :=
  { text := [], title := [], border := false, borderColor := .white,
    scrollRow := 0, scrollCol := 0, innerHeight := 0 }

/-- The placeholder text of `setPlaceholders`. -/
def placeholder : Str := "Carregando...".toList

/-- The method `setPlaceholders` of ui.go. -/
def setPlaceholders (d : Dashboard) : Dashboard :=
  [TextView.overview, .alertsView, .eventsView, .workloadsView, .podsView, .infraView,
    .configView, .networkView, .storageView, .metricsView].foldl
    (fun d b => d.setText b placeholder) d

/-- The widgets `NewDashboard` creates, by title. -/
def initialViews : TextView → Widget
  | .modalLogs => newBox "LOGS".toList
  | .infoPopup => newBox "INFO".toList
  | .overview => newBox "OVERVIEW".toList
  | .alertsView => newBox "ALERTS".toList
  | .eventsView => newBox "EVENTS".toList
  | .namespacesView => newBox "NAMESPACES".toList
  | .infraView => newBox "INFRA".toList
  | .configView => newBox "CONFIG".toList
  | .storageView => newBox "STORAGE".toList
  | .networkView => newBox "NETWORK".toList
  | .workloadsView => newBox "WORKLOADS".toList
  | .podsView => newBox "PODS".toList
  | .metricsView => newBox "POD METRICS".toList
  | .pageIndicator => newTextView

/-- The items `NewDashboard` adds to the page containers, each with fixed size 0
and proportion 1. -/
def initialSlots : PageFlex → TextView → Option (Int × Int)
  | .workloadsPage, .workloadsView => some (0, 1)
  | .workloadsPage, .podsView => some (0, 1)
  | .clusterPage, .infraView => some (0, 1)
  | .clusterPage, .configView => some (0, 1)
  | .clusterPage, .storageView => some (0, 1)
  | .networkPage, .networkView => some (0, 1)
  | .metricsPage, .metricsView => some (0, 1)
  | _, _ => none

/-- The map `borderDefaults` that `NewDashboard` fills. -/
def initialBorderDefaults : TextView → Option Color
  | .namespacesView => some .white
  | .overview => some .lightSkyBlue
  | .alertsView => some .green
  | .eventsView => some .wheat
  | .infraView => some .purple
  | .configView => some .purple
  | .networkView => some .purple
  | .storageView => some .purple
  | .workloadsView => some .purple
  | .podsView => some .purple
  | .metricsView => some .purple
  | _ => none

/-- The function `NewDashboard` of ui.go. -/
def NewDashboard (ns : Str) : Dashboard :=
  setPlaceholders
    { ns := ns, focus := none, stopped := false, views := initialViews,
      slots := initialSlots, shownPage := "workloads".toList, modalPage := false,
      infoPage := false, currentPage := "workloads".toList,
      pageOrder := ["workloads".toList, "network".toList, "cluster".toList,
        "metrics".toList],
      contentCache := fun _ => none, browseBox := none, selectedLine := 0,
      modalOpen := false, restoreFocus := none, nsList := [],
      borderDefaults := initialBorderDefaults, originalTitles := fun _ => none,
      updateCh := 0, goroutines := [] }

/-- The method `allBoxes` of ui.go. -/
def allBoxes : List TextView :=
  [.workloadsView, .podsView, .infraView, .configView, .storageView, .networkView,
    .metricsView]

/-- One `if strings.TrimSpace(d.contentCache[box]) != ""` of `focusOrder`. -/
def focusable (d : Dashboard) (box : TextView) : List TextView :=
  if TrimSpace (d.cached box) ≠ [] then [box] else []

/-- The method `focusOrder` of ui.go. -/
def focusOrder (d : Dashboard) : List TextView :=
  if d.currentPage = "workloads".toList then
    focusable d .workloadsView ++ focusable d .podsView
  else if d.currentPage = "network".toList then focusable d .networkView
  else if d.currentPage = "cluster".toList then
    focusable d .infraView ++ focusable d .configView ++ focusable d .storageView
  else if d.currentPage = "metrics".toList then focusable d .metricsView
  else []

/-- The body of the loop of `highlightFocus` over `allBoxes`. -/
def paintBox (focused : Option Primitive) (d : Dashboard) (b : TextView) : Dashboard :=
  if some (Primitive.textView b) = focused then d.setBorderColor b .orange
  else
    match d.borderDefaults b with
    | some c => d.setBorderColor b c
    | none => d.setBorderColor b .white

/-- The method `highlightFocus` of ui.go. -/
def highlightFocus (d : Dashboard) : Dashboard :=
  let focused := d.focus
  let d1 := allBoxes.foldl (paintBox focused) d
  let d2 := d1.setBorderColor .overview ((d1.borderDefaults .overview).getD .default)
  let d3 := d2.setBorderColor .alertsView ((d2.borderDefaults .alertsView).getD .default)
  let d4 := d3.setBorderColor .eventsView ((d3.borderDefaults .eventsView).getD .default)
  match d4.browseBox with
  | some b => d4.setBorderColor b .green
  | none => d4

/-- The constants of the theme package. -/
def themeTitle : Str := "[orange::b]".toList
/-- The constant `theme.Header`. -/
def themeHeader : Str := "[skyblue::b]".toList
/-- The constant `theme.Reset`. -/
def themeReset : Str := "[-:-:-]".toList

/-- The function `theme.ColorFor`. -/
def ColorFor (active : Bool) : Str := if active then themeHeader else themeTitle

/-- The method `buildIndicator` of ui.go. -/
def buildIndicator (L : Lib) (page : Str) : Str :=
  Join
    [ ColorFor (page = "workloads".toList) ++ L.escape "[w]".toList ++ themeReset
        ++ "orkloads".toList,
      ColorFor (page = "network".toList) ++ L.escape "[n]".toList ++ themeReset
        ++ "etwork".toList,
      ColorFor (page = "cluster".toList) ++ L.escape "[c]".toList ++ themeReset
        ++ "luster".toList,
      ColorFor (page = "metrics".toList) ++ L.escape "[m]".toList ++ themeReset
        ++ "etrics".toList,
      themeHeader ++ L.escape "[a]".toList ++ themeReset ++ "lerts".toList,
      themeHeader ++ L.escape "[e]".toList ++ themeReset ++ "vents".toList,
      themeHeader ++ L.escape "[0-9]".toList ++ themeReset ++ " namespace".toList,
      themeHeader ++ L.escape "[q]".toList ++ themeReset ++ "uit".toList ]
    " | ".toList

/-- The method `applyBrowseStyle` of ui.go. -/
def applyBrowseStyle (L : Lib) (d : Dashboard) (box : TextView) : Dashboard :=
  let d1 := { d with originalTitles :=
    (Function.update d.originalTitles box (some (d.views box).title)) }
  let d2 := d1.setBorderColor box .green
  d2.setTitle box (L.escape
    (TrimSpace ((d2.originalTitles box).getD []) ++ " [L]ogs / [D]escribe".toList))

/-- The method `restoreBrowseStyle` of ui.go. -/
def restoreBrowseStyle (d : Dashboard) (box : TextView) : Dashboard :=
  let d1 := match d.contentCache box with
    | some raw => d.setText box raw
    | none => d
  let d2 := match d1.originalTitles box with
    | some title => d1.setTitle box title
    | none => d1
  match d2.borderDefaults box with
  | some c => d2.setBorderColor box c
  | none => d2

/-! ## Browse mode and selection -/

/-- The wrapping loop of `findSelectable`: `count` iterations are left and `i` is
the loop variable before its two range corrections. -/
def findWrap (L : Lib) (box : TextView) (lines : List Str) (delta : Int) :
    Nat → Int → Int
  | 0, _ => -1
  | count + 1, i =>
    let i1 := if i < 0 then (lines.length : Int) - 1 else i
    let i2 := if i1 ≥ (lines.length : Int) then 0 else i1
    if isSelectable L box lines i2 then i2
    else findWrap L box lines delta count (i2 + delta)

/-- The non-wrapping loop `for i := start; i >= 0 && i < len(lines); i += delta`
of `findSelectable`, run for at most `fuel` iterations. -/
def findLinear (L : Lib) (box : TextView) (lines : List Str) (delta : Int) :
    Nat → Int → Int
  | 0, _ => -1
  | fuel + 1, i =>
    if 0 ≤ i ∧ i < (lines.length : Int) then
      if isSelectable L box lines i then i
      else findLinear L box lines delta fuel (i + delta)
    else -1

/-- The method `findSelectable` of ui.go. The non-wrapping loop moves by a
non-zero step inside `0 .. len(lines)-1`, so it ends within `len(lines)`
iterations, which is the fuel it is given. -/
def findSelectable (L : Lib) (box : TextView) (lines : List Str) (start delta : Int)
    (wrap : Bool) : Int :=
  if lines.length = 0 ∨ delta = 0 then -1
  else if wrap then findWrap L box lines delta lines.length start
  else findLinear L box lines delta lines.length start

/-- The format `[black:yellow]%s[-:-:-]` of `highlightBox`. -/
def inverted (l : Str) : Str := "[black:yellow]".toList ++ l ++ "[-:-:-]".toList

/-- The loop of `highlightBox` that rewrites the selected line; `i` is the index
of the head of the list. -/
def markSelected (sel : Int) : Nat → List Str → List Str
  | _, [] => []
  | i, l :: ls => (if (i : Int) = sel then inverted l else l) :: markSelected sel (i + 1) ls

/-- The step of `highlightBox` that replaces a selection that is not selectable:
`d.selectedLine = d.findSelectable(box, lines, d.selectedLine, 1, true)`. -/
def reseek (L : Lib) (d : Dashboard) (box : TextView) (lines : List Str) : Dashboard :=
  if isSelectable L box lines d.selectedLine then d
  else { d with selectedLine := findSelectable L box lines d.selectedLine 1 true }

/-- The tail of `highlightBox`, which scrolls the selected line into view.
`GetScrollOffset` returns the row and the column offset, and the source reads the
second as the top line. -/
def followSelection (d : Dashboard) (box : TextView) : Dashboard :=
  if d.selectedLine ≥ 0 then
    let currentTop := (d.views box).scrollCol
    let h := (d.views box).innerHeight
    if h ≤ 0 then d
    else if d.selectedLine < currentTop then d.scrollTo box d.selectedLine 0
    else if d.selectedLine ≥ currentTop + h then d.scrollTo box (d.selectedLine - h + 1) 0
    else d
  else d

/-- The method `highlightBox` of ui.go. -/
def highlightBox (L : Lib) (d : Dashboard) (box : TextView) : Dashboard :=
  match d.contentCache box with
  | none => d
  | some raw =>
    if raw = [] then d
    else
      let lines := SplitLines raw
      if lines.length = 0 then d
      else
        let d1 := reseek L d box lines
        if d1.selectedLine = -1 then d1.setText box raw
        else
          followSelection
            (d1.setText box (Join (markSelected d1.selectedLine 0 lines) "\n".toList)) box

/-- The allow-list test at the head of `enterBrowse`. -/
def browsable (box : TextView) : Bool :=
  box = .podsView || box = .workloadsView || box = .configView || box = .networkView
    || box = .storageView || box = .infraView

/-- The method `enterBrowse` of ui.go. -/
def enterBrowse (L : Lib) (d : Dashboard) (box : TextView) : Dashboard :=
  if !browsable box then d
  else
    let raw := d.cached box
    let lines := SplitLines raw
    let start := findSelectable L box lines 1 1 true
    if start = -1 then d
    else
      let d1 := { d with browseBox := some box, selectedLine := start }
      let d2 := applyBrowseStyle L d1 box
      let d3 := d2.setFocus (.textView box)
      highlightBox L d3 box

/-- The method `exitBrowse` of ui.go. -/
def exitBrowse (d : Dashboard) : Dashboard :=
  let d1 := match d.browseBox with
    | some b => restoreBrowseStyle d b
    | none => d
  { d1 with browseBox := none }

/-- The method `adjustSelection` of ui.go. -/
def adjustSelection (L : Lib) (d : Dashboard) (delta : Int) : Dashboard :=
  match d.browseBox with
  | none => d
  | some box =>
    let raw := d.cached box
    let lines := SplitLines raw
    let next := findSelectable L box lines (d.selectedLine + delta) delta false
    let d1 := if next ≠ -1 then { d with selectedLine := next } else d
    highlightBox L d1 box

/-! ## Overlays and contextual actions -/

/-- The method `openModal` of ui.go: the focus is read into `restoreFocus` first,
and the call of `AddPage` for the overlay comes last, with what it does to the
focus. -/
def openModal (L : Lib) (d : Dashboard) (title body : Str) : Dashboard :=
  let d1 := { d with restoreFocus := d.focus, modalOpen := true }
  let d2 := d1.setTitle .modalLogs (title ++ " (Esc fecha)".toList)
  let d3 := d2.setText .modalLogs body
  pagesRefocus L { d3 with modalPage := true }

/-- The method `openLogs` of ui.go; the goroutine it starts is recorded. -/
def openLogs (L : Lib) (d : Dashboard) (name targetNS : Str) : Dashboard :=
  if name = [] then d
  else
    let d1 := openModal L d ("LOGS ".toList ++ name) "Carregando logs...".toList
    { d1 with goroutines := d1.goroutines ++ [.fetchLogs name targetNS] }

/-- The method `openDescribe` of ui.go; the goroutine it starts is recorded. -/
def openDescribe (L : Lib) (d : Dashboard) (kind name targetNS : Str) : Dashboard :=
  if name = [] ∨ kind = [] then d
  else
    let d1 := openModal L d ("DESCRIBE ".toList ++ kind ++ "/".toList ++ name)
      "Carregando describe...".toList
    { d1 with goroutines := d1.goroutines ++ [.fetchDescribe kind name targetNS] }

/-- The index expression `lines[i]` of Go on a slice of strings: `none` is the
run-time failure of an index out of range, which ends the program. -/
def indexLine (lines : List Str) (i : Int) : Option Str :=
  if i < 0 then none else lines.get? i.toNat

/-- The method `openLogsSelected` of ui.go; `none` is the run-time failure of the
index expression `lines[d.selectedLine]`. -/
def openLogsSelected (L : Lib) (d : Dashboard) : Option Dashboard :=
  match d.browseBox with
  | none => some d
  | some box =>
    if box ≠ .podsView then some d
    else
      let raw := d.cached box
      let lines := SplitLines raw
      if d.selectedLine < 0 ∨ d.selectedLine ≥ (lines.length : Int) then some d
      else
        match indexLine lines d.selectedLine with
        | none => none
        | some line =>
          let nsTarget := resourceNSFor L box line d.ns
          let name := resourceNameFor L box line d.ns
          if name ≠ [] then some (openLogs L d name nsTarget) else some d

/-- The method `openDescribeSelected` of ui.go; `none` is the run-time failure of
the index expression `lines[d.selectedLine]`. -/
def openDescribeSelected (L : Lib) (d : Dashboard) : Option Dashboard :=
  match d.browseBox with
  | none => some d
  | some box =>
    let raw := d.cached box
    let lines := SplitLines raw
    if d.selectedLine < 0 ∨ d.selectedLine ≥ (lines.length : Int) then some d
    else
      let kind := resourceKindFor box lines d.selectedLine
      if kind = [] then some d
      else
        match indexLine lines d.selectedLine with
        | none => none
        | some line =>
          let nsTarget := resourceNSFor L box line d.ns
          let name := resourceNameFor L box line d.ns
          if name ≠ [] then some (openDescribe L d kind name nsTarget) else some d

/-! ## Pages and focus -/

/-- The statement `if items := d.focusOrder(); len(items) > 0` with its call
`d.app.SetFocus(items[0])`, in `setPage` and in the queued function. -/
def focusFirst (d : Dashboard) : Dashboard :=
  match focusOrder d with
  | item :: _ => d.setFocus (.textView item)
  | [] => d

/-- The method `setPage` of ui.go; the call `d.pages.SwitchToPage(page)` shows the
page and does to the focus what the toolkit does. -/
def setPage (L : Lib) (d : Dashboard) (page : Str) : Dashboard :=
  let d1 := exitBrowse d
  let d2 := pagesRefocus L { d1 with currentPage := page, shownPage := page }
  let d3 := d2.setText .pageIndicator (buildIndicator L page)
  highlightFocus (focusFirst d3)

/-- The loop of `moveFocus` and `switchPage` that looks an element up in a list:
the index of its first occurrence. -/
def indexIn {α : Type} [DecidableEq α] (x : α) : List α → Option Nat
  | [] => none
  | y :: ys => if y = x then some 0 else (indexIn x ys).map (· + 1)

/-- The method `moveFocus` of ui.go; `none` is the run-time failure of an index
out of range, which needs a `delta` below the negated length of the list. -/
def moveFocus (d : Dashboard) (delta : Int) : Option Dashboard :=
  let list := focusOrder d
  if list.length = 0 then some d
  else
    let idx : Option Nat := match d.focus with
      | some (.textView cur) => indexIn cur list
      | _ => none
    match idx with
    | none => some (highlightFocus (d.setFocus (.textView (list.headD .overview))))
    | some i =>
      let next := Int.tmod ((i : Int) + delta + (list.length : Int)) (list.length : Int)
      if next < 0 then none
      else
        match list.get? next.toNat with
        | some v => some (highlightFocus (d.setFocus (.textView v)))
        | none => none

/-- The method `switchPage` of ui.go; `none` is a run-time failure: a division by
zero for an empty page order, or an index out of range. -/
def switchPage (L : Lib) (d : Dashboard) (delta : Int) : Option Dashboard :=
  let idx : Nat := (indexIn d.currentPage d.pageOrder).getD 0
  if d.pageOrder.length = 0 then none
  else
    let next := Int.tmod ((idx : Int) + delta + (d.pageOrder.length : Int))
      (d.pageOrder.length : Int)
    if next < 0 then none
    else
      match d.pageOrder.get? next.toNat with
      | some p => some (setPage L d p)
      | none => none

/-! ## The refresh -/

/-- The method `scheduleUpdate` of ui.go: a send on the channel of capacity 1 that
is dropped when the buffer is full. -/
def scheduleUpdate (d : Dashboard) : Dashboard :=
  if d.updateCh < 1 then { d with updateCh := d.updateCh + 1 } else d

/-- The function `dataClampLines` of ui.go. -/
def dataClampLines (s : Str) (maxLines : Nat) : Str :=
  let lines := SplitLines (TrimRightNewlines s)
  if lines.length ≤ maxLines then Join lines "\n".toList
  else Join (lines.take maxLines) "\n".toList

/-- The function `displayNS` of ui.go. -/
def displayNS (ns : Str) : Str := if TrimSpace ns = [] then "ALL".toList else ns

/-- What the data layer hands to one run of `update`, call by call. -/
structure Fetched where
  summary : Str
  nsView : Str
  nsNames : List Str
  alerts : Str
  cfg : Str
  net : Str
  storage : Str
  infra : Str
  wl : Str
  pods : Str
  metrics : Str
  events : Str

/-- The closure `adjust` of `update`. -/
def adjust (d : Dashboard) (f : PageFlex) (item : TextView) (hasContent : Bool)
    (minHeight : Int) (keepBorder : Bool) : Dashboard :=
  if hasContent then
    let d1 := d.resizeItem f item 0 1
    let d2 := d1.setBorder item true
    let d3 := if TrimSpace (d2.cached item) = [] then d2.setText item [] else d2
    d3.setBorderColor item .white
  else
    let d1 := if minHeight > 0 then d.resizeItem f item minHeight 0
      else d.resizeItem f item 1 0
    let d2 := d1.setText item []
    let d3 := d2.setBorder item keepBorder
    if keepBorder then d3.setBorderColor item .gray else d3

/-- One call `adjust(f, box, strings.TrimSpace(d.contentCache[box]) != "", h, true)`. -/
def adjustFor (d : Dashboard) (f : PageFlex) (item : TextView) (minHeight : Int) :
    Dashboard :=
  adjust d f item (decide (TrimSpace (d.cached item) ≠ [])) minHeight true

/-- The panels the queued function of `update` writes, with their new texts, in
the order of the source; `pods` is the clamped pod listing. -/
def fetchedTexts (f : Fetched) (pods : Str) : List (TextView × Str) :=
  [(.namespacesView, f.nsView), (.overview, f.summary), (.alertsView, f.alerts),
    (.configView, f.cfg), (.networkView, f.net), (.storageView, f.storage),
    (.infraView, f.infra), (.workloadsView, f.wl), (.podsView, pods),
    (.metricsView, f.metrics), (.eventsView, f.events)]

/-- The writes to `contentCache` and `nsList` at the head of the function `update`
queues on the UI thread. -/
def storeFetched (d : Dashboard) (f : Fetched) (pods : Str) : Dashboard :=
  { ((fetchedTexts f pods).foldl (fun d p => d.setCache p.1 p.2) d) with
    nsList := f.nsNames }

/-- The writes to `borderDefaults` of the queued function: the alerts and events
panels by whether they have content, and the overview panel. -/
def recolor (d : Dashboard) (f : Fetched) : Dashboard :=
  let b1 := if TrimSpace f.alerts = [] then d.setBorderDefault .alertsView .green
    else d.setBorderDefault .alertsView .yellow
  let b2 := if TrimSpace f.events = [] then b1.setBorderDefault .eventsView .green
    else b1.setBorderDefault .eventsView .lightCyan
  b2.setBorderDefault .overview .lightSkyBlue

/-- The branch `else` of the queued function: every panel shows its new text. -/
def showAll (d : Dashboard) (f : Fetched) (pods : Str) : Dashboard :=
  (fetchedTexts f pods).foldl (fun d p => d.setText p.1 p.2) d

/-- The display step of the queued function: the highlight of the panel in browse
mode, or else the new text of every panel. -/
def showFetched (L : Lib) (d : Dashboard) (f : Fetched) (pods : Str) : Dashboard :=
  match d.browseBox with
  | some box => highlightBox L d box
  | none => showAll d f pods

/-- The eight calls of `adjust` of the queued function, in order: the container,
the panel and the minimal height. -/
def adjustCalls : List (PageFlex × TextView × Int) :=
  [(.clusterPage, .infraView, 3), (.clusterPage, .configView, 3),
    (.clusterPage, .storageView, 3), (.workloadsPage, .workloadsView, 4),
    (.workloadsPage, .podsView, 4), (.workloadsPage, .metricsView, 3),
    (.networkPage, .networkView, 3), (.metricsPage, .metricsView, 3)]

/-- The eight calls of `adjust` of the queued function. -/
def adjustAll (d : Dashboard) : Dashboard :=
  adjustCalls.foldl (fun d p => adjustFor d p.1 p.2.1 p.2.2) d

/-- The statement `if d.app.GetFocus() == nil` of the queued function. -/
def focusIfNone (d : Dashboard) : Dashboard :=
  match d.focus with
  | none => focusFirst d
  | some _ => d

/-- The method `update` of ui.go, from the texts the data layer returned: the
clamping of the pod listing and the function queued on the UI thread. -/
def update (L : Lib) (d : Dashboard) (f : Fetched) : Dashboard :=
  let pods := dataClampLines f.pods 30
  let stored := storeFetched d f pods
  let colored := recolor stored f
  let shown := showFetched L colored f pods
  let adjusted := adjustAll shown
  highlightFocus (focusIfNone adjusted)

/-! ## Keys -/

/-- A key event: a rune, one of the named keys the handler tests, or any other
key. -/
inductive Key
  | rune (c : Char)
  | up | down | left | right | enter | esc
  | other (code : Nat)
  deriving DecidableEq, Repr

/-- The branch of `handleInput` for a digit rune. -/
def selectNamespace (d : Dashboard) (c : Char) : Dashboard :=
  let idx : Int := (c.toNat : Int) - ('0'.toNat : Int)
  if idx ≥ 0 ∧ idx < (d.nsList.length : Int) then
    let oldNS := d.ns
    let d1 := { d with ns := TrimSpace (d.nsList.getD idx.toNat []) }
    let statusMsg := "Namespace: ".toList ++ displayNS oldNS ++ " -> ".toList
      ++ displayNS d1.ns
    let d2 := { d1 with goroutines := d1.goroutines ++ [.showInfo statusMsg] }
    scheduleUpdate (exitBrowse d2)
  else d

/-- The second switch of `handleInput`, reached when no overlay is open and the
browse-mode keys did not apply. The flag is true when the event is returned to
the toolkit and false when the handler returns nil. A method that can fail at run
time leaves the state as it was when it fails. -/
def handleKeys (L : Lib) (d : Dashboard) : Key → Dashboard × Bool
  | .rune c =>
    if c = 'w' then (setPage L d "workloads".toList, false)
    else if c = 'n' then (setPage L d "network".toList, false)
    else if c = 'c' then (setPage L d "cluster".toList, false)
    else if c = 'm' then (setPage L d "metrics".toList, false)
    else if c = 'l' then ((openLogsSelected L d).getD d, false)
    else if '0'.toNat ≤ c.toNat ∧ c.toNat ≤ '9'.toNat then (selectNamespace d c, false)
    else if c = 'a' then
      let content := d.cached .alertsView
      let content := if TrimSpace content = [] then "Sem alertas.".toList else content
      (openModal L d "ALERTAS".toList content, false)
    else if c = 'e' then
      let content := d.cached .eventsView
      let content := if TrimSpace content = [] then "Sem eventos.".toList else content
      (openModal L d "EVENTS".toList content, false)
    else if c = 'q' then ({ d with stopped := true }, false)
    else if c = 'd' then
      match d.browseBox with
      | some _ => ((openDescribeSelected L d).getD d, false)
      | none => (d, true)
    else (d, true)
  | .left => ((switchPage L d (-1)).getD d, false)
  | .right => ((switchPage L d 1).getD d, false)
  | .up => ((moveFocus d (-1)).getD d, false)
  | .down => ((moveFocus d 1).getD d, false)
  | .enter =>
    match d.browseBox with
    | none =>
      match d.focus with
      | some (.textView tv) => (enterBrowse L d tv, false)
      | _ => (d, false)
    | some _ => ((openLogsSelected L d).getD d, true)
  | .esc =>
    match d.browseBox with
    | some _ => (exitBrowse d, false)
    | none => (d, true)
  | .other _ => (d, true)

/-- The method `handleInput` of ui.go. The flag is true when the event is returned
to the toolkit and false when the handler returns nil. -/
def handleInput (L : Lib) (d : Dashboard) (ev : Key) : Dashboard × Bool :=
  if d.modalOpen then
    if ev = .esc then
      let d1 := pagesRefocus L { d with modalPage := false }
      let d2 := { d1 with modalOpen := false }
      match d2.restoreFocus with
      | some p => (d2.setFocus p, false)
      | none => (d2, false)
    else (d, true)
  else
    match d.browseBox, ev with
    | some _, .up => (adjustSelection L d (-1), false)
    | some _, .down => (adjustSelection L d 1, false)
    | some _, .enter => ((openLogsSelected L d).getD d, false)
    | some _, .esc => (exitBrowse d, false)
    | _, _ => handleKeys L d ev

/-! ## The running dashboard -/

/-- What happens to a running dashboard, one event at a time: a key reaches
`handleInput`; the ticker calls `scheduleUpdate`; the worker takes the signal out of
the channel; the function `update` queued lands with the texts fetched; the text
a logs or describe goroutine fetched lands in the modal; the toast of `showInfo`
appears, its page removed and added again, and goes, its page removed; the toolkit
moves the focus, as on a mouse click; the toolkit lays a text view out or scrolls
it. -/
inductive Event
  | key (k : Key)
  | tick
  | receive
  | commit (f : Fetched)
  | modalText (text : Str)
  | toastShow (msg : Str)
  | toastHide
  | focusMoved (p : Primitive)
  | geometry (v : TextView) (row col height : Int)

/-- The effect of one event on the dashboard. -/
def step (L : Lib) (d : Dashboard) : Event → Dashboard
  | .key k => (handleInput L d k).1
  | .tick => scheduleUpdate d
  | .receive => { d with updateCh := d.updateCh - 1 }
  | .commit f => update L d f
  | .modalText text => d.setText .modalLogs text
  | .toastShow msg =>
    let d1 := pagesRefocus L { d with infoPage := false }
    let d2 := d1.setText .infoPopup msg
    pagesRefocus L { d2 with infoPage := true }
  | .toastHide => pagesRefocus L { d with infoPage := false }
  | .focusMoved p => d.setFocus p
  | .geometry v row col height =>
    { d with views := (Function.update d.views v
        { (d.views v) with scrollRow := row, scrollCol := col, innerHeight := height }) }

/-- The dashboard after a list of events, first event first. -/
def run (L : Lib) (d : Dashboard) (evs : List Event) : Dashboard :=
  evs.foldl (step L) d

/-- The head of the method `Run` of ui.go, up to the start of the event loop:
`setPage(d.currentPage)` and `scheduleUpdate()` on a new dashboard. -/
def started (L : Lib) (ns : Str) : Dashboard :=
  scheduleUpdate (setPage L (NewDashboard ns) (NewDashboard ns).currentPage)

/-- The states a dashboard started for some namespace filter goes through. -/
def Reachable (L : Lib) (d : Dashboard) : Prop :=
  ∃ (ns : Str) (evs : List Event), d = run L (started L ns) evs

/-! ## The namespace list of the data layer -/

/-- The loop of `BuildNamespaces` in data.go: the names it appends, in order. -/
def namespaceNames : List Str → List Str
  | [] => []
  | line :: rest =>
    if TrimSpace line = [] then namespaceNames rest
    else
      match Fields line with
      | [] => namespaceNames rest
      | name :: _ => name :: namespaceNames rest

/-- The second result of `BuildNamespaces` in data.go, from the output of the
namespace listing command: the empty name of the entry ALL, then the first field
of every non-blank line. -/
def BuildNamespacesNames (out : Str) : List Str :=
  [] :: namespaceNames (SplitLines (TrimSpace out))

/-! ## The pages and the data layer -/

/-- The function `buildInfra` of data.go, from the output of the node listing. -/
def buildInfra (nodesOut : Str) : Str := TrimSpace nodesOut ++ "\n".toList

/-- The function `buildCRD` of data.go, from the output of the CRD listing. -/
def buildCRD (crdOut : Str) : Str := TrimSpace crdOut ++ "\n".toList

/-- The function `BuildInfraGroup` of data.go, from the outputs of the two listing
commands: each non-blank listing is written under its title line, `NODES` and
`CRDs`, and followed by a blank line. -/
def BuildInfraGroup (nodesOut crdOut : Str) : Str :=
  let nodes := TrimSpace (buildInfra nodesOut)
  let b1 : Str := if nodes ≠ [] then "NODES\n".toList ++ nodes ++ "\n\n".toList else []
  let crd := TrimSpace (buildCRD crdOut)
  let b2 : Str := if crd ≠ [] then b1 ++ ("CRDs\n".toList ++ crd ++ "\n\n".toList) else b1
  TrimSpace b2

/-- The constant `theme.Red`. -/
def themeRed : Str := "[red]".toList

/-- The cases of the status switch of `BuildAlerts`. -/
def alerting (status : Str) : Bool :=
  status = "CrashLoopBackOff".toList || status = "Error".toList
    || status = "ImagePullBackOff".toList || status = "ErrImagePull".toList
    || status = "Pending".toList || status = "CreateContainerError".toList

/-- The loop of `BuildAlerts` over the lines of the pod listing, with the text
built so far and the counter. The statement `if count >= 5 { break }` stands inside
the `switch`, so it leaves the `switch` and not the loop: the loop goes on to the
next line whatever the counter is. -/
def alertsLoop : List Str → Str → Nat → Str × Nat
  | [], alerts, count => (alerts, count)
  | l :: rest, alerts, count =>
    if l = [] then alertsLoop rest alerts count
    else
      let f := Fields l
      if f.length < 3 then alertsLoop rest alerts count
      else
        let name := f.getD 0 []
        let status := f.getD 2 []
        if alerting status then
          alertsLoop rest
            (alerts ++ (themeRed ++ "⚠ ".toList ++ name ++ ": ".toList ++ status
              ++ themeReset ++ "\n".toList))
            (count + 1)
        else alertsLoop rest alerts count

/-- The function `BuildAlerts` of data.go, from the output of the pod listing
command. -/
def BuildAlerts (out : Str) : Str :=
  TrimSpace (alertsLoop (SplitLines out) [] 0).1

/-! ## Displayed and cached text -/

/-- The panels whose text a refresh fetches and caches, in the order of
`fetchedTexts`. -/
def dataPanels : List TextView :=
  [.namespacesView, .overview, .alertsView, .configView, .networkView, .storageView,
    .infraView, .workloadsView, .podsView, .metricsView, .eventsView]

/-- The panels `setPlaceholders` writes. -/
def placeholderPanels : List TextView :=
  [.overview, .alertsView, .eventsView, .workloadsView, .podsView, .infraView,
    .configView, .networkView, .storageView, .metricsView]

/-- A panel displays its cached text; a panel whose cached text is blank may display
the empty text instead, as `adjust` makes it. -/
def ShowsCache (d : Dashboard) (b : TextView) : Prop :=
  (d.views b).text = d.cached b ∨ (TrimSpace (d.cached b) = [] ∧ (d.views b).text = [])

/-- The displayed texts agree with the cache: every data panel other than the one in
browse mode displays its cached text, and the panel in browse mode has a cached
text, to which `exitBrowse` can return. -/
def InSync (d : Dashboard) : Prop :=
  (∀ b ∈ dataPanels, d.browseBox ≠ some b → ShowsCache d b) ∧
  (∀ b : TextView, d.browseBox = some b → ∃ raw : Str, d.contentCache b = some raw)

/-! ## A sample run -/

/-- The texts of a refresh of a small cluster, used in the examples: one
deployment, two pods, the namespaces `default` and `kube-system`. -/
def sampleFetched : Fetched :=
  { summary := "NS ALL".toList,
    nsView := "0) ALL\n1) default\n2) kube-system\n".toList,
    nsNames := [[], "default".toList, "kube-system".toList],
    alerts := [], cfg := [], net := [], storage := [], infra := [],
    wl := "DEPLOY\nNAME READY UP-TO-DATE AVAILABLE AGE\nweb 1/1 1 1 5d".toList,
    pods := "NAME READY STATUS RESTARTS AGE\nnginx-7d 1/1 Running 0 5d\nredis-0 1/1 Running 0 5d\n".toList,
    metrics := [], events := [] }

/-- A dashboard started without a namespace filter, after its first refresh and a
press of the down key, which moves the focus to the pods panel. -/
def sampleFocused : Dashboard :=
  run asciiLib (started asciiLib []) [.commit sampleFetched, .key .down]

/-! # Theorems -/

/-! ## Strings: fields of a trimmed line -/

theorem FieldsGo_some_ne_nil (w : Str) (l : Str) : FieldsGo (some w) l ≠ [] := by
  induction l generalizing w with
  | nil => simp [FieldsGo]
  | cons c cs ih =>
    by_cases hc : isSpace c = true
    · simp [FieldsGo, hc]
    · simpa [FieldsGo, hc] using ih (c :: w)

theorem FieldsGo_none_eq_nil (l : Str) (h : FieldsGo none l = []) :
    ∀ x ∈ l, isSpace x = true := by
  induction l with
  | nil => simp
  | cons c cs ih =>
    by_cases hc : isSpace c = true
    · simp only [FieldsGo, hc, if_true] at h
      intro x hx
      rcases List.mem_cons.1 hx with rfl | hx
      · exact hc
      · exact ih h x hx
    · simp only [FieldsGo, hc] at h
      exact absurd h (FieldsGo_some_ne_nil _ _)

theorem FieldsGo_some_single (l : Str) (w : Str)
    (hlen : (FieldsGo (some w) l).length = 1)
    (hlast : ∀ h : l ≠ [], isSpace (l.getLast h) = false) :
    FieldsGo (some w) l = [w.reverse ++ l] := by
  induction l generalizing w with
  | nil => simp [FieldsGo]
  | cons c cs ih =>
    by_cases hc : isSpace c = true
    · exfalso
      simp only [FieldsGo, hc, if_true, List.length_cons, add_left_eq_self,
        List.length_eq_zero] at hlen
      have hall := FieldsGo_none_eq_nil cs hlen
      have h1 := hlast (List.cons_ne_nil _ _)
      have hmem : (c :: cs).getLast (List.cons_ne_nil _ _) ∈ c :: cs := List.getLast_mem _
      rcases List.mem_cons.1 hmem with h2 | h2
      · rw [h2, hc] at h1; exact Bool.noConfusion h1
      · rw [hall _ h2] at h1; exact Bool.noConfusion h1
    · simp only [FieldsGo, hc, Option.getD_some] at hlen ⊢
      have := ih (c :: w) hlen (by
        intro h
        have := hlast (List.cons_ne_nil _ _)
        rwa [List.getLast_cons h] at this)
      simpa using this

theorem TrimSpace_head (x : Str) (h : TrimSpace x ≠ []) :
    isSpace ((TrimSpace x).head h) = false := by
  unfold TrimSpace at h ⊢
  have hp := List.rdropWhile_prefix isSpace (x.dropWhile isSpace)
  rw [hp.head h]
  exact List.head_dropWhile_not _ _ _

theorem TrimSpace_last (x : Str) (h : TrimSpace x ≠ []) :
    isSpace ((TrimSpace x).getLast h) = false := by
  unfold TrimSpace at h ⊢
  simpa using List.rdropWhile_last_not isSpace (x.dropWhile isSpace) h

/-- A trimmed line with exactly one field is that field. -/
theorem Fields_TrimSpace_single (x : Str) (h : (Fields (TrimSpace x)).length = 1) :
    Fields (TrimSpace x) = [TrimSpace x] := by
  have hne : TrimSpace x ≠ [] := by
    intro h0
    rw [h0] at h
    simp [Fields, FieldsGo] at h
  have hh := TrimSpace_head x hne
  have hl := TrimSpace_last x hne
  generalize TrimSpace x = t at *
  match t, hne with
  | c :: r, _ =>
    simp only [List.head_cons] at hh
    simp only [Fields, FieldsGo, hh, Option.getD_none] at h ⊢
    have := FieldsGo_some_single r [c] h (by
      intro hr
      rwa [List.getLast_cons hr] at hl)
    simpa using this


theorem ToUpper_ascii (L : Lib) (s : Str) (h : ∀ c ∈ s, c.toNat < 128) :
    ToUpper L s = s.map asciiUpper := by
  unfold ToUpper
  exact List.map_congr_left (fun c hc => L.upper_ascii c (h c hc))

theorem ToLower_ascii (L : Lib) (s : Str) (h : ∀ c ∈ s, c.toNat < 128) :
    ToLower L s = s.map asciiLower := by
  unfold ToLower
  exact List.map_congr_left (fun c hc => L.lower_ascii c (h c hc))

theorem lineAt_append (pre post : List Str) (l : Str) :
    lineAt (pre ++ l :: post) (pre.length : Int) = l := by
  simp [lineAt, List.getD_eq_getElem?_getD]
  exact List.getElem_append_right (Nat.le_refl _) |>.trans (by simp)

theorem isSelectable_spec (L : Lib) (box : TextView) (lines : List Str) (idx : Int) :
    isSelectable L box lines idx = true ↔
      (0 ≤ idx ∧ idx < (lines.length : Int)) ∧
      TrimSpace (lineAt lines idx) ≠ [] ∧
      ToUpper L (TrimSpace (lineAt lines idx)) ≠ TrimSpace (lineAt lines idx) ∧
      Contains (ToLower L (Join (Fields (TrimSpace (lineAt lines idx))) " ".toList))
        "no resources found".toList = false ∧
      (Fields (TrimSpace (lineAt lines idx))).head? ≠ some "NAME".toList ∧
      (if box = .alertsView ∨ box = .eventsView then 1 else 2)
        ≤ (Fields (TrimSpace (lineAt lines idx))).length := by
  unfold isSelectable
  generalize hline : TrimSpace (lineAt lines idx) = line
  generalize "no resources found".toList = phrase
  generalize "NAME".toList = nm
  generalize " ".toList = sp
  by_cases hr : idx < 0 ∨ idx ≥ (lines.length : Int)
  · rw [if_pos hr]
    constructor
    · intro h; exact Bool.noConfusion h
    · rintro ⟨⟨h1, h2⟩, -⟩; omega
  rw [if_neg hr]
  have hr' : 0 ≤ idx ∧ idx < (lines.length : Int) := by omega
  by_cases h1 : line = []
  · simp [h1]
  by_cases h2 : ToUpper L line = line
  · simp [h1, h2]
  simp only [h1, h2, if_false, hr', true_and, ne_eq, not_false_eq_true]
  have hdead : ¬ (ToUpper L ((Fields line).headD []) = (Fields line).headD [] ∧
      byteLen ((Fields line).headD []) ≤ 8 ∧ (Fields line).length = 1) := by
    rintro ⟨hu, -, hlen⟩
    subst hline
    rw [Fields_TrimSpace_single _ hlen] at hu
    exact h2 hu
  cases hf : Fields line with
  | nil =>
    simp only [List.length_nil, if_true, Bool.false_eq_true, false_iff, not_and, not_le]
    intro _ _
    split <;> omega
  | cons f fs =>
    rw [hf] at hdead
    simp only [List.length_cons, List.headD_cons, List.head?_cons, Option.some.injEq] at hdead ⊢
    by_cases h3 : Contains (ToLower L (Join (f :: fs) sp)) phrase = true
    · simp [h3]
    by_cases h4 : f = nm
    · simp [h4]
    simp only [h3, h4, hdead, if_false, Bool.not_eq_true, not_false_eq_true, true_and]
    have h5 : (fs.length + 1 = 0) = False := by simp
    simp only [h5, if_false]
    cases box <;> simp
    all_goals first | omega | (cases fs <;> simp)


/-- C1, as stated, fails: in the pods panel the line `No  resources found here`, with
two spaces after the first word, meets every condition of the claim (the trimmed
line, lower-cased, does not contain the phrase), and `isSelectable` rejects it,
because it looks for the phrase in the fields joined by single spaces. The text
is ASCII, on which every library agrees with `asciiLib`. -/
theorem isSelectable_phrase_counterexample :
    isSelectable asciiLib .podsView ["No  resources found here".toList] 0 = false ∧
    ((0 : Int) ≤ 0 ∧ (0 : Int) < (["No  resources found here".toList].length : Int)) ∧
    TrimSpace (lineAt ["No  resources found here".toList] 0) ≠ [] ∧
    ToUpper asciiLib (TrimSpace (lineAt ["No  resources found here".toList] 0))
      ≠ TrimSpace (lineAt ["No  resources found here".toList] 0) ∧
    Contains (ToLower asciiLib (TrimSpace (lineAt ["No  resources found here".toList] 0)))
      "no resources found".toList = false ∧
    (Fields (TrimSpace (lineAt ["No  resources found here".toList] 0))).head?
      ≠ some "NAME".toList ∧
    2 ≤ (Fields (TrimSpace (lineAt ["No  resources found here".toList] 0))).length := by
  decide

/-- C1, amended: `isSelectable` is true exactly when the index is in range and the
trimmed line is non-empty, differs from its own upper-casing, does not contain
`no resources found` once its fields are joined by single spaces and lower-cased,
does not have `NAME` as its first field, and has at least two fields, one sufficing
in the alerts and events panels. A line `NAME READY STATUS` is selectable in no
panel and a line `nginx-7d 1/1 Running` is selectable in the pods panel, wherever
they stand in the text. -/
theorem isSelectable_rule (L : Lib) (box : TextView) (lines : List Str) (idx : Int) :
    (isSelectable L box lines idx = true ↔
      (0 ≤ idx ∧ idx < (lines.length : Int)) ∧
      TrimSpace (lineAt lines idx) ≠ [] ∧
      ToUpper L (TrimSpace (lineAt lines idx)) ≠ TrimSpace (lineAt lines idx) ∧
      Contains (ToLower L (Join (Fields (TrimSpace (lineAt lines idx))) " ".toList))
        "no resources found".toList = false ∧
      (Fields (TrimSpace (lineAt lines idx))).head? ≠ some "NAME".toList ∧
      (if box = .alertsView ∨ box = .eventsView then 1 else 2)
        ≤ (Fields (TrimSpace (lineAt lines idx))).length) ∧
    (∀ pre post : List Str,
      isSelectable L box (pre ++ "NAME READY STATUS".toList :: post) pre.length = false) ∧
    (∀ pre post : List Str,
      isSelectable L .podsView (pre ++ "nginx-7d 1/1 Running".toList :: post) pre.length
        = true) := by
  refine ⟨isSelectable_spec L box lines idx, ?_, ?_⟩
  · intro pre post
    rw [← Bool.not_eq_true, isSelectable_spec, lineAt_append]
    rintro ⟨-, -, -, -, h, -⟩
    exact h (by decide)
  · intro pre post
    rw [isSelectable_spec, lineAt_append]
    have hasc : ∀ c ∈ TrimSpace "nginx-7d 1/1 Running".toList, c.toNat < 128 := by decide
    have hasc2 : ∀ c ∈ Join (Fields (TrimSpace "nginx-7d 1/1 Running".toList)) " ".toList,
        c.toNat < 128 := by decide
    refine ⟨⟨by omega, by simp⟩, by decide, ?_, ?_, by decide, by decide⟩
    · rw [ToUpper_ascii L _ hasc]; decide
    · rw [ToLower_ascii L _ hasc2]; decide

/-! ## The resolver of names and namespaces -/

theorem asciiLower_eq_of_beq (L : Lib) (a b : Char) (hb : b.toNat < 128)
    (h1 : b ≠ 'k') (h2 : b ≠ 'K') (h3 : b ≠ 's') (h4 : b ≠ 'S') (hlow : asciiLower b = b) :
    ((a == b || L.foldEq a b) = true) ↔ asciiLower a = b := by
  rw [L.fold_ascii a b hb h1 h2 h3 h4, hlow]
  constructor
  · intro h
    rw [Bool.or_eq_true] at h
    rcases h with h | h
    · rw [beq_iff_eq] at h; rw [h, hlow]
    · exact beq_iff_eq.1 h
  · intro h
    simp [h]

/-- With the three-letter word `all`, `EqualFold` is equality after ASCII
lower-casing: neither letter has a folding partner outside ASCII. -/
theorem EqualFold_all (L : Lib) (t : Str) :
    EqualFold L t "all".toList = true ↔ t.map asciiLower = "all".toList := by
  have ha := fun a => asciiLower_eq_of_beq L a 'a' (by decide) (by decide) (by decide)
    (by decide) (by decide) (by decide)
  have hl := fun a => asciiLower_eq_of_beq L a 'l' (by decide) (by decide) (by decide)
    (by decide) (by decide) (by decide)
  show EqualFold L t ['a', 'l', 'l'] = true ↔ t.map asciiLower = ['a', 'l', 'l']
  match t with
  | [] => simp [EqualFold]
  | [_] => simp [EqualFold]
  | [_, _] => simp [EqualFold]
  | [a, b, c] =>
    simp only [EqualFold, Bool.and_eq_true, ha, hl, List.map_cons, List.map_nil,
      List.cons.injEq, and_true]
  | _ :: _ :: _ :: _ :: _ => simp [EqualFold]

theorem isAllNS_iff (L : Lib) (t : Str) :
    isAllNS L t = true ↔ (t = [] ∨ t.map asciiLower = "all".toList) := by
  unfold isAllNS
  rw [Bool.or_eq_true, decide_eq_true_iff, EqualFold_all]

theorem resourceNameFor_eq (L : Lib) (box : TextView) (line ns : Str) :
    resourceNameFor L box line ns =
      if box = .infraView ∨ box = .storageView then (Fields line).headD []
      else if TrimSpace ns = [] ∨ (TrimSpace ns).map asciiLower = "all".toList then
        (Fields line).getD 1 []
      else (Fields line).headD [] := by
  unfold resourceNameFor
  simp only [isAllNS_iff]
  cases hf : Fields line with
  | nil => simp
  | cons f fs =>
    have h0 : ¬ ((f :: fs).length = 0) := by simp
    have h1 : (f :: fs).length > 0 := by simp
    simp only [h0, if_false, h1, and_true, List.headD_cons]
    split
    · rfl
    · split
      · cases fs with
        | nil => simp
        | cons g gs => simp
      · rfl

theorem resourceNSFor_eq (L : Lib) (box : TextView) (line ns : Str)
    (h : 1 ≤ (Fields line).length) :
    resourceNSFor L box line ns =
      if TrimSpace ns = [] ∨ (TrimSpace ns).map asciiLower = "all".toList then
        (Fields line).headD []
      else TrimSpace ns := by
  unfold resourceNSFor
  have h0 : ¬ ((Fields line).length = 0) := by omega
  simp only [h0, if_false, isAllNS_iff]

/-- C2: `resourceNameFor` returns the first field of the line in the infra and
storage panels whatever the filter; in any other panel the second field when the
trimmed filter is empty or is `all` up to case, and the first field for a specific
namespace filter. A field the line does not have reads as the empty string. In the
pods panel, filter `all` and row `kube-system coredns-abc 1/1 Running` give
`coredns-abc`, and filter `default` and row `coredns-abc 1/1 Running` give
`coredns-abc`. -/
theorem resourceNameFor_rule (L : Lib) (box : TextView) (line ns : Str) :
    (resourceNameFor L box line ns =
      if box = .infraView ∨ box = .storageView then (Fields line).headD []
      else if TrimSpace ns = [] ∨ (TrimSpace ns).map asciiLower = "all".toList then
        (Fields line).getD 1 []
      else (Fields line).headD []) ∧
    resourceNameFor L .podsView "kube-system coredns-abc 1/1 Running".toList "all".toList
      = "coredns-abc".toList ∧
    resourceNameFor L .podsView "coredns-abc 1/1 Running".toList "default".toList
      = "coredns-abc".toList := by
  refine ⟨resourceNameFor_eq L box line ns, ?_, ?_⟩
  · rw [resourceNameFor_eq]; decide
  · rw [resourceNameFor_eq]; decide

/-- C3: for every panel and every line with at least one field, `resourceNSFor`
returns the first field of the line when the trimmed filter is empty or is `all` up
to case, and the trimmed filter otherwise. Filter `all` and row
`kube-system coredns-abc 1/1 Running` give `kube-system`; filter `default` and row
`coredns-abc 1/1 Running` give `default`. -/
theorem resourceNSFor_rule (L : Lib) (box : TextView) (line ns : Str)
    (h : 1 ≤ (Fields line).length) :
    (resourceNSFor L box line ns =
      if TrimSpace ns = [] ∨ (TrimSpace ns).map asciiLower = "all".toList then
        (Fields line).headD []
      else TrimSpace ns) ∧
    resourceNSFor L .podsView "kube-system coredns-abc 1/1 Running".toList "all".toList
      = "kube-system".toList ∧
    resourceNSFor L .podsView "coredns-abc 1/1 Running".toList "default".toList
      = "default".toList := by
  refine ⟨resourceNSFor_eq L box line ns h, ?_, ?_⟩
  · rw [resourceNSFor_eq L _ _ _ (by decide)]; decide
  · rw [resourceNSFor_eq L _ _ _ (by decide)]; decide

/-- The rule of C3 at the config panel, the row `default app-config 3 5d` and the
filter ` ALL `, written in capitals between spaces: the namespace is the first
field of the row. -/
theorem resourceNSFor_rule_witness :
    1 ≤ (Fields "default app-config 3 5d".toList).length ∧
    resourceNSFor asciiLib .configView "default app-config 3 5d".toList " ALL ".toList
      = "default".toList :=
  ⟨by decide, by
    rw [(resourceNSFor_rule asciiLib .configView "default app-config 3 5d".toList
      " ALL ".toList (by decide)).1]
    decide⟩

/-! ## The resolver of kinds -/

theorem scanUp_spec (kindOf : Str → Option Str) (lines : List Str) (n : Nat) :
    (∃ j, j ≤ n ∧ kindOf (TrimSpace (lines.getD j [])) = some (scanUp kindOf lines n) ∧
      ∀ i, j < i → i ≤ n → kindOf (TrimSpace (lines.getD i [])) = none) ∨
    ((∀ j, j ≤ n → kindOf (TrimSpace (lines.getD j [])) = none) ∧
      scanUp kindOf lines n = []) := by
  induction n with
  | zero =>
    cases h : kindOf (TrimSpace (lines.getD 0 [])) with
    | none =>
      right
      refine ⟨?_, by simp only [scanUp, h]⟩
      intro j hj
      have : j = 0 := by omega
      rw [this, h]
    | some k =>
      left
      refine ⟨0, le_refl _, by simp only [scanUp, h], ?_⟩
      intro i h1 h2
      omega
  | succ n ih =>
    cases h : kindOf (TrimSpace (lines.getD (n + 1) [])) with
    | some k =>
      left
      refine ⟨n + 1, le_refl _, by simp only [scanUp, h], ?_⟩
      intro i h1 h2
      omega
    | none =>
      have hs : scanUp kindOf lines (n + 1) = scanUp kindOf lines n := by
        simp only [scanUp, h]
      rw [hs]
      rcases ih with ⟨j, hj, hk, hno⟩ | ⟨hno, he⟩
      · left
        refine ⟨j, by omega, hk, ?_⟩
        intro i h1 h2
        by_cases hi : i = n + 1
        · rw [hi, h]
        · exact hno i h1 (by omega)
      · right
        refine ⟨?_, he⟩
        intro j hj
        by_cases hi : j = n + 1
        · rw [hi, h]
        · exact hno j (by omega)

theorem resourceKindFor_multi (box : TextView) (lines : List Str) (idx : Int)
    (hb : multiKind box = true) (h0 : 0 ≤ idx) (h1 : idx < (lines.length : Int)) :
    resourceKindFor box lines idx = scanUp (titleKind box) lines idx.toNat := by
  unfold resourceKindFor
  have hr : ¬ (idx < 0 ∨ idx ≥ (lines.length : Int)) := by omega
  rw [if_neg hr]
  cases box <;> first | rfl | exact absurd hb (by decide)

theorem titleKind_eq_lookup (box : TextView) (t : Str) :
    titleKind box t = lookupTitle (groupTitles box) t := by
  cases box <;> rfl

theorem lookupTitle_some (tb : List (Str × Str)) (t k : Str)
    (h : lookupTitle tb t = some k) : (t, k) ∈ tb := by
  induction tb with
  | nil => simp [lookupTitle] at h
  | cons p rest ih =>
    obtain ⟨a, b⟩ := p
    simp only [lookupTitle] at h
    split at h
    · rename_i hta
      simp only [Option.some.injEq] at h
      rw [hta, h]
      exact List.mem_cons_self _ _
    · exact List.mem_cons_of_mem _ (ih h)

theorem lookupTitle_none (tb : List (Str × Str)) (t : Str)
    (h : lookupTitle tb t = none) : ∀ p ∈ tb, p.1 ≠ t := by
  induction tb with
  | nil => intro p hp; cases hp
  | cons q rest ih =>
    obtain ⟨a, b⟩ := q
    simp only [lookupTitle] at h
    split at h
    · cases h
    · rename_i hta
      intro p hp
      rcases List.mem_cons.1 hp with rfl | hp
      · exact fun e => hta e.symm
      · exact ih h p hp

/-- C4: for an index out of range `resourceKindFor` returns the empty string. For an
index in range it returns `pod` in the pods and alerts panels; in a multi-kind
panel (workloads, config, network, storage, infra) it returns the kind tag that the
table of group titles gives the nearest line at or above the index whose trimmed
text is a title of the panel, and the empty string when no line at or above the
index is a title; in any other panel the empty string. The table is written out
title by title: DEPLOY, RS, STS, DS, JOBS and CRONJOBS in the workloads panel,
SECRETS, CONFIGMAPS and SERVICEACCOUNTS in the config panel, SVC, INGRESS and
ENDPOINTS in the network panel, PVC and PV in the storage panel, NODES and CRDS in
the infra panel. In a workloads text with a deployment block and a stateful-set
block, a row of the first resolves to `deploy` and a row of the second to `sts`. -/
theorem resourceKindFor_rule (box : TextView) (lines : List Str) (idx : Int) :
    ((idx < 0 ∨ (lines.length : Int) ≤ idx) → resourceKindFor box lines idx = []) ∧
    ((0 ≤ idx ∧ idx < (lines.length : Int)) →
      ((box = .podsView ∨ box = .alertsView) → resourceKindFor box lines idx = "pod".toList) ∧
      (multiKind box = true →
        ((∃ j, j ≤ idx.toNat ∧
            (TrimSpace (lines.getD j []), resourceKindFor box lines idx) ∈ groupTitles box ∧
            ∀ i, j < i → i ≤ idx.toNat →
              ∀ p ∈ groupTitles box, p.1 ≠ TrimSpace (lines.getD i [])) ∨
          ((∀ j, j ≤ idx.toNat →
              ∀ p ∈ groupTitles box, p.1 ≠ TrimSpace (lines.getD j [])) ∧
            resourceKindFor box lines idx = []))) ∧
      ((multiKind box = false ∧ box ≠ .podsView ∧ box ≠ .alertsView) →
        resourceKindFor box lines idx = [])) ∧
    (groupTitles .workloadsView =
        [("DEPLOY".toList, "deploy".toList), ("RS".toList, "rs".toList),
          ("STS".toList, "sts".toList), ("DS".toList, "ds".toList),
          ("JOBS".toList, "jobs".toList), ("CRONJOBS".toList, "cronjobs".toList)] ∧
      groupTitles .configView =
        [("SECRETS".toList, "secrets".toList), ("CONFIGMAPS".toList, "configmaps".toList),
          ("SERVICEACCOUNTS".toList, "serviceaccounts".toList)] ∧
      groupTitles .networkView =
        [("SVC".toList, "svc".toList), ("INGRESS".toList, "ingress".toList),
          ("ENDPOINTS".toList, "endpoints".toList)] ∧
      groupTitles .storageView = [("PVC".toList, "pvc".toList), ("PV".toList, "pv".toList)] ∧
      groupTitles .infraView = [("NODES".toList, "nodes".toList), ("CRDS".toList, "crd".toList)]) ∧
    (resourceKindFor .workloadsView
        ["DEPLOY".toList, "NAME READY".toList, "web 1/1".toList, [], "  STS ".toList,
          "NAME READY".toList, "db 1/1".toList] 2 = "deploy".toList ∧
      resourceKindFor .workloadsView
        ["DEPLOY".toList, "NAME READY".toList, "web 1/1".toList, [], "  STS ".toList,
          "NAME READY".toList, "db 1/1".toList] 6 = "sts".toList ∧
      resourceKindFor .storageView ["NAME CAPACITY".toList, "pv-1 10Gi".toList] 1 = []) := by
  refine ⟨?_, ?_, ⟨rfl, rfl, rfl, rfl, rfl⟩, by decide, by decide, by decide⟩
  · intro h
    unfold resourceKindFor
    rw [if_pos (by omega)]
  · rintro ⟨h0, h1⟩
    have hr : ¬ (idx < 0 ∨ idx ≥ (lines.length : Int)) := by omega
    refine ⟨?_, ?_, ?_⟩
    · rintro (rfl | rfl) <;> simp only [resourceKindFor, if_neg hr]
    · intro hb
      rw [resourceKindFor_multi box lines idx hb h0 h1]
      rcases scanUp_spec (titleKind box) lines idx.toNat with ⟨j, hj, hk, hno⟩ | ⟨hno, he⟩
      · left
        refine ⟨j, hj, ?_, ?_⟩
        · rw [titleKind_eq_lookup] at hk
          exact lookupTitle_some _ _ _ hk
        · intro i h1 h2
          have := hno i h1 h2
          rw [titleKind_eq_lookup] at this
          exact lookupTitle_none _ _ this
      · right
        refine ⟨?_, he⟩
        intro j hj
        have := hno j hj
        rw [titleKind_eq_lookup] at this
        exact lookupTitle_none _ _ this
    · rintro ⟨hb, hp, ha⟩
      unfold resourceKindFor
      rw [if_neg hr]
      cases box
      all_goals first
        | rfl
        | exact absurd hb (by decide)
        | exact absurd rfl hp
        | exact absurd rfl ha

/-! ## The search for a selectable line -/

theorem isSelectable_range (L : Lib) (box : TextView) (lines : List Str) (i : Int)
    (h : isSelectable L box lines i = true) : 0 ≤ i ∧ i < (lines.length : Int) :=
  ((isSelectable_spec L box lines i).1 h).1

theorem findWrap_in_range (L : Lib) (box : TextView) (lines : List Str) (delta : Int)
    (c : Nat) (i : Int) (h0 : 0 ≤ i) (h1 : i < (lines.length : Int)) :
    findWrap L box lines delta (c + 1) i =
      if isSelectable L box lines i = true then i
      else findWrap L box lines delta c (i + delta) := by
  have a1 : ¬ (i < 0) := by omega
  have a2 : ¬ (i ≥ (lines.length : Int)) := by omega
  simp only [findWrap, a1, a2, if_false]

theorem findWrap_below (L : Lib) (box : TextView) (lines : List Str) (delta : Int)
    (c : Nat) (i : Int) (h0 : i < 0) (hn : 0 < lines.length) :
    findWrap L box lines delta c i =
      findWrap L box lines delta c ((lines.length : Int) - 1) := by
  cases c with
  | zero => rfl
  | succ c =>
    have a1 : ¬ ((lines.length : Int) - 1 < 0) := by omega
    simp only [findWrap, h0, a1, if_true, if_false]

theorem findWrap_above (L : Lib) (box : TextView) (lines : List Str) (delta : Int)
    (c : Nat) (i : Int) (h0 : (lines.length : Int) ≤ i) (hn : 0 < lines.length) :
    findWrap L box lines delta c i = findWrap L box lines delta c 0 := by
  cases c with
  | zero => rfl
  | succ c =>
    have a1 : ¬ (i < 0) := by omega
    have a2 : i ≥ (lines.length : Int) := h0
    have a3 : ¬ ((0 : Int) < 0) := by omega
    have a4 : ¬ ((0 : Int) ≥ (lines.length : Int)) := by omega
    simp only [findWrap, a1, a2, a3, a4, if_true, if_false]

/-- A forward scan of `c` lines from line `i` that stays inside the text: it fails
when none of them is selectable and otherwise returns the first that is. -/
theorem findWrap_forward (L : Lib) (box : TextView) (lines : List Str) (c : Nat) :
    ∀ i : Int, 0 ≤ i → i + c ≤ (lines.length : Int) →
      (findWrap L box lines 1 c i = -1 ∧
        ∀ j : Int, i ≤ j → j < i + c → isSelectable L box lines j = false) ∨
      (i ≤ findWrap L box lines 1 c i ∧ findWrap L box lines 1 c i < i + c ∧
        isSelectable L box lines (findWrap L box lines 1 c i) = true ∧
        ∀ j : Int, i ≤ j → j < findWrap L box lines 1 c i →
          isSelectable L box lines j = false) := by
  induction c with
  | zero =>
    intro i _ _
    left
    refine ⟨rfl, ?_⟩
    intro j h1 h2
    simp only [Nat.cast_zero, add_zero] at h2
    omega
  | succ c ih =>
    intro i h0 h1
    have hlt : i < (lines.length : Int) := by push_cast at h1; omega
    rw [findWrap_in_range L box lines 1 c i h0 hlt]
    by_cases hs : isSelectable L box lines i = true
    · right
      rw [if_pos hs]
      refine ⟨le_refl _, by push_cast; omega, hs, ?_⟩
      intro j h2 h3
      omega
    · rw [if_neg hs]
      have hs' : isSelectable L box lines i = false := by simpa using hs
      rcases ih (i + 1) (by omega) (by push_cast at h1 ⊢; omega) with ⟨hr, hall⟩ | ⟨g1, g2, g3, g4⟩
      · left
        refine ⟨hr, ?_⟩
        intro j h2 h3
        by_cases hj : j = i
        · rw [hj]; exact hs'
        · exact hall j (by omega) (by push_cast at h3 ⊢; omega)
      · right
        refine ⟨by omega, by push_cast at g2 ⊢; omega, g3, ?_⟩
        intro j h2 h3
        by_cases hj : j = i
        · rw [hj]; exact hs'
        · exact g4 j (by omega) h3

theorem findWrap_split (L : Lib) (box : TextView) (lines : List Str) (a b : Nat) :
    ∀ i : Int, 0 ≤ i → i + a ≤ (lines.length : Int) →
      findWrap L box lines 1 (a + b) i =
        if findWrap L box lines 1 a i = -1 then findWrap L box lines 1 b (i + a)
        else findWrap L box lines 1 a i := by
  induction a with
  | zero =>
    intro i _ _
    simp [findWrap]
  | succ a ih =>
    intro i h0 h1
    have hlt : i < (lines.length : Int) := by push_cast at h1; omega
    have e : a + 1 + b = (a + b) + 1 := by omega
    rw [e, findWrap_in_range L box lines 1 (a + b) i h0 hlt,
      findWrap_in_range L box lines 1 a i h0 hlt]
    by_cases hs : isSelectable L box lines i = true
    · have : i ≠ -1 := by omega
      simp only [hs, if_true, this, if_false]
    · simp only [hs, if_false]
      rw [ih (i + 1) (by omega) (by push_cast at h1 ⊢; omega)]
      have e2 : i + 1 + (a : Int) = i + ((a + 1 : Nat) : Int) := by push_cast; omega
      rw [e2]
      simp

/-- The wrapping search of `findSelectable` with step 1, from a start already
inside the text: the first selectable line at or after the start, else the first
selectable line of the text, else -1 when no line is selectable. -/
theorem findWrap_full (L : Lib) (box : TextView) (lines : List Str) (s : Int)
    (h0 : 0 ≤ s) (h1 : s < (lines.length : Int)) :
    (findWrap L box lines 1 lines.length s = -1 ∧
      ∀ j : Int, isSelectable L box lines j = false) ∨
    (isSelectable L box lines (findWrap L box lines 1 lines.length s) = true ∧
      s ≤ findWrap L box lines 1 lines.length s ∧
      ∀ j : Int, s ≤ j → j < findWrap L box lines 1 lines.length s →
        isSelectable L box lines j = false) ∨
    (isSelectable L box lines (findWrap L box lines 1 lines.length s) = true ∧
      findWrap L box lines 1 lines.length s < s ∧
      (∀ j : Int, s ≤ j → isSelectable L box lines j = false) ∧
      ∀ j : Int, j < findWrap L box lines 1 lines.length s →
        isSelectable L box lines j = false) := by
  have hn : 0 < lines.length := by omega
  obtain ⟨a, ha⟩ : ∃ a : Nat, (a : Int) = (lines.length : Int) - s := ⟨((lines.length : Int) - s).toNat, by omega⟩
  obtain ⟨b, hb⟩ : ∃ b : Nat, (b : Int) = s := ⟨s.toNat, by omega⟩
  have hab : lines.length = a + b := by omega
  have hout : ∀ j : Int, (j < 0 ∨ (lines.length : Int) ≤ j) →
      isSelectable L box lines j = false := by
    intro j hj
    by_contra hc
    have := isSelectable_range L box lines j (by simpa using hc)
    omega
  have hsplit := findWrap_split L box lines a b s h0 (by omega)
  rw [← hab] at hsplit
  rcases findWrap_forward L box lines a s h0 (by omega) with ⟨hr, hall⟩ | ⟨g1, g2, g3, g4⟩
  · rw [hr, if_pos rfl, findWrap_above L box lines 1 b (s + a) (by omega) hn] at hsplit
    have hupper : ∀ j : Int, s ≤ j → isSelectable L box lines j = false := by
      intro j hj
      by_cases hjn : j < (lines.length : Int)
      · exact hall j hj (by omega)
      · exact hout j (by omega)
    rcases findWrap_forward L box lines b 0 (le_refl _) (by omega) with ⟨hr2, hall2⟩ | ⟨k1, k2, k3, k4⟩
    · left
      rw [hsplit]
      refine ⟨hr2, ?_⟩
      intro j
      by_cases hj : s ≤ j
      · exact hupper j hj
      · by_cases hj0 : 0 ≤ j
        · exact hall2 j hj0 (by omega)
        · exact hout j (by omega)
    · right; right
      rw [hsplit]
      refine ⟨k3, by omega, hupper, ?_⟩
      intro j hj
      by_cases hj0 : 0 ≤ j
      · exact k4 j hj0 hj
      · exact hout j (by omega)
  · right; left
    have hne : findWrap L box lines 1 a s ≠ -1 := by omega
    rw [if_neg hne] at hsplit
    rw [hsplit]
    exact ⟨g3, g1, g4⟩


theorem SplitLines_ne_nil (s : Str) : SplitLines s ≠ [] :=
  List.splitOnP_ne_nil _ _

theorem SplitLines_length_pos (s : Str) : 0 < (SplitLines s).length :=
  List.length_pos.2 (SplitLines_ne_nil s)

theorem isSelectable_out (L : Lib) (box : TextView) (lines : List Str) (j : Int)
    (hj : j < 0 ∨ (lines.length : Int) ≤ j) : isSelectable L box lines j = false := by
  by_contra hc
  have := isSelectable_range L box lines j (by simpa using hc)
  omega

/-- The search `findSelectable(box, lines, 1, 1, true)` of `enterBrowse`: the first
selectable line from line 1 on, else line 0 when it is selectable, else -1. -/
theorem findSelectable_enter (L : Lib) (box : TextView) (lines : List Str)
    (hn : 0 < lines.length) :
    (findSelectable L box lines 1 1 true = -1 ∧
      ∀ j : Int, isSelectable L box lines j = false) ∨
    (isSelectable L box lines (findSelectable L box lines 1 1 true) = true ∧
      1 ≤ findSelectable L box lines 1 1 true ∧
      ∀ j : Int, 1 ≤ j → j < findSelectable L box lines 1 1 true →
        isSelectable L box lines j = false) ∨
    (isSelectable L box lines (findSelectable L box lines 1 1 true) = true ∧
      findSelectable L box lines 1 1 true = 0 ∧
      ∀ j : Int, 1 ≤ j → isSelectable L box lines j = false) := by
  have e : findSelectable L box lines 1 1 true = findWrap L box lines 1 lines.length 1 := by
    have : ¬ (lines.length = 0 ∨ (1 : Int) = 0) := by omega
    simp only [findSelectable, this, if_false, if_true]
  rw [e]
  by_cases h1 : 1 < lines.length
  · rcases findWrap_full L box lines 1 (by omega) (by omega) with h | h | ⟨g1, g2, g3, _⟩
    · exact Or.inl h
    · exact Or.inr (Or.inl h)
    · right; right
      have := isSelectable_range L box lines _ g1
      exact ⟨g1, by omega, g3⟩
  · have hlen : lines.length = 1 := by omega
    rw [findWrap_above L box lines 1 lines.length 1 (by omega) hn]
    have hup : ∀ j : Int, 1 ≤ j → isSelectable L box lines j = false :=
      fun j hj => isSelectable_out L box lines j (by omega)
    rcases findWrap_full L box lines 0 (le_refl _) (by omega) with h | ⟨g1, _, _⟩ | ⟨g1, g2, _⟩
    · exact Or.inl h
    · right; right
      have := isSelectable_range L box lines _ g1
      exact ⟨g1, by omega, hup⟩
    · have := isSelectable_range L box lines _ g1
      omega

theorem followSelection_frame (d : Dashboard) (box : TextView) :
    ∃ v : TextView → Widget, followSelection d box = { d with views := v } := by
  unfold followSelection
  split
  · dsimp only
    split
    · exact ⟨_, rfl⟩
    · split
      · exact ⟨_, rfl⟩
      · split
        · exact ⟨_, rfl⟩
        · exact ⟨_, rfl⟩
  · exact ⟨_, rfl⟩

theorem reseek_frame (L : Lib) (d : Dashboard) (box : TextView) (lines : List Str) :
    ∃ s : Int, reseek L d box lines = { d with selectedLine := s } := by
  unfold reseek
  split
  · exact ⟨_, rfl⟩
  · exact ⟨_, rfl⟩

/-- What `highlightBox` leaves alone: everything but the widgets and the selected
line. -/
theorem highlightBox_frame (L : Lib) (d : Dashboard) (box : TextView) :
    ∃ (v : TextView → Widget) (s : Int),
      highlightBox L d box = { d with views := v, selectedLine := s } := by
  unfold highlightBox
  split
  · exact ⟨_, _, rfl⟩
  · dsimp only
    split
    · exact ⟨_, _, rfl⟩
    · split
      · exact ⟨_, _, rfl⟩
      · rename_i raw _ _ _
        obtain ⟨s, hs⟩ := reseek_frame L d box (SplitLines raw)
        split
        · rw [hs]; exact ⟨_, _, rfl⟩
        · obtain ⟨v, hv⟩ := followSelection_frame
            ((reseek L d box (SplitLines raw)).setText box
              (Join (markSelected (reseek L d box (SplitLines raw)).selectedLine 0
                (SplitLines raw)) "\n".toList)) box
          rw [hv, hs]
          exact ⟨_, _, rfl⟩


theorem isSelectable_empty_text (L : Lib) (box : TextView) (i : Int) :
    isSelectable L box (SplitLines []) i = false := by
  by_contra hc
  have h := (isSelectable_spec L box (SplitLines []) i).1 (by simpa using hc)
  have hlen : ((SplitLines []).length : Int) = 1 := by decide
  have hi : i = 0 := by have := h.1; omega
  subst hi
  exact h.2.1 (by decide)

theorem cached_ne_nil (d : Dashboard) (box : TextView) (h : d.cached box ≠ []) :
    d.contentCache box = some (d.cached box) := by
  unfold Dashboard.cached at h ⊢
  cases hc : d.contentCache box with
  | none => rw [hc] at h; exact absurd rfl h
  | some raw => rfl

/-- When the selected line is selectable, `highlightBox` shows the text with that
line inverted and scrolls it into view. -/
theorem highlightBox_of_selectable (L : Lib) (d : Dashboard) (box : TextView)
    (hsel : isSelectable L box (SplitLines (d.cached box)) d.selectedLine = true) :
    highlightBox L d box =
      followSelection (d.setText box
        (Join (markSelected d.selectedLine 0 (SplitLines (d.cached box))) "\n".toList)) box := by
  have hne : d.cached box ≠ [] := by
    intro h0
    rw [h0, isSelectable_empty_text] at hsel
    exact Bool.noConfusion hsel
  have hc := cached_ne_nil d box hne
  have hlen : ¬ ((SplitLines (d.cached box)).length = 0) := by
    have := SplitLines_length_pos (d.cached box); omega
  have hre : reseek L d box (SplitLines (d.cached box)) = d := by
    unfold reseek; rw [if_pos hsel]
  have hm1 : ¬ (d.selectedLine = -1) := by
    have := isSelectable_range L box _ _ hsel; omega
  unfold highlightBox
  rw [hc]
  simp only [hne, hlen, if_false, hre, hm1]

theorem followSelection_selectedLine (d : Dashboard) (box : TextView) :
    (followSelection d box).selectedLine = d.selectedLine := by
  obtain ⟨v, hv⟩ := followSelection_frame d box
  rw [hv]

theorem highlightBox_browseBox (L : Lib) (d : Dashboard) (box : TextView) :
    (highlightBox L d box).browseBox = d.browseBox := by
  obtain ⟨v, s, h⟩ := highlightBox_frame L d box
  rw [h]

theorem highlightBox_contentCache (L : Lib) (d : Dashboard) (box : TextView) :
    (highlightBox L d box).contentCache = d.contentCache := by
  obtain ⟨v, s, h⟩ := highlightBox_frame L d box
  rw [h]

theorem highlightBox_selectedLine_of_selectable (L : Lib) (d : Dashboard) (box : TextView)
    (hsel : isSelectable L box (SplitLines (d.cached box)) d.selectedLine = true) :
    (highlightBox L d box).selectedLine = d.selectedLine := by
  rw [highlightBox_of_selectable L d box hsel, followSelection_selectedLine]
  rfl

/-- The state `enterBrowse` hands to `highlightBox` once a start line is found. -/
theorem enterBrowse_of_start (L : Lib) (d : Dashboard) (box : TextView)
    (hb : browsable box = true)
    (hs : findSelectable L box (SplitLines (d.cached box)) 1 1 true ≠ -1) :
    enterBrowse L d box =
      highlightBox L ((applyBrowseStyle L
        { d with browseBox := some box,
                 selectedLine := findSelectable L box (SplitLines (d.cached box)) 1 1 true }
        box).setFocus (.textView box)) box := by
  unfold enterBrowse
  simp only [hb, Bool.not_true, Bool.false_eq_true, if_false, hs]

theorem enterBrowse_noop (L : Lib) (d : Dashboard) (box : TextView)
    (h : browsable box = false ∨
      findSelectable L box (SplitLines (d.cached box)) 1 1 true = -1) :
    enterBrowse L d box = d := by
  unfold enterBrowse
  rcases h with h | h
  · simp only [h, Bool.not_false, if_true]
  · by_cases hb : browsable box = true
    · simp only [hb, Bool.not_true, Bool.false_eq_true, if_false, h, if_true]
    · have : browsable box = false := by simpa using hb
      simp only [this, Bool.not_false, if_true]

/-- C5, as stated, fails: after a refresh in which the pod listing is the one-line
message `The connection to the server localhost:8080 was refused`, `enterBrowse` on
the pods panel enters browse mode with line 0 selected. -/
theorem enterBrowse_line0_counterexample :
    (enterBrowse asciiLib
      (run asciiLib (started asciiLib [])
        [.commit { summary := [], nsView := [], nsNames := [[]], alerts := [], cfg := [],
                   net := [], storage := [], infra := [], wl := [],
                   pods := "The connection to the server localhost:8080 was refused\n".toList,
                   metrics := [], events := [] }])
      .podsView).browseBox = some .podsView ∧
    (enterBrowse asciiLib
      (run asciiLib (started asciiLib [])
        [.commit { summary := [], nsView := [], nsNames := [[]], alerts := [], cfg := [],
                   net := [], storage := [], infra := [], wl := [],
                   pods := "The connection to the server localhost:8080 was refused\n".toList,
                   metrics := [], events := [] }])
      .podsView).selectedLine = 0 := by
  decide

/-- C5, amended: `enterBrowse` does nothing for a panel outside the allow-list or
whose cached text has no selectable line; otherwise it puts the panel into browse
mode with a selectable line selected, which is the smallest selectable index from 1
on when there is one, and line 0 when no line from 1 on is selectable. -/
theorem enterBrowse_rule (L : Lib) (d : Dashboard) (box : TextView) :
    ((browsable box = false ∨
        ∀ i : Int, isSelectable L box (SplitLines (d.cached box)) i = false) →
      enterBrowse L d box = d) ∧
    ((browsable box = true ∧
        ∃ i : Int, isSelectable L box (SplitLines (d.cached box)) i = true) →
      (enterBrowse L d box).browseBox = some box ∧
      isSelectable L box (SplitLines (d.cached box)) (enterBrowse L d box).selectedLine
        = true ∧
      ((∃ i : Int, 1 ≤ i ∧ isSelectable L box (SplitLines (d.cached box)) i = true) →
        1 ≤ (enterBrowse L d box).selectedLine ∧
        ∀ j : Int, 1 ≤ j → j < (enterBrowse L d box).selectedLine →
          isSelectable L box (SplitLines (d.cached box)) j = false) ∧
      ((∀ i : Int, 1 ≤ i → isSelectable L box (SplitLines (d.cached box)) i = false) →
        (enterBrowse L d box).selectedLine = 0)) := by
  have hspec := findSelectable_enter L box (SplitLines (d.cached box))
    (SplitLines_length_pos _)
  constructor
  · rintro (h | h)
    · exact enterBrowse_noop L d box (Or.inl h)
    · refine enterBrowse_noop L d box (Or.inr ?_)
      rcases hspec with ⟨g, _⟩ | ⟨g, _⟩ | ⟨g, _⟩
      · exact g
      · rw [h] at g; exact Bool.noConfusion g
      · rw [h] at g; exact Bool.noConfusion g
  · rintro ⟨hb, i, hi⟩
    have hstart : findSelectable L box (SplitLines (d.cached box)) 1 1 true ≠ -1 := by
      intro h0
      rcases hspec with ⟨_, g⟩ | ⟨g, _⟩ | ⟨g, _⟩
      · rw [g i] at hi; exact Bool.noConfusion hi
      · have := isSelectable_range L box _ _ g; omega
      · have := isSelectable_range L box _ _ g; omega
    have hsel : isSelectable L box (SplitLines (d.cached box))
        (findSelectable L box (SplitLines (d.cached box)) 1 1 true) = true := by
      rcases hspec with ⟨g, _⟩ | ⟨g, _⟩ | ⟨g, _⟩
      · exact absurd g hstart
      · exact g
      · exact g
    have hline : (enterBrowse L d box).selectedLine =
        findSelectable L box (SplitLines (d.cached box)) 1 1 true := by
      rw [enterBrowse_of_start L d box hb hstart]
      exact highlightBox_selectedLine_of_selectable L _ box hsel
    have hbox : (enterBrowse L d box).browseBox = some box := by
      rw [enterBrowse_of_start L d box hb hstart, highlightBox_browseBox]
      rfl
    rw [hline]
    refine ⟨hbox, hsel, ?_, ?_⟩
    · rintro ⟨k, hk1, hk⟩
      rcases hspec with ⟨g, _⟩ | ⟨_, g1, g2⟩ | ⟨_, _, g⟩
      · exact absurd g hstart
      · exact ⟨g1, g2⟩
      · rw [g k hk1] at hk; exact Bool.noConfusion hk
    · intro hall
      rcases hspec with ⟨g, _⟩ | ⟨g0, g1, _⟩ | ⟨_, g, _⟩
      · exact absurd g hstart
      · rw [hall _ g1] at g0; exact Bool.noConfusion g0
      · exact g

/-! ## Entering and leaving browse mode -/

theorem cached_of_selectable (L : Lib) (d : Dashboard) (box : TextView) (i : Int)
    (h : isSelectable L box (SplitLines (d.cached box)) i = true) :
    d.contentCache box = some (d.cached box) := by
  apply cached_ne_nil
  intro h0
  rw [h0, isSelectable_empty_text] at h
  exact Bool.noConfusion h

/-- The state after `enterBrowse` has succeeded and `exitBrowse` has followed: the
widget of the panel, and the browse mode. -/
theorem exit_enter (L : Lib) (d : Dashboard) (box : TextView) (c : Color)
    (hb : browsable box = true)
    (hs : ∃ i : Int, isSelectable L box (SplitLines (d.cached box)) i = true)
    (hc : d.borderDefaults box = some c) :
    (exitBrowse (enterBrowse L d box)).browseBox = none ∧
    ((exitBrowse (enterBrowse L d box)).views box).title = (d.views box).title ∧
    ((exitBrowse (enterBrowse L d box)).views box).text = d.cached box ∧
    ((exitBrowse (enterBrowse L d box)).views box).borderColor = c := by
  obtain ⟨i, hi⟩ := hs
  have hcache := cached_of_selectable L d box i hi
  have hstart : findSelectable L box (SplitLines (d.cached box)) 1 1 true ≠ -1 := by
    intro h0
    rcases findSelectable_enter L box (SplitLines (d.cached box))
      (SplitLines_length_pos _) with ⟨_, g⟩ | ⟨g, _⟩ | ⟨g, _⟩
    · rw [g i] at hi; exact Bool.noConfusion hi
    · have := isSelectable_range L box _ _ g; omega
    · have := isSelectable_range L box _ _ g; omega
  rw [enterBrowse_of_start L d box hb hstart]
  obtain ⟨v, s, hv⟩ := highlightBox_frame L ((applyBrowseStyle L
        { d with browseBox := some box,
                 selectedLine := findSelectable L box (SplitLines (d.cached box)) 1 1 true }
        box).setFocus (.textView box)) box
  rw [hv]
  simp only [exitBrowse, restoreBrowseStyle, applyBrowseStyle, Dashboard.setFocus,
    Dashboard.setTitle, Dashboard.setBorderColor, Dashboard.setText, hcache, hc,
    Function.update_same]
  exact ⟨trivial, trivial, trivial, trivial⟩


/-! ## The default border colors of a running dashboard -/

theorem foldl_views_only {α : Type} (g : Dashboard → α → Dashboard)
    (hg : ∀ d a, ∃ v : TextView → Widget, g d a = { d with views := v }) (l : List α) :
    ∀ d, ∃ v : TextView → Widget, l.foldl g d = { d with views := v } := by
  induction l with
  | nil => intro d; exact ⟨_, rfl⟩
  | cons a l ih =>
    intro d
    obtain ⟨v, hv⟩ := hg d a
    obtain ⟨w, hw⟩ := ih (g d a)
    rw [List.foldl_cons, hw, hv]
    exact ⟨_, rfl⟩

theorem paintBox_frame (focused : Option Primitive) (d : Dashboard) (b : TextView) :
    ∃ v : TextView → Widget, paintBox focused d b = { d with views := v } := by
  unfold paintBox
  split
  · exact ⟨_, rfl⟩
  · split <;> exact ⟨_, rfl⟩

/-- What `highlightFocus` changes: widgets only. -/
theorem highlightFocus_frame (d : Dashboard) :
    ∃ v : TextView → Widget, highlightFocus d = { d with views := v } := by
  unfold highlightFocus
  obtain ⟨v, hv⟩ := foldl_views_only (paintBox d.focus) (paintBox_frame d.focus) allBoxes d
  dsimp only
  rw [hv]
  split <;> exact ⟨_, rfl⟩

theorem highlightFocus_borderDefaults (d : Dashboard) :
    (highlightFocus d).borderDefaults = d.borderDefaults := by
  obtain ⟨v, hv⟩ := highlightFocus_frame d
  rw [hv]

theorem highlightBox_borderDefaults (L : Lib) (d : Dashboard) (box : TextView) :
    (highlightBox L d box).borderDefaults = d.borderDefaults := by
  obtain ⟨v, s, h⟩ := highlightBox_frame L d box
  rw [h]

theorem restoreBrowseStyle_borderDefaults (d : Dashboard) (box : TextView) :
    (restoreBrowseStyle d box).borderDefaults = d.borderDefaults := by
  unfold restoreBrowseStyle
  dsimp only
  split <;> split <;> split <;> rfl

theorem exitBrowse_borderDefaults (d : Dashboard) :
    (exitBrowse d).borderDefaults = d.borderDefaults := by
  unfold exitBrowse
  dsimp only
  split
  · exact restoreBrowseStyle_borderDefaults _ _
  · rfl

theorem enterBrowse_borderDefaults (L : Lib) (d : Dashboard) (box : TextView) :
    (enterBrowse L d box).borderDefaults = d.borderDefaults := by
  unfold enterBrowse
  split
  · rfl
  · dsimp only
    split
    · rfl
    · rw [highlightBox_borderDefaults]; rfl

theorem adjustSelection_borderDefaults (L : Lib) (d : Dashboard) (delta : Int) :
    (adjustSelection L d delta).borderDefaults = d.borderDefaults := by
  unfold adjustSelection
  split
  · rfl
  · dsimp only
    rw [highlightBox_borderDefaults]
    split <;> rfl

theorem openLogs_borderDefaults (L : Lib) (d : Dashboard) (name targetNS : Str) :
    (openLogs L d name targetNS).borderDefaults = d.borderDefaults := by
  unfold openLogs
  split <;> rfl

theorem openDescribe_borderDefaults (L : Lib) (d : Dashboard) (kind name targetNS : Str) :
    (openDescribe L d kind name targetNS).borderDefaults = d.borderDefaults := by
  unfold openDescribe
  split <;> rfl

theorem openLogsSelected_borderDefaults (L : Lib) (d : Dashboard) :
    ((openLogsSelected L d).getD d).borderDefaults = d.borderDefaults := by
  unfold openLogsSelected
  repeat' first | split | (dsimp only; split)
  all_goals first
    | rfl
    | exact openLogs_borderDefaults _ _ _ _

theorem openDescribeSelected_borderDefaults (L : Lib) (d : Dashboard) :
    ((openDescribeSelected L d).getD d).borderDefaults = d.borderDefaults := by
  unfold openDescribeSelected
  repeat' first | split | (dsimp only; split)
  all_goals first
    | rfl
    | exact openDescribe_borderDefaults _ _ _ _ _

theorem focusFirst_borderDefaults (d : Dashboard) :
    (focusFirst d).borderDefaults = d.borderDefaults := by
  unfold focusFirst
  split <;> rfl

theorem setPage_borderDefaults (L : Lib) (d : Dashboard) (page : Str) :
    (setPage L d page).borderDefaults = d.borderDefaults := by
  unfold setPage
  dsimp only
  rw [highlightFocus_borderDefaults, focusFirst_borderDefaults]
  exact exitBrowse_borderDefaults d

theorem moveFocus_borderDefaults (d d' : Dashboard) (delta : Int)
    (h : moveFocus d delta = some d') : d'.borderDefaults = d.borderDefaults := by
  unfold moveFocus at h
  dsimp only at h
  split at h
  · cases h; rfl
  · split at h
    · cases h; rw [highlightFocus_borderDefaults]; rfl
    · split at h
      · exact Option.noConfusion h
      · split at h
        · cases h; rw [highlightFocus_borderDefaults]; rfl
        · exact Option.noConfusion h

theorem switchPage_borderDefaults (L : Lib) (d d' : Dashboard) (delta : Int)
    (h : switchPage L d delta = some d') : d'.borderDefaults = d.borderDefaults := by
  unfold switchPage at h
  dsimp only at h
  split at h
  · exact Option.noConfusion h
  · split at h
    · exact Option.noConfusion h
    · split at h
      · cases h; exact setPage_borderDefaults _ _ _
      · exact Option.noConfusion h

theorem getD_borderDefaults (o : Option Dashboard) (d : Dashboard)
    (h : ∀ d', o = some d' → d'.borderDefaults = d.borderDefaults) :
    (o.getD d).borderDefaults = d.borderDefaults := by
  cases o with
  | none => rfl
  | some d' => exact h d' rfl

theorem scheduleUpdate_borderDefaults (d : Dashboard) :
    (scheduleUpdate d).borderDefaults = d.borderDefaults := by
  unfold scheduleUpdate
  split <;> rfl

theorem selectNamespace_borderDefaults (d : Dashboard) (c : Char) :
    (selectNamespace d c).borderDefaults = d.borderDefaults := by
  unfold selectNamespace
  dsimp only
  split
  · rw [scheduleUpdate_borderDefaults, exitBrowse_borderDefaults]
  · rfl

theorem handleKeys_borderDefaults (L : Lib) (d : Dashboard) (k : Key) :
    (handleKeys L d k).1.borderDefaults = d.borderDefaults := by
  cases k with
  | rune c =>
    simp only [handleKeys]
    split
    · exact setPage_borderDefaults _ _ _
    split
    · exact setPage_borderDefaults _ _ _
    split
    · exact setPage_borderDefaults _ _ _
    split
    · exact setPage_borderDefaults _ _ _
    split
    · exact openLogsSelected_borderDefaults _ _
    split
    · exact selectNamespace_borderDefaults _ _
    split
    · rfl
    split
    · rfl
    split
    · rfl
    split
    · split
      · exact openDescribeSelected_borderDefaults _ _
      · rfl
    · rfl
  | up => exact getD_borderDefaults _ _ (fun d' h => moveFocus_borderDefaults _ _ _ h)
  | down => exact getD_borderDefaults _ _ (fun d' h => moveFocus_borderDefaults _ _ _ h)
  | left => exact getD_borderDefaults _ _ (fun d' h => switchPage_borderDefaults _ _ _ _ h)
  | right => exact getD_borderDefaults _ _ (fun d' h => switchPage_borderDefaults _ _ _ _ h)
  | enter =>
    simp only [handleKeys]
    split
    · split
      · exact enterBrowse_borderDefaults _ _ _
      · rfl
    · exact openLogsSelected_borderDefaults _ _
  | esc =>
    simp only [handleKeys]
    split
    · exact exitBrowse_borderDefaults _
    · rfl
  | other n => rfl

theorem handleInput_borderDefaults (L : Lib) (d : Dashboard) (k : Key) :
    (handleInput L d k).1.borderDefaults = d.borderDefaults := by
  unfold handleInput
  split
  · split
    · dsimp only
      split <;> rfl
    · rfl
  · split
    · exact adjustSelection_borderDefaults _ _ _
    · exact adjustSelection_borderDefaults _ _ _
    · exact openLogsSelected_borderDefaults _ _
    · exact exitBrowse_borderDefaults _
    · exact handleKeys_borderDefaults _ _ _


theorem resizeItem_borderDefaults (d : Dashboard) (f : PageFlex) (item : TextView)
    (a b : Int) : (d.resizeItem f item a b).borderDefaults = d.borderDefaults := by
  unfold Dashboard.resizeItem
  split <;> rfl

theorem foldl_keeps {α β : Type} (g : Dashboard → α → Dashboard) (π : Dashboard → β)
    (hg : ∀ d a, π (g d a) = π d) (l : List α) : ∀ d, π (l.foldl g d) = π d := by
  induction l with
  | nil => intro d; rfl
  | cons a l ih => intro d; rw [List.foldl_cons, ih, hg]

theorem adjustFor_borderDefaults (d : Dashboard) (f : PageFlex) (item : TextView)
    (m : Int) : (adjustFor d f item m).borderDefaults = d.borderDefaults := by
  unfold adjustFor adjust
  split
  · dsimp only
    have h1 := resizeItem_borderDefaults d f item 0 1
    split
    · exact h1
    · exact h1
  · dsimp only
    have : (if m > 0 then d.resizeItem f item m 0 else d.resizeItem f item 1 0).borderDefaults
        = d.borderDefaults := by
      split <;> exact resizeItem_borderDefaults _ _ _ _ _
    exact this

theorem adjustAll_borderDefaults (d : Dashboard) :
    (adjustAll d).borderDefaults = d.borderDefaults := by
  unfold adjustAll
  exact foldl_keeps (fun (d : Dashboard) (p : PageFlex × TextView × Int) =>
      adjustFor d p.1 p.2.1 p.2.2) (fun x => x.borderDefaults)
    (fun d p => adjustFor_borderDefaults d p.1 p.2.1 p.2.2) adjustCalls d

theorem showAll_borderDefaults (d : Dashboard) (f : Fetched) (pods : Str) :
    (showAll d f pods).borderDefaults = d.borderDefaults := by
  unfold showAll
  exact foldl_keeps (fun (d : Dashboard) (p : TextView × Str) => d.setText p.1 p.2)
    (fun x => x.borderDefaults) (fun _ _ => rfl) (fetchedTexts f pods) d

theorem storeFetched_borderDefaults (d : Dashboard) (f : Fetched) (pods : Str) :
    (storeFetched d f pods).borderDefaults = d.borderDefaults := by
  unfold storeFetched
  exact foldl_keeps (fun (d : Dashboard) (p : TextView × Str) => d.setCache p.1 p.2)
    (fun x => x.borderDefaults) (fun _ _ => rfl) (fetchedTexts f pods) d

theorem focusIfNone_borderDefaults (d : Dashboard) :
    (focusIfNone d).borderDefaults = d.borderDefaults := by
  unfold focusIfNone
  split
  · exact focusFirst_borderDefaults d
  · rfl

theorem showFetched_borderDefaults (L : Lib) (d : Dashboard) (f : Fetched) (pods : Str) :
    (showFetched L d f pods).borderDefaults = d.borderDefaults := by
  unfold showFetched
  split
  · exact highlightBox_borderDefaults _ _ _
  · exact showAll_borderDefaults _ _ _

theorem recolor_borderDefaults (d : Dashboard) (f : Fetched) (b : TextView)
    (h1 : b ≠ .alertsView) (h2 : b ≠ .eventsView) (h3 : b ≠ .overview) :
    (recolor d f).borderDefaults b = d.borderDefaults b := by
  unfold recolor
  dsimp only
  split <;> split <;>
    simp only [Dashboard.setBorderDefault, Function.update_noteq h1,
      Function.update_noteq h2, Function.update_noteq h3]

/-- The refresh changes the default border of the alerts, events and overview
panels only. -/
theorem update_borderDefaults (L : Lib) (d : Dashboard) (f : Fetched) (b : TextView)
    (h1 : b ≠ .alertsView) (h2 : b ≠ .eventsView) (h3 : b ≠ .overview) :
    (update L d f).borderDefaults b = d.borderDefaults b := by
  unfold update
  dsimp only
  rw [highlightFocus_borderDefaults, focusIfNone_borderDefaults, adjustAll_borderDefaults,
    showFetched_borderDefaults, recolor_borderDefaults _ _ _ h1 h2 h3,
    storeFetched_borderDefaults]

theorem step_borderDefaults (L : Lib) (d : Dashboard) (e : Event) (b : TextView)
    (h1 : b ≠ .alertsView) (h2 : b ≠ .eventsView) (h3 : b ≠ .overview) :
    (step L d e).borderDefaults b = d.borderDefaults b := by
  cases e with
  | key k =>
    show (handleInput L d k).1.borderDefaults b = d.borderDefaults b
    rw [handleInput_borderDefaults]
  | tick =>
    show (scheduleUpdate d).borderDefaults b = d.borderDefaults b
    rw [scheduleUpdate_borderDefaults]
  | receive => rfl
  | commit f =>
    have e : step L d (.commit f) = update L d f := rfl
    rw [e]
    exact update_borderDefaults L d f b h1 h2 h3
  | modalText t => rfl
  | toastShow m => rfl
  | toastHide => rfl
  | focusMoved p => rfl
  | geometry v r c h => rfl

theorem run_borderDefaults (L : Lib) (evs : List Event) (b : TextView)
    (h1 : b ≠ .alertsView) (h2 : b ≠ .eventsView) (h3 : b ≠ .overview) :
    ∀ d : Dashboard, (run L d evs).borderDefaults b = d.borderDefaults b := by
  induction evs with
  | nil => intro d; rfl
  | cons e evs ih =>
    intro d
    show (run L (step L d e) evs).borderDefaults b = d.borderDefaults b
    rw [ih, step_borderDefaults L d e b h1 h2 h3]

/-- In every state of a running dashboard the panels of the allow-list have the
default border color purple. -/
theorem reachable_borderDefaults (L : Lib) (d : Dashboard) (h : Reachable L d)
    (box : TextView) (hb : browsable box = true) : d.borderDefaults box = some .purple := by
  obtain ⟨ns, evs, rfl⟩ := h
  have h1 : box ≠ .alertsView := by rintro rfl; exact absurd hb (by decide)
  have h2 : box ≠ .eventsView := by rintro rfl; exact absurd hb (by decide)
  have h3 : box ≠ .overview := by rintro rfl; exact absurd hb (by decide)
  rw [run_borderDefaults L evs box h1 h2 h3]
  unfold started
  rw [scheduleUpdate_borderDefaults, setPage_borderDefaults]
  cases box <;> first | rfl | exact absurd hb (by decide)

theorem sampleFocused_reachable : Reachable asciiLib sampleFocused :=
  ⟨[], [.commit sampleFetched, .key .down], rfl⟩

/-- C6, as stated, fails: in the sample run the pods panel is focused and has the
orange focus border; `enterBrowse` succeeds on it, and after `exitBrowse` its border
is purple, the default, not the pre-browse orange. The keys enter and escape, which
call the two methods, give the same. -/
theorem browse_border_counterexample :
    Reachable asciiLib sampleFocused ∧
    sampleFocused.focus = some (.textView .podsView) ∧
    (sampleFocused.views .podsView).borderColor = .orange ∧
    (enterBrowse asciiLib sampleFocused .podsView).browseBox = some .podsView ∧
    ((exitBrowse (enterBrowse asciiLib sampleFocused .podsView)).views .podsView).borderColor
      = .purple ∧
    ((run asciiLib sampleFocused [.key .enter, .key .esc]).views .podsView).borderColor
      = .purple :=
  ⟨sampleFocused_reachable, by decide, by decide, by decide, by decide, by decide⟩

/-- C6, amended: for every reachable state and every panel on which `enterBrowse`
succeeds (a panel of the allow-list whose cached text has a selectable line),
`enterBrowse` followed by `exitBrowse` leaves no panel in browse mode, restores the
title the panel had, and leaves the panel showing its cached text with the default
border color of the browsable panels, purple. -/
theorem browse_round_trip (L : Lib) (d : Dashboard) (box : TextView)
    (hr : Reachable L d) (hb : browsable box = true)
    (hs : ∃ i : Int, isSelectable L box (SplitLines (d.cached box)) i = true) :
    (exitBrowse (enterBrowse L d box)).browseBox = none ∧
    ((exitBrowse (enterBrowse L d box)).views box).title = (d.views box).title ∧
    ((exitBrowse (enterBrowse L d box)).views box).text = d.cached box ∧
    ((exitBrowse (enterBrowse L d box)).views box).borderColor = .purple :=
  exit_enter L d box .purple hb hs (reachable_borderDefaults L d hr box hb)

/-- The round trip of C6 on the pods panel of the sample run. -/
theorem browse_round_trip_witness :
    (exitBrowse (enterBrowse asciiLib sampleFocused .podsView)).browseBox = none ∧
    ((exitBrowse (enterBrowse asciiLib sampleFocused .podsView)).views .podsView).title
      = (sampleFocused.views .podsView).title ∧
    ((exitBrowse (enterBrowse asciiLib sampleFocused .podsView)).views .podsView).text
      = sampleFocused.cached .podsView ∧
    ((exitBrowse (enterBrowse asciiLib sampleFocused .podsView)).views .podsView).borderColor
      = .purple :=
  browse_round_trip asciiLib sampleFocused .podsView ⟨[], [.commit sampleFetched, .key .down], rfl⟩
    (by decide) ⟨1, by decide⟩

/-! ## The non-wrapping search -/

theorem findLinear_succ (L : Lib) (box : TextView) (lines : List Str) (delta : Int)
    (fuel : Nat) (i : Int) :
    findLinear L box lines delta (fuel + 1) i =
      if 0 ≤ i ∧ i < (lines.length : Int) then
        if isSelectable L box lines i = true then i
        else findLinear L box lines delta fuel (i + delta)
      else -1 := rfl

theorem findLinear_out (L : Lib) (box : TextView) (lines : List Str) (delta : Int)
    (fuel : Nat) (i : Int) (h : ¬ (0 ≤ i ∧ i < (lines.length : Int))) :
    findLinear L box lines delta fuel i = -1 := by
  cases fuel with
  | zero => rfl
  | succ fuel => rw [findLinear_succ, if_neg h]

/-- The fuel of the non-wrapping loop is enough for a positive step: more fuel
gives the same result. -/
theorem findLinear_fuel_pos (L : Lib) (box : TextView) (lines : List Str) (delta : Int)
    (hd : 0 < delta) (k : Nat) (fuel : Nat) :
    ∀ i : Int, (lines.length : Int) - i ≤ fuel →
      findLinear L box lines delta (fuel + k) i = findLinear L box lines delta fuel i := by
  induction fuel with
  | zero =>
    intro i hi
    cases k with
    | zero => rfl
    | succ k =>
      have : ¬ (0 ≤ i ∧ i < (lines.length : Int)) := by
        simp only [Nat.cast_zero] at hi; omega
      simp only [Nat.zero_add, findLinear_succ, this, if_false]
      rfl
  | succ fuel ih =>
    intro i hi
    have e : fuel + 1 + k = (fuel + k) + 1 := by omega
    rw [e, findLinear_succ, findLinear_succ]
    by_cases hr : 0 ≤ i ∧ i < (lines.length : Int)
    · rw [if_pos hr, if_pos hr]
      rw [ih (i + delta) (by push_cast at hi; omega)]
    · rw [if_neg hr, if_neg hr]

/-- The fuel of the non-wrapping loop is enough for a negative step. -/
theorem findLinear_fuel_neg (L : Lib) (box : TextView) (lines : List Str) (delta : Int)
    (hd : delta < 0) (k : Nat) (fuel : Nat) :
    ∀ i : Int, i < fuel →
      findLinear L box lines delta (fuel + k) i = findLinear L box lines delta fuel i := by
  induction fuel with
  | zero =>
    intro i hi
    cases k with
    | zero => rfl
    | succ k =>
      have : ¬ (0 ≤ i ∧ i < (lines.length : Int)) := by
        simp only [Nat.cast_zero] at hi; omega
      simp only [Nat.zero_add, findLinear_succ, this, if_false]
      rfl
  | succ fuel ih =>
    intro i hi
    have e : fuel + 1 + k = (fuel + k) + 1 := by omega
    rw [e, findLinear_succ, findLinear_succ]
    by_cases hr : 0 ≤ i ∧ i < (lines.length : Int)
    · rw [if_pos hr, if_pos hr]
      rw [ih (i + delta) (by push_cast at hi; omega)]
    · rw [if_neg hr, if_neg hr]

/-- The loop `for i := start; i >= 0 && i < len(lines); i += delta` ends within
`len(lines)` iterations for every non-zero step: from a start at or above 0 with a
positive step, and from a start below `len(lines)` with a negative one, fuel beyond
`len(lines)` changes nothing. A start outside these ranges ends the loop at once. -/
theorem findLinear_fuel (L : Lib) (box : TextView) (lines : List Str) (delta : Int)
    (hd : delta ≠ 0) (k : Nat) (i : Int) :
    findLinear L box lines delta (lines.length + k) i
      = findLinear L box lines delta lines.length i := by
  by_cases hr : 0 ≤ i ∧ i < (lines.length : Int)
  · rcases lt_or_gt_of_ne hd with h | h
    · exact findLinear_fuel_neg L box lines delta h k lines.length i (by omega)
    · exact findLinear_fuel_pos L box lines delta h k lines.length i (by omega)
  · rw [findLinear_out L box lines delta _ i hr, findLinear_out L box lines delta _ i hr]

/-- The non-wrapping search upward: the first selectable line at or after the
start, or -1 when there is none. -/
theorem findLinear_up (L : Lib) (box : TextView) (lines : List Str) (fuel : Nat) :
    ∀ i : Int, 0 ≤ i → (lines.length : Int) ≤ i + fuel →
      (findLinear L box lines 1 fuel i = -1 ∧
        ∀ j : Int, i ≤ j → isSelectable L box lines j = false) ∨
      (i ≤ findLinear L box lines 1 fuel i ∧
        isSelectable L box lines (findLinear L box lines 1 fuel i) = true ∧
        ∀ j : Int, i ≤ j → j < findLinear L box lines 1 fuel i →
          isSelectable L box lines j = false) := by
  induction fuel with
  | zero =>
    intro i h0 h1
    left
    refine ⟨rfl, ?_⟩
    intro j hj
    exact isSelectable_out L box lines j (by simp only [Nat.cast_zero] at h1; omega)
  | succ fuel ih =>
    intro i h0 h1
    rw [findLinear_succ]
    by_cases hr : 0 ≤ i ∧ i < (lines.length : Int)
    · rw [if_pos hr]
      by_cases hs : isSelectable L box lines i = true
      · right
        rw [if_pos hs]
        exact ⟨le_refl _, hs, fun j h2 h3 => by omega⟩
      · rw [if_neg hs]
        have hs' : isSelectable L box lines i = false := by simpa using hs
        rcases ih (i + 1) (by omega) (by push_cast at h1; omega) with ⟨g, hall⟩ | ⟨g1, g2, g3⟩
        · left
          refine ⟨g, ?_⟩
          intro j hj
          by_cases hji : j = i
          · rw [hji]; exact hs'
          · exact hall j (by omega)
        · right
          refine ⟨by omega, g2, ?_⟩
          intro j h2 h3
          by_cases hji : j = i
          · rw [hji]; exact hs'
          · exact g3 j (by omega) h3
    · rw [if_neg hr]
      left
      refine ⟨rfl, ?_⟩
      intro j hj
      exact isSelectable_out L box lines j (by omega)

/-- The non-wrapping search downward: the last selectable line at or before the
start, or -1 when there is none. -/
theorem findLinear_down (L : Lib) (box : TextView) (lines : List Str) (fuel : Nat) :
    ∀ i : Int, i < (lines.length : Int) → i < fuel →
      (findLinear L box lines (-1) fuel i = -1 ∧
        ∀ j : Int, j ≤ i → isSelectable L box lines j = false) ∨
      (findLinear L box lines (-1) fuel i ≤ i ∧
        isSelectable L box lines (findLinear L box lines (-1) fuel i) = true ∧
        ∀ j : Int, findLinear L box lines (-1) fuel i < j → j ≤ i →
          isSelectable L box lines j = false) := by
  induction fuel with
  | zero =>
    intro i h0 h1
    left
    refine ⟨rfl, ?_⟩
    intro j hj
    exact isSelectable_out L box lines j (by simp only [Nat.cast_zero] at h1; omega)
  | succ fuel ih =>
    intro i h0 h1
    rw [findLinear_succ]
    by_cases hr : 0 ≤ i ∧ i < (lines.length : Int)
    · rw [if_pos hr]
      by_cases hs : isSelectable L box lines i = true
      · right
        rw [if_pos hs]
        exact ⟨le_refl _, hs, fun j h2 h3 => by omega⟩
      · rw [if_neg hs]
        have hs' : isSelectable L box lines i = false := by simpa using hs
        rcases ih (i + -1) (by omega) (by push_cast at h1; omega) with ⟨g, hall⟩ | ⟨g1, g2, g3⟩
        · left
          refine ⟨g, ?_⟩
          intro j hj
          by_cases hji : j = i
          · rw [hji]; exact hs'
          · exact hall j (by omega)
        · right
          refine ⟨by omega, g2, ?_⟩
          intro j h2 h3
          by_cases hji : j = i
          · rw [hji]; exact hs'
          · exact g3 j h2 (by omega)
    · rw [if_neg hr]
      left
      refine ⟨rfl, ?_⟩
      intro j hj
      exact isSelectable_out L box lines j (by omega)


theorem findSelectable_linear (L : Lib) (box : TextView) (lines : List Str)
    (start delta : Int) (hn : 0 < lines.length) (hd : delta ≠ 0) :
    findSelectable L box lines start delta false
      = findLinear L box lines delta lines.length start := by
  have : ¬ (lines.length = 0 ∨ delta = 0) := by
    rintro (h | h)
    · omega
    · exact hd h
  simp only [findSelectable, this, if_false, Bool.false_eq_true]

/-- The selection after `adjustSelection`, when the line found, or else the current
line, is selectable. -/
theorem adjustSelection_selectedLine (L : Lib) (d : Dashboard) (box : TextView)
    (delta : Int) (hbox : d.browseBox = some box)
    (hsel : isSelectable L box (SplitLines (d.cached box)) d.selectedLine = true)
    (hnext : findSelectable L box (SplitLines (d.cached box)) (d.selectedLine + delta)
        delta false = -1 ∨
      isSelectable L box (SplitLines (d.cached box))
        (findSelectable L box (SplitLines (d.cached box)) (d.selectedLine + delta)
          delta false) = true) :
    (adjustSelection L d delta).selectedLine =
      if findSelectable L box (SplitLines (d.cached box)) (d.selectedLine + delta)
          delta false = -1 then d.selectedLine
      else findSelectable L box (SplitLines (d.cached box)) (d.selectedLine + delta)
          delta false := by
  unfold adjustSelection
  rw [hbox]
  dsimp only
  by_cases h : findSelectable L box (SplitLines (d.cached box)) (d.selectedLine + delta)
      delta false = -1
  · rw [if_pos h]
    simp only [h, ne_eq, not_true_eq_false, if_false]
    exact highlightBox_selectedLine_of_selectable L d box hsel
  · rw [if_neg h]
    simp only [h, ne_eq, not_false_eq_true, if_true]
    have hs := hnext.resolve_left h
    exact highlightBox_selectedLine_of_selectable L _ box hs

theorem adjustSelection_browseBox (L : Lib) (d : Dashboard) (delta : Int) :
    (adjustSelection L d delta).browseBox = d.browseBox := by
  unfold adjustSelection
  split
  · rfl
  · dsimp only
    rw [highlightBox_browseBox]
    split <;> rfl

/-- C7: in a state where a panel is in browse mode with a selectable current line,
`adjustSelection(1)` moves the selection to the nearest selectable line after the
current one and `adjustSelection(-1)` to the nearest selectable line before it;
when there is no such line the selection is unchanged, and there is no wrap; the
panel stays in browse mode. -/
theorem adjustSelection_rule (L : Lib) (d : Dashboard) (box : TextView)
    (hbox : d.browseBox = some box)
    (hsel : isSelectable L box (SplitLines (d.cached box)) d.selectedLine = true) :
    ((∃ j : Int, d.selectedLine < j ∧
        isSelectable L box (SplitLines (d.cached box)) j = true) →
      d.selectedLine < (adjustSelection L d 1).selectedLine ∧
      isSelectable L box (SplitLines (d.cached box)) (adjustSelection L d 1).selectedLine
        = true ∧
      ∀ j : Int, d.selectedLine < j → j < (adjustSelection L d 1).selectedLine →
        isSelectable L box (SplitLines (d.cached box)) j = false) ∧
    ((∀ j : Int, d.selectedLine < j →
        isSelectable L box (SplitLines (d.cached box)) j = false) →
      (adjustSelection L d 1).selectedLine = d.selectedLine) ∧
    ((∃ j : Int, j < d.selectedLine ∧
        isSelectable L box (SplitLines (d.cached box)) j = true) →
      (adjustSelection L d (-1)).selectedLine < d.selectedLine ∧
      isSelectable L box (SplitLines (d.cached box)) (adjustSelection L d (-1)).selectedLine
        = true ∧
      ∀ j : Int, (adjustSelection L d (-1)).selectedLine < j → j < d.selectedLine →
        isSelectable L box (SplitLines (d.cached box)) j = false) ∧
    ((∀ j : Int, j < d.selectedLine →
        isSelectable L box (SplitLines (d.cached box)) j = false) →
      (adjustSelection L d (-1)).selectedLine = d.selectedLine) ∧
    (adjustSelection L d 1).browseBox = some box ∧
    (adjustSelection L d (-1)).browseBox = some box := by
  have hn := SplitLines_length_pos (d.cached box)
  have hrange := isSelectable_range L box _ _ hsel
  have eup := findSelectable_linear L box (SplitLines (d.cached box)) (d.selectedLine + 1) 1
    hn (by decide)
  have edn := findSelectable_linear L box (SplitLines (d.cached box)) (d.selectedLine + -1)
    (-1) hn (by decide)
  have hup := findLinear_up L box (SplitLines (d.cached box)) (SplitLines (d.cached box)).length
    (d.selectedLine + 1) (by omega) (by omega)
  have hdn := findLinear_down L box (SplitLines (d.cached box))
    (SplitLines (d.cached box)).length (d.selectedLine + -1) (by omega) (by omega)
  rw [← eup] at hup
  rw [← edn] at hdn
  have sup := adjustSelection_selectedLine L d box 1 hbox hsel (by
    rcases hup with ⟨g, _⟩ | ⟨_, g, _⟩
    · exact Or.inl g
    · exact Or.inr g)
  have sdn := adjustSelection_selectedLine L d box (-1) hbox hsel (by
    rcases hdn with ⟨g, _⟩ | ⟨_, g, _⟩
    · exact Or.inl g
    · exact Or.inr g)
  refine ⟨?_, ?_, ?_, ?_, ?_, ?_⟩
  · rintro ⟨j, hj, hjs⟩
    rcases hup with ⟨_, hall⟩ | ⟨g1, g2, g3⟩
    · rw [hall j (by omega)] at hjs; exact Bool.noConfusion hjs
    · have hne : findSelectable L box (SplitLines (d.cached box)) (d.selectedLine + 1) 1 false
          ≠ -1 := by omega
      rw [sup, if_neg hne]
      exact ⟨by omega, g2, fun k h1 h2 => g3 k (by omega) h2⟩
  · intro hall
    rcases hup with ⟨g, _⟩ | ⟨g1, g2, _⟩
    · rw [sup, if_pos g]
    · rw [hall _ (by omega)] at g2; exact Bool.noConfusion g2
  · rintro ⟨j, hj, hjs⟩
    rcases hdn with ⟨_, hall⟩ | ⟨g1, g2, g3⟩
    · rw [hall j (by omega)] at hjs; exact Bool.noConfusion hjs
    · have hr := isSelectable_range L box _ _ g2
      have hne : findSelectable L box (SplitLines (d.cached box)) (d.selectedLine + -1) (-1)
          false ≠ -1 := by omega
      rw [sdn, if_neg hne]
      exact ⟨by omega, g2, fun k h1 h2 => g3 k h1 (by omega)⟩
  · intro hall
    rcases hdn with ⟨g, _⟩ | ⟨g1, g2, _⟩
    · rw [sdn, if_pos g]
    · rw [hall _ (by omega)] at g2; exact Bool.noConfusion g2
  · rw [adjustSelection_browseBox, hbox]
  · rw [adjustSelection_browseBox, hbox]

/-- The rule of C7 in the sample run with the pods panel in browse mode on its first
row, line 1: a step forward moves the selection to a selectable line further down,
with no selectable line skipped. -/
theorem adjustSelection_rule_witness :
    (enterBrowse asciiLib sampleFocused .podsView).browseBox = some .podsView ∧
    isSelectable asciiLib .podsView
      (SplitLines ((enterBrowse asciiLib sampleFocused .podsView).cached .podsView))
      (enterBrowse asciiLib sampleFocused .podsView).selectedLine = true ∧
    ((enterBrowse asciiLib sampleFocused .podsView).selectedLine
        < (adjustSelection asciiLib (enterBrowse asciiLib sampleFocused .podsView)
            1).selectedLine ∧
      isSelectable asciiLib .podsView
        (SplitLines ((enterBrowse asciiLib sampleFocused .podsView).cached .podsView))
        (adjustSelection asciiLib (enterBrowse asciiLib sampleFocused .podsView)
          1).selectedLine = true ∧
      ∀ j : Int, (enterBrowse asciiLib sampleFocused .podsView).selectedLine < j →
        j < (adjustSelection asciiLib (enterBrowse asciiLib sampleFocused .podsView)
          1).selectedLine →
        isSelectable asciiLib .podsView
          (SplitLines ((enterBrowse asciiLib sampleFocused .podsView).cached .podsView)) j
          = false) :=
  ⟨by decide, by decide,
    (adjustSelection_rule asciiLib (enterBrowse asciiLib sampleFocused .podsView) .podsView
      (by decide) (by decide)).1 ⟨2, by decide, by decide⟩⟩

/-! ## A refresh while a panel is in browse mode -/

/-- C8 at its failing input: in the sample run the enter key puts the pods panel
into browse mode on line 1; a refresh then brings an empty pod listing. After the
commit the pods panel is still in browse mode and the selected line is still 1,
which is not a line of the committed text, so it is not selectable; the panel shows
the empty text. `highlightBox` returns at once on an empty text, before the step
that sets the selection to -1 when a text has no selectable line, as it does for
the pod listing `timeout` of a command that ran out of time. -/
theorem refresh_empty_text_keeps_selection :
    (run asciiLib sampleFocused [.key .enter]).browseBox = some .podsView ∧
    (run asciiLib sampleFocused [.key .enter]).selectedLine = 1 ∧
    (run asciiLib sampleFocused
      [.key .enter, .commit { sampleFetched with pods := [] }]).browseBox
      = some .podsView ∧
    (run asciiLib sampleFocused
      [.key .enter, .commit { sampleFetched with pods := [] }]).selectedLine = 1 ∧
    (run asciiLib sampleFocused
      [.key .enter, .commit { sampleFetched with pods := [] }]).cached .podsView = [] ∧
    isSelectable asciiLib .podsView
      (SplitLines ((run asciiLib sampleFocused
        [.key .enter, .commit { sampleFetched with pods := [] }]).cached .podsView))
      (run asciiLib sampleFocused
        [.key .enter, .commit { sampleFetched with pods := [] }]).selectedLine = false ∧
    ((run asciiLib sampleFocused
      [.key .enter, .commit { sampleFetched with pods := [] }]).views .podsView).text = [] ∧
    (run asciiLib sampleFocused
      [.key .enter,
        .commit { sampleFetched with pods := "timeout".toList }]).selectedLine = -1 := by
  decide

/-! ## The highlight of the selected line -/

theorem Join_single (a sep : Str) : Join [a] sep = a := by
  simp [Join, List.intercalate]

theorem Join_cons_cons (a b : Str) (l : List Str) (sep : Str) :
    Join (a :: b :: l) sep = a ++ (sep ++ Join (b :: l) sep) := by
  simp [Join, List.intercalate]

theorem markSelected_above (sel : Int) (lines : List Str) :
    ∀ i : Nat, sel < i → markSelected sel i lines = lines := by
  induction lines with
  | nil => intro i _; rfl
  | cons l ls ih =>
    intro i hi
    have h1 : ¬ ((i : Int) = sel) := by omega
    simp only [markSelected, h1, if_false]
    rw [ih (i + 1) (by push_cast; omega)]

theorem inverted_length (l : Str) : (inverted l).length = l.length + 21 := by
  unfold inverted
  rw [List.length_append, List.length_append]
  have h1 : "[black:yellow]".toList.length = 14 := by decide
  have h2 : "[-:-:-]".toList.length = 7 := by decide
  rw [h1, h2]; omega

/-- The text with the selected line inverted is longer than the text. -/
theorem Join_markSelected_length (sep : Str) (lines : List Str) :
    ∀ (i : Nat) (sel : Int), (i : Int) ≤ sel → sel < (i : Int) + lines.length →
      (Join (markSelected sel i lines) sep).length = (Join lines sep).length + 21 := by
  induction lines with
  | nil =>
    intro i sel h1 h2
    simp only [List.length_nil, Nat.cast_zero, add_zero] at h2
    omega
  | cons l ls ih =>
    intro i sel h1 h2
    by_cases hi : (i : Int) = sel
    · have hrest : markSelected sel (i + 1) ls = ls :=
        markSelected_above sel ls (i + 1) (by push_cast; omega)
      simp only [markSelected, hi, if_true, hrest]
      cases ls with
      | nil => rw [Join_single, Join_single, inverted_length]
      | cons b bs =>
        rw [Join_cons_cons, Join_cons_cons]
        simp only [List.length_append, inverted_length]
        omega
    · simp only [markSelected, hi, if_false]
      cases ls with
      | nil =>
        simp only [List.length_cons, List.length_nil, Nat.cast_one, zero_add] at h2
        omega
      | cons b bs =>
        have := ih (i + 1) sel (by push_cast; omega)
          (by simp only [List.length_cons] at h2 ⊢; push_cast at h2 ⊢; omega)
        simp only [markSelected] at this ⊢
        rw [Join_cons_cons, Join_cons_cons]
        simp only [List.length_append]
        omega

theorem Join_SplitLines (raw : Str) : Join (SplitLines raw) "\n".toList = raw :=
  List.intercalate_splitOn raw '\n'

theorem Join_markSelected_ne (raw : Str) (sel : Int) (h0 : 0 ≤ sel)
    (h1 : sel < ((SplitLines raw).length : Int)) :
    Join (markSelected sel 0 (SplitLines raw)) "\n".toList ≠ raw := by
  intro h
  have := Join_markSelected_length "\n".toList (SplitLines raw) 0 sel (by simpa using h0)
    (by simpa using h1)
  rw [h, Join_SplitLines] at this
  omega

theorem followSelection_text (d : Dashboard) (box b : TextView) :
    ((followSelection d box).views b).text = (d.views b).text := by
  unfold followSelection
  split
  · dsimp only
    split
    · rfl
    · split
      · by_cases hb : b = box
        · subst hb; simp [Dashboard.scrollTo]
        · simp [Dashboard.scrollTo, Function.update_noteq hb]
      · split
        · by_cases hb : b = box
          · subst hb; simp [Dashboard.scrollTo]
          · simp [Dashboard.scrollTo, Function.update_noteq hb]
        · rfl
  · rfl

/-- The wrapping search of `highlightBox` from an old selection at or above 0:
the scan starts at the old index, or at line 0 when the old index is past the end. -/
theorem findSelectable_reseek (L : Lib) (box : TextView) (lines : List Str) (old : Int)
    (hn : 0 < lines.length) :
    findSelectable L box lines old 1 true =
      findWrap L box lines 1 lines.length
        (if (lines.length : Int) ≤ old then 0 else old) := by
  have : ¬ (lines.length = 0 ∨ (1 : Int) = 0) := by omega
  simp only [findSelectable, this, if_false, if_true]
  split
  · rename_i h
    exact findWrap_above L box lines 1 lines.length old h hn
  · rfl

/-- What `highlightBox` does when the text is not empty and the selected line is not
selectable. -/
theorem highlightBox_of_unselectable (L : Lib) (d : Dashboard) (box : TextView) (raw : Str)
    (hc : d.contentCache box = some raw) (hraw : raw ≠ [])
    (hns : isSelectable L box (SplitLines raw) d.selectedLine = false) :
    highlightBox L d box =
      if findSelectable L box (SplitLines raw) d.selectedLine 1 true = -1 then
        ({ d with selectedLine := findSelectable L box (SplitLines raw) d.selectedLine 1 true }
          : Dashboard).setText box raw
      else
        followSelection
          (({ d with selectedLine :=
                findSelectable L box (SplitLines raw) d.selectedLine 1 true }
            : Dashboard).setText box
            (Join (markSelected (findSelectable L box (SplitLines raw) d.selectedLine 1 true)
              0 (SplitLines raw)) "\n".toList)) box := by
  have hlen : ¬ ((SplitLines raw).length = 0) := by
    have := SplitLines_length_pos raw; omega
  have hre : reseek L d box (SplitLines raw) =
      { d with selectedLine := findSelectable L box (SplitLines raw) d.selectedLine 1 true } := by
    unfold reseek
    rw [hns]
    rfl
  unfold highlightBox
  rw [hc]
  simp only [hraw, hlen, if_false, hre]

/-- The lines of a text with line `sel` inverted, written out: the lines before it,
the line between the two color tags, the lines after it. -/
theorem markSelected_eq (sel : Int) (lines : List Str) :
    ∀ i : Nat, (i : Int) ≤ sel → sel < (i : Int) + lines.length →
      markSelected sel i lines =
        lines.take (sel - i).toNat ++
          ("[black:yellow]".toList ++ lines.getD (sel - i).toNat [] ++ "[-:-:-]".toList)
            :: lines.drop ((sel - i).toNat + 1) := by
  induction lines with
  | nil =>
    intro i h1 h2
    simp only [List.length_nil, Nat.cast_zero, add_zero] at h2
    omega
  | cons l ls ih =>
    intro i h1 h2
    by_cases hi : (i : Int) = sel
    · have hrest : markSelected sel (i + 1) ls = ls :=
        markSelected_above sel ls (i + 1) (by push_cast; omega)
      have hz : (sel - (i : Int)).toNat = 0 := by omega
      simp only [markSelected, hi, if_true, hrest]
      rw [hi] at hz
      rw [hz]
      rfl
    · have hlt : (i : Int) < sel := by omega
      obtain ⟨k, hk⟩ : ∃ k : Nat, (sel - (i : Int)).toNat = k + 1 :=
        ⟨(sel - (i : Int)).toNat - 1, by omega⟩
      have hk2 : (sel - ((i + 1 : Nat) : Int)).toNat = k := by push_cast; omega
      have := ih (i + 1) (by push_cast; omega)
        (by simp only [List.length_cons] at h2; push_cast at h2 ⊢; omega)
      simp only [markSelected, hi, if_false]
      rw [this, hk, hk2]
      rfl

/-- C9: for a non-empty committed text of the panel and an old selection at or above
0 that is not selectable, `highlightBox` moves the selection to the first selectable
line found scanning forward from the old index (from line 0 when the old index is
past the end) and continuing from line 0 after the last line; the panel then shows
the lines of the text with the selected one between the tags `[black:yellow]` and
`[-:-:-]`, which is not the plain text. The selection is -1 exactly when no line of
the text is selectable, and the panel shows the plain text exactly then. -/
theorem highlightBox_reseek (L : Lib) (d : Dashboard) (box : TextView) (raw : Str)
    (hc : d.contentCache box = some raw) (hraw : raw ≠ [])
    (h0 : 0 ≤ d.selectedLine)
    (hns : isSelectable L box (SplitLines raw) d.selectedLine = false) :
    ((∃ i : Int, isSelectable L box (SplitLines raw) i = true) →
      isSelectable L box (SplitLines raw) (highlightBox L d box).selectedLine = true ∧
      (((if ((SplitLines raw).length : Int) ≤ d.selectedLine then 0 else d.selectedLine)
            ≤ (highlightBox L d box).selectedLine ∧
          ∀ j : Int,
            (if ((SplitLines raw).length : Int) ≤ d.selectedLine then 0 else d.selectedLine)
              ≤ j →
            j < (highlightBox L d box).selectedLine →
            isSelectable L box (SplitLines raw) j = false) ∨
        ((highlightBox L d box).selectedLine
            < (if ((SplitLines raw).length : Int) ≤ d.selectedLine then 0
              else d.selectedLine) ∧
          (∀ j : Int,
            (if ((SplitLines raw).length : Int) ≤ d.selectedLine then 0 else d.selectedLine)
              ≤ j →
            isSelectable L box (SplitLines raw) j = false) ∧
          ∀ j : Int, j < (highlightBox L d box).selectedLine →
            isSelectable L box (SplitLines raw) j = false)) ∧
      ((highlightBox L d box).views box).text =
        Join
          ((SplitLines raw).take (highlightBox L d box).selectedLine.toNat ++
            ("[black:yellow]".toList ++
                (SplitLines raw).getD (highlightBox L d box).selectedLine.toNat [] ++
                "[-:-:-]".toList)
              :: (SplitLines raw).drop ((highlightBox L d box).selectedLine.toNat + 1))
          "\n".toList ∧
      ((highlightBox L d box).views box).text ≠ raw) ∧
    ((highlightBox L d box).selectedLine = -1 ↔
      ∀ i : Int, isSelectable L box (SplitLines raw) i = false) ∧
    (((highlightBox L d box).views box).text = raw ↔
      ∀ i : Int, isSelectable L box (SplitLines raw) i = false) := by
  have hn := SplitLines_length_pos raw
  have hfull := findWrap_full L box (SplitLines raw)
    (if ((SplitLines raw).length : Int) ≤ d.selectedLine then 0 else d.selectedLine)
    (by split <;> omega) (by split <;> omega)
  rw [← findSelectable_reseek L box (SplitLines raw) d.selectedLine hn] at hfull
  have hb := highlightBox_of_unselectable L d box raw hc hraw hns
  by_cases hr : findSelectable L box (SplitLines raw) d.selectedLine 1 true = -1
  · rw [if_pos hr] at hb
    have hs : (highlightBox L d box).selectedLine = -1 := by rw [hb]; exact hr
    have ht : ((highlightBox L d box).views box).text = raw := by
      rw [hb]; simp [Dashboard.setText]
    have hnone : ∀ i : Int, isSelectable L box (SplitLines raw) i = false := by
      rcases hfull with ⟨_, g⟩ | ⟨g, _⟩ | ⟨g, _⟩
      · exact g
      · have := isSelectable_range L box _ _ g; omega
      · have := isSelectable_range L box _ _ g; omega
    refine ⟨?_, ⟨fun _ => hnone, fun _ => hs⟩, ⟨fun _ => hnone, fun _ => ht⟩⟩
    rintro ⟨i, hi⟩
    rw [hnone i] at hi
    exact Bool.noConfusion hi
  · rw [if_neg hr] at hb
    have hs : (highlightBox L d box).selectedLine =
        findSelectable L box (SplitLines raw) d.selectedLine 1 true := by
      rw [hb, followSelection_selectedLine]; rfl
    have ht : ((highlightBox L d box).views box).text =
        Join (markSelected (findSelectable L box (SplitLines raw) d.selectedLine 1 true) 0
          (SplitLines raw)) "\n".toList := by
      rw [hb, followSelection_text]; simp [Dashboard.setText]
    rw [hs]
    have hsel : isSelectable L box (SplitLines raw)
        (findSelectable L box (SplitLines raw) d.selectedLine 1 true) = true := by
      rcases hfull with ⟨g, _⟩ | ⟨g, _⟩ | ⟨g, _⟩
      · exact absurd g hr
      · exact g
      · exact g
    have hrange := isSelectable_range L box _ _ hsel
    have hne : ((highlightBox L d box).views box).text ≠ raw := by
      rw [ht]
      exact Join_markSelected_ne raw _ hrange.1 hrange.2
    have hsome : ¬ ∀ i : Int, isSelectable L box (SplitLines raw) i = false := by
      intro hnone
      rw [hnone] at hsel
      exact Bool.noConfusion hsel
    refine ⟨?_, ⟨fun h1 => absurd h1 hr, fun h => absurd h hsome⟩,
      ⟨fun h => absurd h hne, fun h => absurd h hsome⟩⟩
    intro _
    refine ⟨hsel, ?_, ?_, hne⟩
    · rcases hfull with ⟨g, _⟩ | ⟨_, g1, g2⟩ | ⟨_, g1, g2, g3⟩
      · exact absurd g hr
      · exact Or.inl ⟨g1, g2⟩
      · exact Or.inr ⟨g1, g2, g3⟩
    · rw [ht, markSelected_eq _ _ 0 (by simpa using hrange.1) (by simpa using hrange.2)]
      simp only [Nat.cast_zero, sub_zero]

/-- The rule of C9 on the sample run: the pods panel is in browse mode on its second
row, line 2, when a refresh brings a listing without that row; with the new text
in the cache the old selection is past the end, and `highlightBox` selects a
selectable line, here line 1, and shows a text that is not the plain listing. -/
theorem highlightBox_reseek_witness :
    (storeFetched (run asciiLib sampleFocused [.key .enter, .key .down])
      sampleFetched "NAME READY STATUS RESTARTS AGE\nnginx-7d 1/1 Running 0 5d".toList).selectedLine
      = 2 ∧
    isSelectable asciiLib .podsView
      (SplitLines "NAME READY STATUS RESTARTS AGE\nnginx-7d 1/1 Running 0 5d".toList)
      (highlightBox asciiLib
        (storeFetched (run asciiLib sampleFocused [.key .enter, .key .down])
          sampleFetched "NAME READY STATUS RESTARTS AGE\nnginx-7d 1/1 Running 0 5d".toList)
        .podsView).selectedLine = true ∧
    (highlightBox asciiLib
      (storeFetched (run asciiLib sampleFocused [.key .enter, .key .down])
        sampleFetched "NAME READY STATUS RESTARTS AGE\nnginx-7d 1/1 Running 0 5d".toList)
      .podsView).selectedLine = 1 ∧
    ((highlightBox asciiLib
      (storeFetched (run asciiLib sampleFocused [.key .enter, .key .down])
        sampleFetched "NAME READY STATUS RESTARTS AGE\nnginx-7d 1/1 Running 0 5d".toList)
      .podsView).views .podsView).text
      ≠ "NAME READY STATUS RESTARTS AGE\nnginx-7d 1/1 Running 0 5d".toList :=
  ⟨by decide,
    ((highlightBox_reseek asciiLib
      (storeFetched (run asciiLib sampleFocused [.key .enter, .key .down])
        sampleFetched "NAME READY STATUS RESTARTS AGE\nnginx-7d 1/1 Running 0 5d".toList)
      .podsView "NAME READY STATUS RESTARTS AGE\nnginx-7d 1/1 Running 0 5d".toList
      (by decide) (by decide) (by decide) (by decide)).1 ⟨1, by decide⟩).1,
    by decide,
    ((highlightBox_reseek asciiLib
      (storeFetched (run asciiLib sampleFocused [.key .enter, .key .down])
        sampleFetched "NAME READY STATUS RESTARTS AGE\nnginx-7d 1/1 Running 0 5d".toList)
      .podsView "NAME READY STATUS RESTARTS AGE\nnginx-7d 1/1 Running 0 5d".toList
      (by decide) (by decide) (by decide) (by decide)).1 ⟨1, by decide⟩).2.2.2⟩

/-! ## The namespace quick-select -/

theorem FieldsGo_nospace (s : Str) :
    ∀ cur : Option Str, (∀ w, cur = some w → ∀ c ∈ w, isSpace c = false) →
      ∀ f ∈ FieldsGo cur s, ∀ c ∈ f, isSpace c = false := by
  induction s with
  | nil =>
    intro cur hcur f hf c hc
    cases cur with
    | none => simp [FieldsGo] at hf
    | some w =>
      simp only [FieldsGo, List.mem_singleton] at hf
      subst hf
      exact hcur w rfl c (List.mem_reverse.1 hc)
  | cons a s ih =>
    intro cur hcur f hf c hc
    by_cases ha : isSpace a = true
    · cases cur with
      | none =>
        simp only [FieldsGo, ha, if_true] at hf
        exact ih none (fun w h => Option.noConfusion h) f hf c hc
      | some w =>
        simp only [FieldsGo, ha, if_true, List.mem_cons] at hf
        rcases hf with rfl | hf
        · exact hcur w rfl c (List.mem_reverse.1 hc)
        · exact ih none (fun w h => Option.noConfusion h) f hf c hc
    · simp only [FieldsGo, ha] at hf
      refine ih (some (a :: cur.getD [])) ?_ f hf c hc
      intro w hw x hx
      cases hw
      rcases List.mem_cons.1 hx with rfl | hx
      · simpa using ha
      · cases cur with
        | none => simp at hx
        | some w' => exact hcur w' rfl x hx

theorem Fields_nospace (s : Str) : ∀ f ∈ Fields s, ∀ c ∈ f, isSpace c = false :=
  FieldsGo_nospace s none (fun _ h => Option.noConfusion h)

theorem TrimSpace_of_nospace (w : Str) (h : ∀ c ∈ w, isSpace c = false) :
    TrimSpace w = w := by
  unfold TrimSpace
  have h1 : w.dropWhile isSpace = w := by
    cases w with
    | nil => rfl
    | cons a w => simp [List.dropWhile_cons, h a (List.mem_cons_self _ _)]
  rw [h1, List.rdropWhile_eq_self_iff]
  intro hne
  rw [h _ (List.getLast_mem hne)]
  exact Bool.false_ne_true

theorem namespaceNames_trimmed (lines : List Str) :
    ∀ n ∈ namespaceNames lines, TrimSpace n = n := by
  induction lines with
  | nil => intro n hn; simp [namespaceNames] at hn
  | cons line rest ih =>
    intro n hn
    unfold namespaceNames at hn
    split at hn
    · exact ih n hn
    · split at hn
      · exact ih n hn
      · rename_i name tl hf
        rcases List.mem_cons.1 hn with rfl | hn
        · exact TrimSpace_of_nospace _
            (Fields_nospace line _ (by rw [hf]; exact List.mem_cons_self _ _))
        · exact ih n hn

/-- The names `BuildNamespaces` returns have no white space at their ends. -/
theorem BuildNamespacesNames_trimmed (out : Str) :
    ∀ n ∈ BuildNamespacesNames out, TrimSpace n = n := by
  intro n hn
  unfold BuildNamespacesNames at hn
  rcases List.mem_cons.1 hn with rfl | hn
  · rfl
  · exact namespaceNames_trimmed _ n hn

theorem restoreBrowseStyle_ns (d : Dashboard) (box : TextView) :
    (restoreBrowseStyle d box).ns = d.ns := by
  unfold restoreBrowseStyle
  dsimp only
  split <;> split <;> split <;> rfl

theorem exitBrowse_ns (d : Dashboard) : (exitBrowse d).ns = d.ns := by
  unfold exitBrowse
  dsimp only
  split
  · exact restoreBrowseStyle_ns _ _
  · rfl

theorem scheduleUpdate_ns (d : Dashboard) : (scheduleUpdate d).ns = d.ns := by
  unfold scheduleUpdate
  split <;> rfl

theorem handleInput_rune (L : Lib) (d : Dashboard) (c : Char) (hm : d.modalOpen = false) :
    handleInput L d (.rune c) = handleKeys L d (.rune c) := by
  unfold handleInput
  rw [hm]
  simp only [Bool.false_eq_true, if_false]
  cases d.browseBox <;> rfl

theorem handleKeys_digit (L : Lib) (d : Dashboard) (c : Char)
    (h0 : '0'.toNat ≤ c.toNat) (h9 : c.toNat ≤ '9'.toNat) :
    handleKeys L d (.rune c) = (selectNamespace d c, false) := by
  have e0 : '0'.toNat = 48 := by decide
  have e9 : '9'.toNat = 57 := by decide
  rw [e0] at h0
  rw [e9] at h9
  have hw : c ≠ 'w' := by rintro rfl; exact absurd h9 (by decide)
  have hn : c ≠ 'n' := by rintro rfl; exact absurd h9 (by decide)
  have hc : c ≠ 'c' := by rintro rfl; exact absurd h9 (by decide)
  have hm : c ≠ 'm' := by rintro rfl; exact absurd h9 (by decide)
  have hl : c ≠ 'l' := by rintro rfl; exact absurd h9 (by decide)
  have hd : '0'.toNat ≤ c.toNat ∧ c.toNat ≤ '9'.toNat := by rw [e0, e9]; exact ⟨h0, h9⟩
  simp only [handleKeys, hw, hn, hc, hm, hl, if_false, hd, and_self, if_true]

theorem selectNamespace_in (d : Dashboard) (c : Char) (h0 : '0'.toNat ≤ c.toNat)
    (h : c.toNat - '0'.toNat < d.nsList.length) :
    (selectNamespace d c).ns = TrimSpace (d.nsList.getD (c.toNat - '0'.toNat) []) := by
  unfold selectNamespace
  dsimp only
  have hi : (c.toNat : Int) - ('0'.toNat : Int) ≥ 0 ∧
      (c.toNat : Int) - ('0'.toNat : Int) < (d.nsList.length : Int) := by omega
  rw [if_pos hi, scheduleUpdate_ns, exitBrowse_ns]
  have : ((c.toNat : Int) - ('0'.toNat : Int)).toNat = c.toNat - '0'.toNat := by omega
  rw [this]

theorem selectNamespace_out (d : Dashboard) (c : Char) (h0 : '0'.toNat ≤ c.toNat)
    (h : d.nsList.length ≤ c.toNat - '0'.toNat) : selectNamespace d c = d := by
  unfold selectNamespace
  dsimp only
  have hi : ¬ ((c.toNat : Int) - ('0'.toNat : Int) ≥ 0 ∧
      (c.toNat : Int) - ('0'.toNat : Int) < (d.nsList.length : Int)) := by omega
  rw [if_neg hi]

/-- C10: with no overlay open, a digit key whose digit is below the length of the
cached namespace list sets the namespace filter to the cached name at that index,
trimmed, which for a list cached from `BuildNamespaces` is the name itself; a digit
at or beyond the length leaves the whole dashboard state unchanged. With the cached
list of the empty name, `default` and `kube-system`, digit 2 sets the filter to
`kube-system` and digit 5 changes nothing. -/
theorem digit_key_rule (L : Lib) (d : Dashboard) (hm : d.modalOpen = false) :
    (∀ c : Char, '0'.toNat ≤ c.toNat → c.toNat ≤ '9'.toNat →
      (c.toNat - '0'.toNat < d.nsList.length →
        (handleInput L d (.rune c)).1.ns
          = TrimSpace (d.nsList.getD (c.toNat - '0'.toNat) []) ∧
        ((∃ out : Str, d.nsList = BuildNamespacesNames out) →
          (handleInput L d (.rune c)).1.ns = d.nsList.getD (c.toNat - '0'.toNat) [])) ∧
      (d.nsList.length ≤ c.toNat - '0'.toNat → handleInput L d (.rune c) = (d, false))) ∧
    (d.nsList = [[], "default".toList, "kube-system".toList] →
      (handleInput L d (.rune '2')).1.ns = "kube-system".toList ∧
      handleInput L d (.rune '5') = (d, false)) := by
  have key : ∀ c : Char, '0'.toNat ≤ c.toNat → c.toNat ≤ '9'.toNat →
      (c.toNat - '0'.toNat < d.nsList.length →
        (handleInput L d (.rune c)).1.ns
          = TrimSpace (d.nsList.getD (c.toNat - '0'.toNat) [])) ∧
      (d.nsList.length ≤ c.toNat - '0'.toNat → handleInput L d (.rune c) = (d, false)) := by
    intro c h0 h9
    rw [handleInput_rune L d c hm, handleKeys_digit L d c h0 h9]
    exact ⟨fun h => selectNamespace_in d c h0 h,
      fun h => by rw [selectNamespace_out d c h0 h]⟩
  constructor
  · intro c h0 h9
    refine ⟨fun h => ⟨(key c h0 h9).1 h, ?_⟩, (key c h0 h9).2⟩
    rintro ⟨out, hout⟩
    rw [(key c h0 h9).1 h]
    apply BuildNamespacesNames_trimmed out
    rw [← hout, List.getD_eq_getElem _ _ h]
    exact List.getElem_mem _
  · intro hl
    constructor
    · rw [(key '2' (by decide) (by decide)).1 (by rw [hl]; decide), hl]
      decide
    · exact (key '5' (by decide) (by decide)).2 (by rw [hl]; decide)

/-- The rule of C10 on the sample run, whose cached list is the empty name, `default`
and `kube-system`: digit 1 sets the filter to `default`. -/
theorem digit_key_rule_witness :
    sampleFocused.modalOpen = false ∧
    (handleInput asciiLib sampleFocused (.rune '1')).1.ns = "default".toList :=
  ⟨by decide, by
    rw [((digit_key_rule asciiLib sampleFocused (by decide)).1 '1' (by decide)
      (by decide)).1 (by decide) |>.1]
    decide⟩

/-! ## The focus order -/

theorem focusable_eq_filter (d : Dashboard) (box : TextView) :
    focusable d box = [box].filter (fun b => decide (TrimSpace (d.cached b) ≠ [])) := by
  unfold focusable
  by_cases h : TrimSpace (d.cached box) = []
  · simp [h]
  · simp [h]

theorem focusOrder_eq_filter (d : Dashboard) :
    focusOrder d =
      (pagePanels d.currentPage).filter (fun b => decide (TrimSpace (d.cached b) ≠ [])) := by
  unfold focusOrder pagePanels
  simp only [focusable_eq_filter, ← List.filter_append]
  split
  · rfl
  · split
    · rfl
    · split
      · rfl
      · split
        · rfl
        · rfl

/-- C11: `focusOrder` returns the panels declared for the current page (workloads:
workloads, pods; network: network; cluster: infra, config, storage; metrics:
metrics), in declared order, without those whose cached text is blank after
trimming; a panel is in the focus order exactly when it belongs to the current
page and its cached text is not blank. -/
theorem focusOrder_rule (d : Dashboard) :
    focusOrder d =
      (pagePanels d.currentPage).filter (fun b => decide (TrimSpace (d.cached b) ≠ [])) ∧
    (∀ b : TextView, b ∈ focusOrder d ↔
      b ∈ pagePanels d.currentPage ∧ TrimSpace (d.cached b) ≠ []) ∧
    pagePanels "workloads".toList = [.workloadsView, .podsView] ∧
    pagePanels "network".toList = [.networkView] ∧
    pagePanels "cluster".toList = [.infraView, .configView, .storageView] ∧
    pagePanels "metrics".toList = [.metricsView] := by
  refine ⟨focusOrder_eq_filter d, ?_, by decide, by decide, by decide, by decide⟩
  intro b
  rw [focusOrder_eq_filter, List.mem_filter, decide_eq_true_iff]

/-! ## The page switch -/

theorem restoreBrowseStyle_frame (d : Dashboard) (box : TextView) :
    ∃ v : TextView → Widget, restoreBrowseStyle d box = { d with views := v } := by
  unfold restoreBrowseStyle
  dsimp only
  split <;> split <;> split <;> exact ⟨_, rfl⟩

/-- What `exitBrowse` changes: widgets, and the browse mode, which it ends. -/
theorem exitBrowse_frame (d : Dashboard) :
    ∃ v : TextView → Widget, exitBrowse d = { d with views := v, browseBox := none } := by
  unfold exitBrowse
  dsimp only
  split
  · rename_i b _
    obtain ⟨v, hv⟩ := restoreBrowseStyle_frame d b
    rw [hv]
    exact ⟨_, rfl⟩
  · exact ⟨_, rfl⟩

theorem focusOrder_congr (d e : Dashboard) (h1 : e.currentPage = d.currentPage)
    (h2 : e.contentCache = d.contentCache) : focusOrder e = focusOrder d := by
  unfold focusOrder focusable Dashboard.cached
  rw [h1, h2]

theorem exitBrowse_focus (d : Dashboard) : (exitBrowse d).focus = d.focus := by
  obtain ⟨v, hv⟩ := exitBrowse_frame d
  rw [hv]

/-- The state `setPage` hands to `highlightFocus`, up to widgets: when the page has
no focusable panel the focus is the one the toolkit leaves after the page switch. -/
theorem setPage_frame (L : Lib) (d : Dashboard) (page : Str) :
    ∃ v : TextView → Widget,
      setPage L d page =
        { d with views := v, browseBox := none, currentPage := page, shownPage := page,
                 focus := match (pagePanels page).filter
                     (fun b => decide (TrimSpace (d.cached b) ≠ [])) with
                   | item :: _ => some (.textView item)
                   | [] => L.pagesFocus
                       { (exitBrowse d) with currentPage := page, shownPage := page } } := by
  unfold setPage pagesRefocus
  dsimp only
  generalize L.pagesFocus _ = fo
  obtain ⟨v, hv⟩ := exitBrowse_frame d
  rw [hv]
  obtain ⟨w, hw⟩ := highlightFocus_frame (focusFirst
    (({ ({ d with views := v, browseBox := none } : Dashboard) with
        currentPage := page, shownPage := page, focus := fo } : Dashboard).setText
      .pageIndicator (buildIndicator L page)))
  rw [hw]
  unfold focusFirst
  have ho : focusOrder
      (({ ({ d with views := v, browseBox := none } : Dashboard) with
        currentPage := page, shownPage := page, focus := fo } : Dashboard).setText
      .pageIndicator (buildIndicator L page))
      = (pagePanels page).filter (fun b => decide (TrimSpace (d.cached b) ≠ [])) := by
    rw [focusOrder_eq_filter]
    rfl
  rw [ho]
  cases (pagePanels page).filter (fun b => decide (TrimSpace (d.cached b) ≠ [])) with
  | nil => exact ⟨_, rfl⟩
  | cons item rest => exact ⟨_, rfl⟩

theorem setPage_focusOrder (L : Lib) (d : Dashboard) (page : Str) :
    focusOrder (setPage L d page)
      = (pagePanels page).filter (fun b => decide (TrimSpace (d.cached b) ≠ [])) := by
  obtain ⟨v, hv⟩ := setPage_frame L d page
  rw [hv, focusOrder_eq_filter]
  rfl

theorem pagePanels_inside (page : Str) (b : TextView) (hb : b ∈ pagePanels page) :
    outsidePages b = false ∧ b ≠ .modalLogs ∧ b ≠ .infoPopup := by
  unfold pagePanels at hb
  split at hb
  · revert b; decide
  · split at hb
    · revert b; decide
    · split at hb
      · revert b; decide
      · split at hb
        · revert b; decide
        · cases hb

/-- C12, as stated, fails: in the sample run the network panel has no content and
the focus is on the alerts panel of the header, where a click of the mouse puts
it; after the key `n`, which calls `setPage("network")`, the current page is the
network page, its focus order is empty, and the focus is not unset: it is still on
the alerts panel. The alerts panel is outside the pages, so this is so with every
library. -/
theorem setPage_focus_counterexample :
    (run asciiLib sampleFocused
      [.focusMoved (.textView .alertsView), .key (.rune 'n')]).currentPage
      = "network".toList ∧
    focusOrder (run asciiLib sampleFocused
      [.focusMoved (.textView .alertsView), .key (.rune 'n')]) = [] ∧
    (run asciiLib sampleFocused
      [.focusMoved (.textView .alertsView), .key (.rune 'n')]).focus
      = some (.textView .alertsView) ∧
    (run asciiLib sampleFocused
      [.focusMoved (.textView .alertsView), .key (.rune 'n')]).focus ≠ none := by
  decide

/-- C12, amended: after `setPage(p)` no panel is in browse mode, the current page is
`p`, the focus order is that of `p`, and the focused panel is the first entry of
that order when it is not empty. When `p` has no focusable panel `setPage` makes no
focus call of its own and the focus is the one the page switch of the toolkit
leaves: it is unset exactly when it was unset before, a focus on a panel outside
the pages, as the panels of the header are, stays on that panel, and no panel of
another page remains focused. -/
theorem setPage_rule (L : Lib) (d : Dashboard) (page : Str) :
    (setPage L d page).browseBox = none ∧
    (setPage L d page).currentPage = page ∧
    focusOrder (setPage L d page)
      = (pagePanels page).filter (fun b => decide (TrimSpace (d.cached b) ≠ [])) ∧
    (∀ (item : TextView) (rest : List TextView),
      focusOrder (setPage L d page) = item :: rest →
      (setPage L d page).focus = some (.textView item)) ∧
    (focusOrder (setPage L d page) = [] →
      (setPage L d page).focus
        = L.pagesFocus { (exitBrowse d) with currentPage := page, shownPage := page } ∧
      ((setPage L d page).focus = none ↔ d.focus = none) ∧
      (∀ v : TextView, outsidePages v = true → d.focus = some (.textView v) →
        (setPage L d page).focus = some (.textView v)) ∧
      (∀ (other : Str) (b : TextView), b ∈ pagePanels other → b ∉ pagePanels page →
        (setPage L d page).focus ≠ some (.textView b))) := by
  have ho := setPage_focusOrder L d page
  obtain ⟨v, hv⟩ := setPage_frame L d page
  refine ⟨by rw [hv], by rw [hv], ho, ?_, ?_⟩
  · intro item rest h
    rw [ho] at h
    rw [hv]
    simp only [h]
  · intro h
    rw [ho] at h
    have hfoc : (setPage L d page).focus
        = L.pagesFocus { (exitBrowse d) with currentPage := page, shownPage := page } := by
      rw [hv]
      simp only [h]
    have hold : ({ (exitBrowse d) with currentPage := page, shownPage := page }
        : Dashboard).focus = d.focus := exitBrowse_focus d
    refine ⟨hfoc, ?_, ?_, ?_⟩
    · rw [hfoc]
      constructor
      · intro hn
        by_contra hne
        exact L.pagesFocus_some _ (by rw [hold]; exact hne) hn
      · intro hn
        exact L.pagesFocus_none _ (by rw [hold]; exact hn)
    · intro u hu hf
      rw [hfoc]
      exact L.pagesFocus_outside _ u hu (by rw [hold]; exact hf)
    · intro other b hb hnb hf
      rw [hfoc] at hf
      have hin := pagePanels_inside other b hb
      rcases L.pagesFocus_shown _ b hin.1 hf with h1 | h1 | h1
      · exact hnb h1
      · exact hin.2.1 h1
      · exact hin.2.2 h1

/-! ## The focus cycle -/

theorem pagePanels_nodup (page : Str) : (pagePanels page).Nodup := by
  unfold pagePanels
  split
  · decide
  · split
    · decide
    · split
      · decide
      · split
        · decide
        · exact List.nodup_nil

theorem focusOrder_nodup (d : Dashboard) : (focusOrder d).Nodup := by
  rw [focusOrder_eq_filter]
  exact (pagePanels_nodup _).filter _

theorem indexIn_none {α : Type} [DecidableEq α] (x : α) (l : List α) (h : x ∉ l) :
    indexIn x l = none := by
  induction l with
  | nil => rfl
  | cons y ys ih =>
    have h1 : ¬ (y = x) := fun e => h (e ▸ List.mem_cons_self _ _)
    have h2 : x ∉ ys := fun m => h (List.mem_cons_of_mem _ m)
    simp only [indexIn, h1, if_false, ih h2, Option.map_none']

theorem indexIn_get {α : Type} [DecidableEq α] (l : List α) (hn : l.Nodup) :
    ∀ (i : Nat) (hi : i < l.length), indexIn (l.get ⟨i, hi⟩) l = some i := by
  induction l with
  | nil => intro i hi; exact absurd hi (Nat.not_lt_zero _)
  | cons y ys ih =>
    intro i hi
    cases i with
    | zero => simp [indexIn]
    | succ i =>
      have hi' : i < ys.length := by simpa using hi
      have hne : ¬ (y = ys.get ⟨i, hi'⟩) := by
        intro e
        exact (List.nodup_cons.1 hn).1 (e ▸ List.get_mem _ _ _)
      simp only [List.get_cons_succ, indexIn, hne, if_false,
        ih (List.nodup_cons.1 hn).2 i hi', Option.map_some']

theorem highlightFocus_focus (d : Dashboard) : (highlightFocus d).focus = d.focus := by
  obtain ⟨v, hv⟩ := highlightFocus_frame d
  rw [hv]

/-- The result of `moveFocus` when the focused panel is entry `i` of a focus order
of length `n`, for a step that keeps `i + delta + n` at or above 0. -/
theorem moveFocus_at (d : Dashboard) (delta : Int) (i : Nat)
    (hi : i < (focusOrder d).length)
    (hf : d.focus = some (.textView ((focusOrder d).get ⟨i, hi⟩)))
    (hd : 0 ≤ (i : Int) + delta + ((focusOrder d).length : Int)) :
    ∃ (d' : Dashboard) (v : TextView),
      moveFocus d delta = some d' ∧
      (focusOrder d).get? (((i : Int) + delta) % ((focusOrder d).length : Int)).toNat
        = some v ∧
      d'.focus = some (.textView v) := by
  have hn : 0 < (focusOrder d).length := by omega
  have hn' : (0 : Int) < ((focusOrder d).length : Int) := by omega
  have hidx := indexIn_get (focusOrder d) (focusOrder_nodup d) i hi
  have hmod : Int.tmod ((i : Int) + delta + ((focusOrder d).length : Int))
      ((focusOrder d).length : Int) = ((i : Int) + delta) % ((focusOrder d).length : Int) := by
    rw [Int.tmod_eq_emod hd (le_of_lt hn'), Int.add_emod_self]
  have h0 : 0 ≤ ((i : Int) + delta) % ((focusOrder d).length : Int) :=
    Int.emod_nonneg _ (ne_of_gt hn')
  have h1 : ((i : Int) + delta) % ((focusOrder d).length : Int) < ((focusOrder d).length : Int) :=
    Int.emod_lt_of_pos _ hn'
  have hlt : (((i : Int) + delta) % ((focusOrder d).length : Int)).toNat
      < (focusOrder d).length := by omega
  have hget := List.get?_eq_get hlt
  refine ⟨highlightFocus (d.setFocus (.textView ((focusOrder d).get ⟨_, hlt⟩))), _, ?_, hget, ?_⟩
  · unfold moveFocus
    dsimp only
    have hne : ¬ ((focusOrder d).length = 0) := by omega
    rw [if_neg hne, hf]
    simp only [hidx, hmod]
    have hnn : ¬ (((i : Int) + delta) % ((focusOrder d).length : Int) < 0) := by omega
    rw [if_neg hnn, hget]
  · rw [highlightFocus_focus]
    rfl

/-- The result of `moveFocus` when the focused element is not in the focus order. -/
theorem moveFocus_outside (d : Dashboard) (delta : Int) (item : TextView)
    (rest : List TextView) (ho : focusOrder d = item :: rest)
    (hf : ∀ b ∈ focusOrder d, d.focus ≠ some (.textView b)) :
    ∃ d' : Dashboard, moveFocus d delta = some d' ∧ d'.focus = some (.textView item) := by
  refine ⟨highlightFocus (d.setFocus (.textView item)), ?_, ?_⟩
  · unfold moveFocus
    dsimp only
    have hne : ¬ ((focusOrder d).length = 0) := by rw [ho]; simp
    rw [if_neg hne]
    cases hfoc : d.focus with
    | none => simp only [ho, List.headD_cons]
    | some p =>
      cases p with
      | container id => simp only [ho, List.headD_cons]
      | textView cur =>
        have hidx : indexIn cur (focusOrder d) = none := by
          apply indexIn_none
          intro hm
          exact hf cur hm hfoc
        simp only [hidx]
        simp only [ho, List.headD_cons]
  · rw [highlightFocus_focus]
    rfl

/-- C13: for a step of +1 or -1 and a focus order of length `n` at least 1, when the
focused element is entry `i` of the order `moveFocus` focuses entry
`(i + delta) mod n`; when it is not in the order, the first entry; when the focus
order is empty, nothing changes. -/
theorem moveFocus_rule (d : Dashboard) (delta : Int) (hd : delta = 1 ∨ delta = -1) :
    (focusOrder d = [] → moveFocus d delta = some d) ∧
    (∀ (i : Nat) (hi : i < (focusOrder d).length),
      d.focus = some (.textView ((focusOrder d).get ⟨i, hi⟩)) →
      ∃ (d' : Dashboard) (v : TextView),
        moveFocus d delta = some d' ∧
        (focusOrder d).get? (((i : Int) + delta) % ((focusOrder d).length : Int)).toNat
          = some v ∧
        d'.focus = some (.textView v)) ∧
    (∀ (item : TextView) (rest : List TextView), focusOrder d = item :: rest →
      (∀ b ∈ focusOrder d, d.focus ≠ some (.textView b)) →
      ∃ d' : Dashboard, moveFocus d delta = some d' ∧ d'.focus = some (.textView item)) := by
  refine ⟨?_, ?_, ?_⟩
  · intro h
    unfold moveFocus
    dsimp only
    rw [h]
    rfl
  · intro i hi hf
    exact moveFocus_at d delta i hi hf (by rcases hd with h | h <;> omega)
  · intro item rest ho hf
    exact moveFocus_outside d delta item rest ho hf

/-- The rule of C13 in the sample run, where the focus order is the workloads panel
and the pods panel and the pods panel, entry 1, is focused: a step of +1 wraps to
entry 0, the workloads panel. -/
theorem moveFocus_rule_witness :
    focusOrder sampleFocused = [.workloadsView, .podsView] ∧
    (moveFocus sampleFocused 1).map (fun d => d.focus)
      = some (some (.textView .workloadsView)) ∧
    ∃ (d' : Dashboard) (v : TextView),
      moveFocus sampleFocused 1 = some d' ∧
      (focusOrder sampleFocused).get?
        ((((1 : Nat) : Int) + 1) % ((focusOrder sampleFocused).length : Int)).toNat
        = some v ∧
      d'.focus = some (.textView v) :=
  ⟨by decide, by decide,
    (moveFocus_rule sampleFocused 1 (Or.inl rfl)).2.1 1 (by decide) (by decide)⟩

/-! ## The refresh slot -/

theorem scheduleUpdate_full (d : Dashboard) (h : 1 ≤ d.updateCh) : scheduleUpdate d = d := by
  unfold scheduleUpdate
  rw [if_neg (by omega)]

theorem scheduleUpdate_empty (d : Dashboard) (h : d.updateCh = 0) :
    scheduleUpdate d = { d with updateCh := 1 } := by
  unfold scheduleUpdate
  rw [if_pos (by omega), h]

theorem scheduleUpdate_idem (d : Dashboard) :
    scheduleUpdate (scheduleUpdate d) = scheduleUpdate d := by
  by_cases h : 1 ≤ d.updateCh
  · rw [scheduleUpdate_full d h, scheduleUpdate_full d h]
  · rw [scheduleUpdate_empty d (by omega)]
    exact scheduleUpdate_full _ (le_refl 1)

theorem scheduleUpdate_iterate (d : Dashboard) (N : Nat) :
    Nat.iterate scheduleUpdate (N + 1) d = scheduleUpdate d := by
  induction N with
  | zero => rfl
  | succ N ih =>
    rw [Function.iterate_succ_apply', ih, scheduleUpdate_idem]

/-- C14: with the channel of capacity 1 as a counter of buffered signals,
`scheduleUpdate` is idempotent; any number `N` of calls, at least one, without a
receive between them has the effect of one call, leaves one pending signal when
the buffer held at most one before, changes nothing else, and after the one
receive of the worker the buffer is empty, so one refresh cycle follows. The
function is total: a call returns whatever the buffer holds. -/
theorem scheduleUpdate_coalesces (L : Lib) (d : Dashboard) :
    scheduleUpdate (scheduleUpdate d) = scheduleUpdate d ∧
    (∀ N : Nat, 1 ≤ N → Nat.iterate scheduleUpdate N d = scheduleUpdate d) ∧
    (∀ N : Nat, 1 ≤ N → d.updateCh ≤ 1 →
      (Nat.iterate scheduleUpdate N d).updateCh = 1 ∧
      Nat.iterate scheduleUpdate N d = { d with updateCh := 1 } ∧
      (step L (Nat.iterate scheduleUpdate N d) .receive).updateCh = 0) := by
  have hit : ∀ N : Nat, 1 ≤ N → Nat.iterate scheduleUpdate N d = scheduleUpdate d := by
    intro N hN
    obtain ⟨M, rfl⟩ : ∃ M, N = M + 1 := ⟨N - 1, by omega⟩
    exact scheduleUpdate_iterate d M
  refine ⟨scheduleUpdate_idem d, hit, ?_⟩
  intro N hN hcap
  rw [hit N hN]
  have hone : scheduleUpdate d = { d with updateCh := 1 } := by
    by_cases h : d.updateCh = 0
    · exact scheduleUpdate_empty d h
    · have h1 : d.updateCh = 1 := by omega
      rw [scheduleUpdate_full d (by omega)]
      cases d
      simp only at h1
      subst h1
      rfl
  rw [hone]
  exact ⟨rfl, rfl, rfl⟩

/-! ## The overlay -/

theorem handleInput_modal_other (L : Lib) (d : Dashboard) (k : Key)
    (hm : d.modalOpen = true) (hk : k ≠ .esc) : handleInput L d k = (d, true) := by
  unfold handleInput
  rw [hm]
  simp only [if_true, hk, if_false]

theorem handleInput_modal_keys (L : Lib) (keys : List Key) :
    ∀ d : Dashboard, d.modalOpen = true → (∀ k ∈ keys, k ≠ .esc) →
      keys.foldl (fun s k => (handleInput L s k).1) d = d := by
  induction keys with
  | nil => intro d _ _; rfl
  | cons k ks ih =>
    intro d hm hk
    rw [List.foldl_cons, handleInput_modal_other L d k hm (hk k (List.mem_cons_self _ _))]
    exact ih d hm (fun k' h => hk k' (List.mem_cons_of_mem _ h))

/-- What the Escape key does while the overlay is open: the flag is cleared, the
focus goes to the restore target when there is one and is else the one the
toolkit leaves after the page of the overlay is removed, and the page, the browse
mode, the selection and the namespace filter stay. -/
theorem handleInput_modal_esc (L : Lib) (s : Dashboard) (hm : s.modalOpen = true) :
    (handleInput L s .esc).1.modalOpen = false ∧
    (handleInput L s .esc).1.focus =
      (match s.restoreFocus with
        | some p => some p
        | none => L.pagesFocus { s with modalPage := false }) ∧
    (handleInput L s .esc).1.currentPage = s.currentPage ∧
    (handleInput L s .esc).1.browseBox = s.browseBox ∧
    (handleInput L s .esc).1.selectedLine = s.selectedLine ∧
    (handleInput L s .esc).1.ns = s.ns := by
  unfold handleInput pagesRefocus
  rw [hm]
  simp only [if_true]
  cases hr : s.restoreFocus with
  | none => exact ⟨rfl, rfl, rfl, rfl, rfl, rfl⟩
  | some p => exact ⟨rfl, rfl, rfl, rfl, rfl, rfl⟩

/-- C16: `openModal` takes the focused element as the restore target and sets the
modal-open flag; while the overlay is open the keys other than Escape change
nothing; Escape then clears the flag and leaves the focus on the element that was
focused when the overlay was opened, wherever the toolkit put the focus when the
page of the overlay was added and removed, and the current page, the browse panel,
the selected line and the namespace filter are as they were. All of this holds
whether or not an overlay was open before. -/
theorem overlay_round_trip (L : Lib) (d : Dashboard) (title body : Str) (keys : List Key)
    (hk : ∀ k ∈ keys, k ≠ .esc) :
    (openModal L d title body).restoreFocus = d.focus ∧
    (openModal L d title body).modalOpen = true ∧
    keys.foldl (fun s k => (handleInput L s k).1) (openModal L d title body)
      = openModal L d title body ∧
    (handleInput L (keys.foldl (fun s k => (handleInput L s k).1) (openModal L d title body))
      .esc).1.modalOpen = false ∧
    (handleInput L (keys.foldl (fun s k => (handleInput L s k).1) (openModal L d title body))
      .esc).1.focus = d.focus ∧
    (handleInput L (keys.foldl (fun s k => (handleInput L s k).1) (openModal L d title body))
      .esc).1.currentPage = d.currentPage ∧
    (handleInput L (keys.foldl (fun s k => (handleInput L s k).1) (openModal L d title body))
      .esc).1.browseBox = d.browseBox ∧
    (handleInput L (keys.foldl (fun s k => (handleInput L s k).1) (openModal L d title body))
      .esc).1.selectedLine = d.selectedLine ∧
    (handleInput L (keys.foldl (fun s k => (handleInput L s k).1) (openModal L d title body))
      .esc).1.ns = d.ns := by
  have hopen : (openModal L d title body).modalOpen = true := rfl
  have hr : (openModal L d title body).restoreFocus = d.focus := rfl
  have hkeys := handleInput_modal_keys L keys (openModal L d title body) hopen hk
  rw [hkeys]
  obtain ⟨h1, h2, h3, h4, h5, h6⟩ := handleInput_modal_esc L (openModal L d title body) hopen
  refine ⟨hr, hopen, rfl, h1, ?_, h3, h4, h5, h6⟩
  rw [h2, hr]
  cases hf : d.focus with
  | some p => rfl
  | none =>
    have hopened : (openModal L d title body).focus = none :=
      L.pagesFocus_none _ hf
    exact L.pagesFocus_none _ hopened

/-- The round trip of C16 in the sample run, where the pods panel is focused: the
alerts overlay is opened and, with the library of the examples, takes the focus;
the keys up, `x` and enter are handled, then Escape, and the pods panel is focused
again. -/
theorem overlay_round_trip_witness :
    sampleFocused.focus = some (.textView .podsView) ∧
    (openModal asciiLib sampleFocused "ALERTAS".toList "Sem alertas.".toList).focus
      = some (.textView .modalLogs) ∧
    (handleInput asciiLib
      ([Key.up, .rune 'x', .enter].foldl (fun s k => (handleInput asciiLib s k).1)
        (openModal asciiLib sampleFocused "ALERTAS".toList "Sem alertas.".toList))
      .esc).1.focus = sampleFocused.focus ∧
    (handleInput asciiLib
      ([Key.up, .rune 'x', .enter].foldl (fun s k => (handleInput asciiLib s k).1)
        (openModal asciiLib sampleFocused "ALERTAS".toList "Sem alertas.".toList))
      .esc).1.modalOpen = false :=
  ⟨by decide, by decide,
    (overlay_round_trip asciiLib sampleFocused "ALERTAS".toList "Sem alertas.".toList
      [Key.up, .rune 'x', .enter] (by decide)).2.2.2.2.1,
    (overlay_round_trip asciiLib sampleFocused "ALERTAS".toList "Sem alertas.".toList
      [Key.up, .rune 'x', .enter] (by decide)).2.2.2.1⟩

/-! ## Contextual actions without a target -/

theorem resourceNameFor_no_fields (L : Lib) (box : TextView) (line ns : Str)
    (h : Fields line = []) : resourceNameFor L box line ns = [] := by
  unfold resourceNameFor
  simp only [h, List.length_nil, if_true]

/-- The index expression `lines[i]` yields the line for an index in range. -/
theorem indexLine_in_range (lines : List Str) (i : Int) (h0 : 0 ≤ i)
    (h1 : i < (lines.length : Int)) : indexLine lines i = some (lineAt lines i) := by
  unfold indexLine lineAt
  rw [if_neg (by omega)]
  have hlt : i.toNat < lines.length := by omega
  rw [List.get?_eq_get hlt, List.getD_eq_getElem _ _ hlt]
  rfl

/-- The index expression `lines[i]` fails for an index out of range. -/
theorem indexLine_out (lines : List Str) (i : Int)
    (h : i < 0 ∨ (lines.length : Int) ≤ i) : indexLine lines i = none := by
  unfold indexLine
  by_cases h0 : i < 0
  · rw [if_pos h0]
  · rw [if_neg h0]
    exact List.get?_eq_none.2 (by omega)

/-- What `openLogsSelected` does for a selected index in range, in the pods panel. -/
theorem openLogsSelected_in_range (L : Lib) (d : Dashboard)
    (hb : d.browseBox = some .podsView) (h0 : 0 ≤ d.selectedLine)
    (h1 : d.selectedLine < ((SplitLines (d.cached .podsView)).length : Int)) :
    openLogsSelected L d =
      if resourceNameFor L .podsView
          (lineAt (SplitLines (d.cached .podsView)) d.selectedLine) d.ns ≠ [] then
        some (openLogs L d
          (resourceNameFor L .podsView
            (lineAt (SplitLines (d.cached .podsView)) d.selectedLine) d.ns)
          (resourceNSFor L .podsView
            (lineAt (SplitLines (d.cached .podsView)) d.selectedLine) d.ns))
      else some d := by
  unfold openLogsSelected
  rw [hb]
  dsimp only
  rw [if_neg (by simp), if_neg (by omega), indexLine_in_range _ _ h0 h1]

/-- What `openDescribeSelected` does for a selected index in range. -/
theorem openDescribeSelected_in_range (L : Lib) (d : Dashboard) (box : TextView)
    (hb : d.browseBox = some box) (h0 : 0 ≤ d.selectedLine)
    (h1 : d.selectedLine < ((SplitLines (d.cached box)).length : Int)) :
    openDescribeSelected L d =
      if resourceKindFor box (SplitLines (d.cached box)) d.selectedLine = [] then some d
      else if resourceNameFor L box
          (lineAt (SplitLines (d.cached box)) d.selectedLine) d.ns ≠ [] then
        some (openDescribe L d
          (resourceKindFor box (SplitLines (d.cached box)) d.selectedLine)
          (resourceNameFor L box (lineAt (SplitLines (d.cached box)) d.selectedLine) d.ns)
          (resourceNSFor L box (lineAt (SplitLines (d.cached box)) d.selectedLine) d.ns))
      else some d := by
  unfold openDescribeSelected
  rw [hb]
  dsimp only
  rw [if_neg (by omega), indexLine_in_range _ _ h0 h1]

theorem openLogsSelected_noop (L : Lib) (d : Dashboard) (box : TextView)
    (hb : d.browseBox = some box)
    (h : (d.selectedLine < 0 ∨ ((SplitLines (d.cached box)).length : Int) ≤ d.selectedLine) ∨
      resourceNameFor L box (lineAt (SplitLines (d.cached box)) d.selectedLine) d.ns = []) :
    openLogsSelected L d = some d := by
  by_cases hp : box = .podsView
  · subst hp
    by_cases hr : d.selectedLine < 0 ∨
        ((SplitLines (d.cached .podsView)).length : Int) ≤ d.selectedLine
    · unfold openLogsSelected
      rw [hb]
      dsimp only
      rw [if_neg (by simp), if_pos (by omega)]
    · rw [openLogsSelected_in_range L d hb (by omega) (by omega),
        h.resolve_left hr]
      simp only [ne_eq, not_true_eq_false, if_false]
  · unfold openLogsSelected
    rw [hb]
    dsimp only
    rw [if_pos hp]

theorem openDescribeSelected_noop (L : Lib) (d : Dashboard) (box : TextView)
    (hb : d.browseBox = some box)
    (h : (d.selectedLine < 0 ∨ ((SplitLines (d.cached box)).length : Int) ≤ d.selectedLine) ∨
      resourceKindFor box (SplitLines (d.cached box)) d.selectedLine = [] ∨
      resourceNameFor L box (lineAt (SplitLines (d.cached box)) d.selectedLine) d.ns = []) :
    openDescribeSelected L d = some d := by
  by_cases hr : d.selectedLine < 0 ∨ ((SplitLines (d.cached box)).length : Int) ≤ d.selectedLine
  · unfold openDescribeSelected
    rw [hb]
    dsimp only
    rw [if_pos (by omega)]
  · rw [openDescribeSelected_in_range L d box hb (by omega) (by omega)]
    by_cases hk : resourceKindFor box (SplitLines (d.cached box)) d.selectedLine = []
    · rw [if_pos hk]
    · rw [if_neg hk, (h.resolve_left hr).resolve_left hk]
      simp only [ne_eq, not_true_eq_false, if_false]

/-- The method `openLogsSelected` never fails: in every state it returns a state. -/
theorem openLogsSelected_returns (L : Lib) (d : Dashboard) :
    ∃ d1 : Dashboard, openLogsSelected L d = some d1 := by
  cases hb : d.browseBox with
  | none => exact ⟨d, by unfold openLogsSelected; rw [hb]⟩
  | some box =>
    by_cases hp : box = .podsView
    · subst hp
      by_cases hr : d.selectedLine < 0 ∨
          ((SplitLines (d.cached .podsView)).length : Int) ≤ d.selectedLine
      · exact ⟨d, openLogsSelected_noop L d _ hb (Or.inl hr)⟩
      · rw [openLogsSelected_in_range L d hb (by omega) (by omega)]
        split <;> exact ⟨_, rfl⟩
    · refine ⟨d, ?_⟩
      unfold openLogsSelected
      rw [hb]
      dsimp only
      rw [if_pos hp]

/-- The method `openDescribeSelected` never fails: in every state it returns a
state. -/
theorem openDescribeSelected_returns (L : Lib) (d : Dashboard) :
    ∃ d1 : Dashboard, openDescribeSelected L d = some d1 := by
  cases hb : d.browseBox with
  | none => exact ⟨d, by unfold openDescribeSelected; rw [hb]⟩
  | some box =>
    by_cases hr : d.selectedLine < 0 ∨
        ((SplitLines (d.cached box)).length : Int) ≤ d.selectedLine
    · exact ⟨d, openDescribeSelected_noop L d _ hb (Or.inl hr)⟩
    · rw [openDescribeSelected_in_range L d box hb (by omega) (by omega)]
      split
      · exact ⟨_, rfl⟩
      · split <;> exact ⟨_, rfl⟩

/-- C17: a contextual action without a target opens no overlay and leaves the state
as it is, and none of the actions fails. `openLogs` with an empty name and
`openDescribe` with an empty name or an empty kind return the state unchanged.
`openLogsSelected` and `openDescribeSelected` return, and return the state
unchanged, when no panel is in browse mode; when the selected index is outside the
cached lines of the browsed panel, where the index expression `lines[d.selectedLine]`
would fail and is not reached; when the selected line has no fields; and when the
resolved name (for the describe action, also the resolved kind) is the empty string;
`openLogsSelected` also when the browsed panel is not the pods panel. In every state
whatsoever the two selected actions return a state: the run-time failure of an index
out of range does not occur. -/
theorem actions_without_target (L : Lib) (d : Dashboard) :
    (∀ targetNS : Str, openLogs L d [] targetNS = d) ∧
    (∀ kind targetNS : Str, openDescribe L d kind [] targetNS = d) ∧
    (∀ name targetNS : Str, openDescribe L d [] name targetNS = d) ∧
    (d.browseBox = none →
      openLogsSelected L d = some d ∧ openDescribeSelected L d = some d) ∧
    (∀ box : TextView, d.browseBox = some box →
      ((d.selectedLine < 0 ∨ ((SplitLines (d.cached box)).length : Int) ≤ d.selectedLine) →
        indexLine (SplitLines (d.cached box)) d.selectedLine = none ∧
        openLogsSelected L d = some d ∧ openDescribeSelected L d = some d) ∧
      (Fields (lineAt (SplitLines (d.cached box)) d.selectedLine) = [] →
        openLogsSelected L d = some d ∧ openDescribeSelected L d = some d) ∧
      (resourceNameFor L box (lineAt (SplitLines (d.cached box)) d.selectedLine) d.ns = [] →
        openLogsSelected L d = some d ∧ openDescribeSelected L d = some d) ∧
      (resourceKindFor box (SplitLines (d.cached box)) d.selectedLine = [] →
        openDescribeSelected L d = some d) ∧
      (box ≠ .podsView → openLogsSelected L d = some d)) ∧
    (∃ d1 : Dashboard, openLogsSelected L d = some d1) ∧
    (∃ d2 : Dashboard, openDescribeSelected L d = some d2) := by
  refine ⟨?_, ?_, ?_, ?_, ?_, openLogsSelected_returns L d, openDescribeSelected_returns L d⟩
  · intro t
    unfold openLogs
    rw [if_pos rfl]
  · intro k t
    unfold openDescribe
    rw [if_pos (Or.inl rfl)]
  · intro n t
    unfold openDescribe
    rw [if_pos (Or.inr rfl)]
  · intro h
    constructor
    · unfold openLogsSelected; rw [h]
    · unfold openDescribeSelected; rw [h]
  · intro box hb
    refine ⟨?_, ?_, ?_, ?_, ?_⟩
    · intro h
      exact ⟨indexLine_out _ _ h, openLogsSelected_noop L d box hb (Or.inl h),
        openDescribeSelected_noop L d box hb (Or.inl h)⟩
    · intro h
      have hn := resourceNameFor_no_fields L box _ d.ns h
      exact ⟨openLogsSelected_noop L d box hb (Or.inr hn),
        openDescribeSelected_noop L d box hb (Or.inr (Or.inr hn))⟩
    · intro hn
      exact ⟨openLogsSelected_noop L d box hb (Or.inr hn),
        openDescribeSelected_noop L d box hb (Or.inr (Or.inr hn))⟩
    · intro hk
      exact openDescribeSelected_noop L d box hb (Or.inr (Or.inl hk))
    · intro hp
      unfold openLogsSelected
      rw [hb]
      dsimp only
      rw [if_pos hp]

/-! ## The titles of the infra panel -/

/-- C18 at its failing input: for a node listing of one node and a CRD listing of one
definition, `BuildInfraGroup` writes the second block under the title `CRDs`, which
the switch of `resourceKindFor` for the infra panel, written for `CRDS`, does not
recognise; the row of the node, line 2, resolves to `nodes`, and the row of the
definition, line 6, resolves to `nodes` as well, the title found further up, and not
to `crd`. -/
theorem infra_crd_row_resolves_to_nodes :
    BuildInfraGroup "NAME STATUS ROLES AGE VERSION\nnode-1 Ready control-plane 5d v1.29.0\n".toList
        "NAME CREATED AT\ncertificates.cert-manager.io 2024-01-01T00:00:00Z\n".toList
      = ("NODES\nNAME STATUS ROLES AGE VERSION\nnode-1 Ready control-plane 5d v1.29.0\n\n"
          ++ "CRDs\nNAME CREATED AT\ncertificates.cert-manager.io 2024-01-01T00:00:00Z").toList ∧
    lineAt (SplitLines (BuildInfraGroup
        "NAME STATUS ROLES AGE VERSION\nnode-1 Ready control-plane 5d v1.29.0\n".toList
        "NAME CREATED AT\ncertificates.cert-manager.io 2024-01-01T00:00:00Z\n".toList)) 6
      = "certificates.cert-manager.io 2024-01-01T00:00:00Z".toList ∧
    resourceKindFor .infraView (SplitLines (BuildInfraGroup
        "NAME STATUS ROLES AGE VERSION\nnode-1 Ready control-plane 5d v1.29.0\n".toList
        "NAME CREATED AT\ncertificates.cert-manager.io 2024-01-01T00:00:00Z\n".toList)) 2
      = "nodes".toList ∧
    resourceKindFor .infraView (SplitLines (BuildInfraGroup
        "NAME STATUS ROLES AGE VERSION\nnode-1 Ready control-plane 5d v1.29.0\n".toList
        "NAME CREATED AT\ncertificates.cert-manager.io 2024-01-01T00:00:00Z\n".toList)) 6
      = "nodes".toList ∧
    infraKind "CRDs".toList = none ∧
    infraKind "CRDS".toList = some "crd".toList := by
  decide

/-! ## The alert limit -/

/-- C19 at its failing input: for a pod listing of six pods in status `Pending`,
`BuildAlerts` returns six alert lines, one for each pod; the counter reaches 5 at the
fifth, and the `break` it triggers leaves the `switch`, not the loop. With five such
pods there are five lines. -/
theorem alerts_beyond_five :
    (SplitLines (BuildAlerts
      ("web-1 0/1 Pending 0 1m\nweb-2 0/1 Pending 0 1m\nweb-3 0/1 Pending 0 1m\n"
        ++ "web-4 0/1 Pending 0 1m\nweb-5 0/1 Pending 0 1m\nweb-6 0/1 Pending 0 1m\n").toList)).length
      = 6 ∧
    (alertsLoop (SplitLines
      ("web-1 0/1 Pending 0 1m\nweb-2 0/1 Pending 0 1m\nweb-3 0/1 Pending 0 1m\n"
        ++ "web-4 0/1 Pending 0 1m\nweb-5 0/1 Pending 0 1m\nweb-6 0/1 Pending 0 1m\n").toList)
      [] 0).2 = 6 ∧
    lineAt (SplitLines (BuildAlerts
      ("web-1 0/1 Pending 0 1m\nweb-2 0/1 Pending 0 1m\nweb-3 0/1 Pending 0 1m\n"
        ++ "web-4 0/1 Pending 0 1m\nweb-5 0/1 Pending 0 1m\nweb-6 0/1 Pending 0 1m\n").toList)) 5
      = "[red]⚠ web-6: Pending[-:-:-]".toList ∧
    (SplitLines (BuildAlerts
      ("web-1 0/1 Pending 0 1m\nweb-2 0/1 Pending 0 1m\nweb-3 0/1 Pending 0 1m\n"
        ++ "web-4 0/1 Pending 0 1m\nweb-5 0/1 Pending 0 1m\n").toList)).length = 5 := by
  decide

/-! ## The displayed text under the operations of the controller -/

theorem setText_text_other (d : Dashboard) (box b : TextView) (s : Str) (h : b ≠ box) :
    ((d.setText box s).views b).text = (d.views b).text := by
  simp only [Dashboard.setText, Function.update_noteq h]

theorem setText_text_self (d : Dashboard) (box : TextView) (s : Str) :
    ((d.setText box s).views box).text = s := by
  simp only [Dashboard.setText, Function.update_same]

theorem setBorderColor_text (d : Dashboard) (box b : TextView) (c : Color) :
    ((d.setBorderColor box c).views b).text = (d.views b).text := by
  by_cases h : b = box
  · subst h; simp only [Dashboard.setBorderColor, Function.update_same]
  · simp only [Dashboard.setBorderColor, Function.update_noteq h]

theorem setTitle_text (d : Dashboard) (box b : TextView) (s : Str) :
    ((d.setTitle box s).views b).text = (d.views b).text := by
  by_cases h : b = box
  · subst h; simp only [Dashboard.setTitle, Function.update_same]
  · simp only [Dashboard.setTitle, Function.update_noteq h]

theorem setBorder_text (d : Dashboard) (box b : TextView) (x : Bool) :
    ((d.setBorder box x).views b).text = (d.views b).text := by
  by_cases h : b = box
  · subst h; simp only [Dashboard.setBorder, Function.update_same]
  · simp only [Dashboard.setBorder, Function.update_noteq h]

theorem paintBox_text (focused : Option Primitive) (d : Dashboard) (box b : TextView) :
    ((paintBox focused d box).views b).text = (d.views b).text := by
  unfold paintBox
  split
  · exact setBorderColor_text _ _ _ _
  · split <;> exact setBorderColor_text _ _ _ _

theorem highlightFocus_text (d : Dashboard) (b : TextView) :
    ((highlightFocus d).views b).text = (d.views b).text := by
  unfold highlightFocus
  dsimp only
  have hfold : ((allBoxes.foldl (paintBox d.focus) d).views b).text = (d.views b).text :=
    foldl_keeps (paintBox d.focus) (fun x => (x.views b).text)
      (fun x a => paintBox_text d.focus x a b) allBoxes d
  split
  · rw [setBorderColor_text, setBorderColor_text, setBorderColor_text, setBorderColor_text,
      hfold]
  · rw [setBorderColor_text, setBorderColor_text, setBorderColor_text, hfold]

theorem highlightBox_text_other (L : Lib) (d : Dashboard) (box b : TextView) (h : b ≠ box) :
    ((highlightBox L d box).views b).text = (d.views b).text := by
  unfold highlightBox
  split
  · rfl
  · dsimp only
    split
    · rfl
    · split
      · rfl
      · rename_i raw _ _ _
        obtain ⟨s, hs⟩ := reseek_frame L d box (SplitLines raw)
        split
        · rw [setText_text_other _ _ _ _ h, hs]
        · rw [followSelection_text, setText_text_other _ _ _ _ h, hs]

theorem applyBrowseStyle_text (L : Lib) (d : Dashboard) (box b : TextView) :
    ((applyBrowseStyle L d box).views b).text = (d.views b).text := by
  unfold applyBrowseStyle
  dsimp only
  rw [setTitle_text, setBorderColor_text]

theorem restoreBrowseStyle_text_other (d : Dashboard) (box b : TextView) (h : b ≠ box) :
    ((restoreBrowseStyle d box).views b).text = (d.views b).text := by
  unfold restoreBrowseStyle
  dsimp only
  split <;> split <;> split <;>
    simp only [setBorderColor_text, setTitle_text, setText_text_other _ _ _ _ h]

theorem restoreBrowseStyle_text_self (d : Dashboard) (box : TextView) (raw : Str)
    (hc : d.contentCache box = some raw) :
    ((restoreBrowseStyle d box).views box).text = raw := by
  unfold restoreBrowseStyle
  rw [hc]
  dsimp only
  split <;> split <;>
    simp only [setBorderColor_text, setTitle_text, setText_text_self]

theorem restoreBrowseStyle_contentCache (d : Dashboard) (box : TextView) :
    (restoreBrowseStyle d box).contentCache = d.contentCache := by
  obtain ⟨v, hv⟩ := restoreBrowseStyle_frame d box
  rw [hv]

/-! ## Displayed and cached text in step -/

/-- An operation that leaves the cache, the browse mode and the text of the data
panels outside browse mode alone keeps the displayed texts in step with the cache. -/
theorem InSync_inert (d d' : Dashboard) (hc : d'.contentCache = d.contentCache)
    (hb : d'.browseBox = d.browseBox)
    (ht : ∀ b ∈ dataPanels, d.browseBox ≠ some b → (d'.views b).text = (d.views b).text)
    (h : InSync d) : InSync d' := by
  constructor
  · intro b hbm hne
    rw [hb] at hne
    have := h.1 b hbm hne
    unfold ShowsCache Dashboard.cached at this ⊢
    rw [hc, ht b hbm hne]
    exact this
  · intro b hbb
    rw [hb] at hbb
    rw [hc]
    exact h.2 b hbb

theorem ShowsCache_congr (d d' : Dashboard) (b : TextView)
    (ht : (d'.views b).text = (d.views b).text) (hc : d'.contentCache = d.contentCache)
    (h : ShowsCache d b) : ShowsCache d' b := by
  unfold ShowsCache Dashboard.cached at h ⊢
  rw [ht, hc]
  exact h

theorem InSync_exitBrowse (d : Dashboard) (h : InSync d) : InSync (exitBrowse d) := by
  cases hbox : d.browseBox with
  | none =>
    have e : exitBrowse d = { d with browseBox := none } := by
      unfold exitBrowse; rw [hbox]
    rw [e]
    exact InSync_inert d _ rfl hbox.symm (fun _ _ _ => rfl) h
  | some box =>
    have e : exitBrowse d = { restoreBrowseStyle d box with browseBox := none } := by
      unfold exitBrowse; rw [hbox]
    rw [e]
    constructor
    · intro b hbm _
      by_cases hbb : b = box
      · subst hbb
        obtain ⟨raw, hraw⟩ := h.2 b hbox
        left
        show ((restoreBrowseStyle d b).views b).text
          = ((restoreBrowseStyle d b).contentCache b).getD []
        rw [restoreBrowseStyle_text_self d b raw hraw, restoreBrowseStyle_contentCache, hraw]
        rfl
      · have hs := h.1 b hbm (by rw [hbox]; intro e'; exact hbb (Option.some.inj e').symm)
        unfold ShowsCache Dashboard.cached at hs ⊢
        show ((restoreBrowseStyle d box).views b).text
            = ((restoreBrowseStyle d box).contentCache b).getD [] ∨
          (TrimSpace (((restoreBrowseStyle d box).contentCache b).getD []) = [] ∧
            ((restoreBrowseStyle d box).views b).text = [])
        rw [restoreBrowseStyle_text_other d box b hbb, restoreBrowseStyle_contentCache]
        exact hs
    · intro b hbb
      exact Option.noConfusion hbb

theorem InSync_highlightBox (L : Lib) (d : Dashboard) (box : TextView)
    (hbox : d.browseBox = some box) (h : InSync d) : InSync (highlightBox L d box) := by
  refine InSync_inert d _ (highlightBox_contentCache L d box) (highlightBox_browseBox L d box)
    ?_ h
  intro b _ hne
  apply highlightBox_text_other
  intro e
  exact hne (e ▸ hbox)

theorem InSync_enterBrowse (L : Lib) (d : Dashboard) (box : TextView)
    (hnone : d.browseBox = none) (h : InSync d) : InSync (enterBrowse L d box) := by
  by_cases hs : browsable box = true ∧
      findSelectable L box (SplitLines (d.cached box)) 1 1 true ≠ -1
  · rw [enterBrowse_of_start L d box hs.1 hs.2]
    have hsel : ∃ i : Int, isSelectable L box (SplitLines (d.cached box)) i = true := by
      rcases findSelectable_enter L box (SplitLines (d.cached box))
        (SplitLines_length_pos _) with ⟨g, _⟩ | ⟨g, _⟩ | ⟨g, _⟩
      · exact absurd g hs.2
      · exact ⟨_, g⟩
      · exact ⟨_, g⟩
    obtain ⟨i, hi⟩ := hsel
    have hcache := cached_of_selectable L d box i hi
    apply InSync_highlightBox L _ box rfl
    constructor
    · intro b hbm hne
      have hs' := h.1 b hbm (by rw [hnone]; exact fun e => Option.noConfusion e)
      exact ShowsCache_congr d _ b (applyBrowseStyle_text L _ box b) rfl hs'
    · intro b hbb
      have : b = box := (Option.some.inj hbb).symm
      subst this
      exact ⟨_, hcache⟩
  · rw [enterBrowse_noop L d box (by
      by_cases hb : browsable box = true
      · right
        by_contra hne
        exact hs ⟨hb, hne⟩
      · left
        simpa using hb)]
    exact h

theorem InSync_adjustSelection (L : Lib) (d : Dashboard) (delta : Int) (h : InSync d) :
    InSync (adjustSelection L d delta) := by
  unfold adjustSelection
  split
  · exact h
  · rename_i box hbox
    dsimp only
    apply InSync_highlightBox L _ box
    · split <;> exact hbox
    · split
      · exact InSync_inert d _ rfl rfl (fun _ _ _ => rfl) h
      · exact h

theorem InSync_openModal (L : Lib) (d : Dashboard) (title body : Str) (h : InSync d) :
    InSync (openModal L d title body) := by
  refine InSync_inert d _ rfl rfl ?_ h
  intro b hbm _
  unfold openModal pagesRefocus
  dsimp only
  have hne : b ≠ .modalLogs := by
    rintro rfl
    exact absurd hbm (by decide)
  show (((({ d with restoreFocus := d.focus, modalOpen := true } : Dashboard).setTitle
    .modalLogs (title ++ " (Esc fecha)".toList)).setText .modalLogs body).views b).text = _
  rw [setText_text_other _ _ _ _ hne, setTitle_text]

theorem InSync_openLogs (L : Lib) (d : Dashboard) (name targetNS : Str) (h : InSync d) :
    InSync (openLogs L d name targetNS) := by
  unfold openLogs
  split
  · exact h
  · exact InSync_inert _ _ rfl rfl (fun _ _ _ => rfl) (InSync_openModal L d _ _ h)

theorem InSync_openDescribe (L : Lib) (d : Dashboard) (kind name targetNS : Str)
    (h : InSync d) : InSync (openDescribe L d kind name targetNS) := by
  unfold openDescribe
  split
  · exact h
  · exact InSync_inert _ _ rfl rfl (fun _ _ _ => rfl) (InSync_openModal L d _ _ h)

theorem InSync_openLogsSelected (L : Lib) (d : Dashboard) (h : InSync d) :
    InSync ((openLogsSelected L d).getD d) := by
  unfold openLogsSelected
  repeat' first | split | (dsimp only; split)
  all_goals first
    | exact h
    | exact InSync_openLogs L d _ _ h

theorem InSync_openDescribeSelected (L : Lib) (d : Dashboard) (h : InSync d) :
    InSync ((openDescribeSelected L d).getD d) := by
  unfold openDescribeSelected
  repeat' first | split | (dsimp only; split)
  all_goals first
    | exact h
    | exact InSync_openDescribe L d _ _ _ h

theorem InSync_focusFirst (d : Dashboard) (h : InSync d) : InSync (focusFirst d) := by
  unfold focusFirst
  split
  · exact InSync_inert d _ rfl rfl (fun _ _ _ => rfl) h
  · exact h

theorem InSync_highlightFocus (d : Dashboard) (h : InSync d) : InSync (highlightFocus d) := by
  obtain ⟨v, hv⟩ := highlightFocus_frame d
  refine InSync_inert d _ (by rw [hv]) (by rw [hv]) ?_ h
  intro b _ _
  exact highlightFocus_text d b

theorem InSync_setPage (L : Lib) (d : Dashboard) (page : Str) (h : InSync d) :
    InSync (setPage L d page) := by
  unfold setPage
  dsimp only
  apply InSync_highlightFocus
  apply InSync_focusFirst
  refine InSync_inert (exitBrowse d) _ rfl rfl ?_ (InSync_exitBrowse d h)
  intro b hbm _
  have hne : b ≠ .pageIndicator := by
    rintro rfl
    exact absurd hbm (by decide)
  rw [setText_text_other _ _ _ _ hne]
  rfl

theorem InSync_moveFocus (d d' : Dashboard) (delta : Int) (hm : moveFocus d delta = some d')
    (h : InSync d) : InSync d' := by
  unfold moveFocus at hm
  dsimp only at hm
  split at hm
  · cases hm; exact h
  · split at hm
    · cases hm
      exact InSync_highlightFocus _ (InSync_inert d _ rfl rfl (fun _ _ _ => rfl) h)
    · split at hm
      · exact Option.noConfusion hm
      · split at hm
        · cases hm
          exact InSync_highlightFocus _ (InSync_inert d _ rfl rfl (fun _ _ _ => rfl) h)
        · exact Option.noConfusion hm

theorem InSync_switchPage (L : Lib) (d d' : Dashboard) (delta : Int)
    (hm : switchPage L d delta = some d') (h : InSync d) : InSync d' := by
  unfold switchPage at hm
  dsimp only at hm
  split at hm
  · exact Option.noConfusion hm
  · split at hm
    · exact Option.noConfusion hm
    · split at hm
      · cases hm; exact InSync_setPage L d _ h
      · exact Option.noConfusion hm

theorem InSync_getD (o : Option Dashboard) (d : Dashboard)
    (ho : ∀ d', o = some d' → InSync d') (h : InSync d) : InSync (o.getD d) := by
  cases o with
  | none => exact h
  | some d' => exact ho d' rfl

theorem InSync_scheduleUpdate (d : Dashboard) (h : InSync d) : InSync (scheduleUpdate d) := by
  unfold scheduleUpdate
  split
  · exact InSync_inert d _ rfl rfl (fun _ _ _ => rfl) h
  · exact h

theorem InSync_selectNamespace (d : Dashboard) (c : Char) (h : InSync d) :
    InSync (selectNamespace d c) := by
  unfold selectNamespace
  dsimp only
  split
  · apply InSync_scheduleUpdate
    apply InSync_exitBrowse
    exact InSync_inert d _ rfl rfl (fun _ _ _ => rfl) h
  · exact h

theorem InSync_handleKeys_rune (L : Lib) (d : Dashboard) (c : Char) (h : InSync d) :
    InSync (handleKeys L d (.rune c)).1 := by
  by_cases h1 : c = 'w'
  · simp only [handleKeys, if_pos h1]
    exact InSync_setPage _ _ _ h
  by_cases h2 : c = 'n'
  · simp only [handleKeys, if_neg h1, if_pos h2]
    exact InSync_setPage _ _ _ h
  by_cases h3 : c = 'c'
  · simp only [handleKeys, if_neg h1, if_neg h2, if_pos h3]
    exact InSync_setPage _ _ _ h
  by_cases h4 : c = 'm'
  · simp only [handleKeys, if_neg h1, if_neg h2, if_neg h3, if_pos h4]
    exact InSync_setPage _ _ _ h
  by_cases h5 : c = 'l'
  · simp only [handleKeys, if_neg h1, if_neg h2, if_neg h3, if_neg h4, if_pos h5]
    exact InSync_openLogsSelected _ _ h
  by_cases h6 : '0'.toNat ≤ c.toNat ∧ c.toNat ≤ '9'.toNat
  · simp only [handleKeys, if_neg h1, if_neg h2, if_neg h3, if_neg h4, if_neg h5, if_pos h6]
    exact InSync_selectNamespace _ _ h
  by_cases h7 : c = 'a'
  · simp only [handleKeys, if_neg h1, if_neg h2, if_neg h3, if_neg h4, if_neg h5, if_neg h6,
      if_pos h7]
    exact InSync_openModal _ _ _ _ h
  by_cases h8 : c = 'e'
  · simp only [handleKeys, if_neg h1, if_neg h2, if_neg h3, if_neg h4, if_neg h5, if_neg h6,
      if_neg h7, if_pos h8]
    exact InSync_openModal _ _ _ _ h
  by_cases h9 : c = 'q'
  · simp only [handleKeys, if_neg h1, if_neg h2, if_neg h3, if_neg h4, if_neg h5, if_neg h6,
      if_neg h7, if_neg h8, if_pos h9]
    exact InSync_inert d _ rfl rfl (fun _ _ _ => rfl) h
  by_cases h10 : c = 'd'
  · simp only [handleKeys, if_neg h1, if_neg h2, if_neg h3, if_neg h4, if_neg h5, if_neg h6,
      if_neg h7, if_neg h8, if_neg h9, if_pos h10]
    cases hbox : d.browseBox with
    | none => exact h
    | some b => exact InSync_openDescribeSelected _ _ h
  · simp only [handleKeys, if_neg h1, if_neg h2, if_neg h3, if_neg h4, if_neg h5, if_neg h6,
      if_neg h7, if_neg h8, if_neg h9, if_neg h10]
    exact h

theorem InSync_handleKeys (L : Lib) (d : Dashboard) (k : Key) (h : InSync d) :
    InSync (handleKeys L d k).1 := by
  cases k with
  | rune c => exact InSync_handleKeys_rune L d c h
  | up =>
    have e : (handleKeys L d .up).1 = (moveFocus d (-1)).getD d := rfl
    rw [e]
    exact InSync_getD _ _ (fun d' hm => InSync_moveFocus _ _ _ hm h) h
  | down =>
    have e : (handleKeys L d .down).1 = (moveFocus d 1).getD d := rfl
    rw [e]
    exact InSync_getD _ _ (fun d' hm => InSync_moveFocus _ _ _ hm h) h
  | left =>
    have e : (handleKeys L d .left).1 = (switchPage L d (-1)).getD d := rfl
    rw [e]
    exact InSync_getD _ _ (fun d' hm => InSync_switchPage _ _ _ _ hm h) h
  | right =>
    have e : (handleKeys L d .right).1 = (switchPage L d 1).getD d := rfl
    rw [e]
    exact InSync_getD _ _ (fun d' hm => InSync_switchPage _ _ _ _ hm h) h
  | enter =>
    cases hbox : d.browseBox with
    | none =>
      cases hf : d.focus with
      | none =>
        have e : (handleKeys L d .enter).1 = d := by simp only [handleKeys, hbox, hf]
        rw [e]; exact h
      | some p =>
        cases p with
        | container id =>
          have e : (handleKeys L d .enter).1 = d := by simp only [handleKeys, hbox, hf]
          rw [e]; exact h
        | textView tv =>
          have e : (handleKeys L d .enter).1 = enterBrowse L d tv := by
            simp only [handleKeys, hbox, hf]
          rw [e]; exact InSync_enterBrowse _ _ _ hbox h
    | some b =>
      have e : (handleKeys L d .enter).1 = (openLogsSelected L d).getD d := by
        simp only [handleKeys, hbox]
      rw [e]; exact InSync_openLogsSelected _ _ h
  | esc =>
    cases hbox : d.browseBox with
    | none =>
      have e : (handleKeys L d .esc).1 = d := by simp only [handleKeys, hbox]
      rw [e]; exact h
    | some b =>
      have e : (handleKeys L d .esc).1 = exitBrowse d := by simp only [handleKeys, hbox]
      rw [e]; exact InSync_exitBrowse _ h
  | other n => exact h

theorem InSync_handleInput (L : Lib) (d : Dashboard) (k : Key) (h : InSync d) :
    InSync (handleInput L d k).1 := by
  unfold handleInput
  split
  · split
    · dsimp only
      split
      · exact InSync_inert d _ rfl rfl (fun _ _ _ => rfl) h
      · exact InSync_inert d _ rfl rfl (fun _ _ _ => rfl) h
    · exact h
  · split
    · exact InSync_adjustSelection _ _ _ h
    · exact InSync_adjustSelection _ _ _ h
    · exact InSync_openLogsSelected _ _ h
    · exact InSync_exitBrowse _ h
    · exact InSync_handleKeys _ _ _ h

/-- Every event other than a refresh commit keeps the displayed texts in step with
the cache. -/
theorem InSync_step (L : Lib) (d : Dashboard) (e : Event) (hne : ∀ f, e ≠ .commit f)
    (h : InSync d) : InSync (step L d e) := by
  cases e with
  | key k => exact InSync_handleInput L d k h
  | tick => exact InSync_scheduleUpdate d h
  | receive => exact InSync_inert d _ rfl rfl (fun _ _ _ => rfl) h
  | commit f => exact absurd rfl (hne f)
  | modalText t =>
    refine InSync_inert d _ rfl rfl ?_ h
    intro b hbm _
    have hb : b ≠ .modalLogs := by rintro rfl; exact absurd hbm (by decide)
    exact setText_text_other _ _ _ _ hb
  | toastShow m =>
    refine InSync_inert d _ rfl rfl ?_ h
    intro b hbm _
    have hb : b ≠ .infoPopup := by rintro rfl; exact absurd hbm (by decide)
    exact setText_text_other d _ _ _ hb
  | toastHide => exact InSync_inert d _ rfl rfl (fun _ _ _ => rfl) h
  | focusMoved p => exact InSync_inert d _ rfl rfl (fun _ _ _ => rfl) h
  | geometry v r c hh =>
    refine InSync_inert d _ rfl rfl ?_ h
    intro b _ _
    show ((Function.update d.views v _) b).text = _
    by_cases hb : b = v
    · subst hb; simp only [Function.update_same]
    · simp only [Function.update_noteq hb]

/-! ## The refresh commit outside browse mode -/

theorem foldl_setCache_frame (l : List (TextView × Str)) :
    ∀ d : Dashboard, ∃ c : TextView → Option Str,
      l.foldl (fun d p => d.setCache p.1 p.2) d = { d with contentCache := c } := by
  induction l with
  | nil => intro d; exact ⟨_, rfl⟩
  | cons p l ih =>
    intro d
    obtain ⟨c, hc⟩ := ih (d.setCache p.1 p.2)
    rw [List.foldl_cons, hc]
    exact ⟨_, rfl⟩

theorem foldl_setCache_other (l : List (TextView × Str)) (b : TextView)
    (hb : b ∉ l.map Prod.fst) :
    ∀ d : Dashboard,
      (l.foldl (fun d p => d.setCache p.1 p.2) d).contentCache b = d.contentCache b := by
  induction l with
  | nil => intro d; rfl
  | cons p l ih =>
    intro d
    have h1 : b ≠ p.1 := fun e => hb (by rw [e]; exact List.mem_cons_self _ _)
    have h2 : b ∉ l.map Prod.fst := fun m => hb (List.mem_cons_of_mem _ m)
    rw [List.foldl_cons, ih h2]
    simp only [Dashboard.setCache, Function.update_noteq h1]

theorem foldl_setCache_get (l : List (TextView × Str)) (hn : (l.map Prod.fst).Nodup)
    (b : TextView) (s : Str) (hm : (b, s) ∈ l) :
    ∀ d : Dashboard,
      (l.foldl (fun d p => d.setCache p.1 p.2) d).contentCache b = some s := by
  induction l with
  | nil => exact absurd hm (List.not_mem_nil _)
  | cons p l ih =>
    intro d
    rw [List.map_cons, List.nodup_cons] at hn
    rw [List.foldl_cons]
    rcases List.mem_cons.1 hm with e | hm'
    · subst e
      rw [foldl_setCache_other l b hn.1]
      simp only [Dashboard.setCache, Function.update_same]
    · exact ih hn.2 hm' _

theorem foldl_setText_frame (l : List (TextView × Str)) :
    ∀ d : Dashboard, ∃ v : TextView → Widget,
      l.foldl (fun d p => d.setText p.1 p.2) d = { d with views := v } :=
  foldl_views_only (fun d p => d.setText p.1 p.2) (fun _ _ => ⟨_, rfl⟩) l

theorem foldl_setText_other (l : List (TextView × Str)) (b : TextView)
    (hb : b ∉ l.map Prod.fst) :
    ∀ d : Dashboard,
      ((l.foldl (fun d p => d.setText p.1 p.2) d).views b).text = (d.views b).text := by
  induction l with
  | nil => intro d; rfl
  | cons p l ih =>
    intro d
    have h1 : b ≠ p.1 := fun e => hb (by rw [e]; exact List.mem_cons_self _ _)
    have h2 : b ∉ l.map Prod.fst := fun m => hb (List.mem_cons_of_mem _ m)
    rw [List.foldl_cons, ih h2, setText_text_other _ _ _ _ h1]

theorem foldl_setText_get (l : List (TextView × Str)) (hn : (l.map Prod.fst).Nodup)
    (b : TextView) (s : Str) (hm : (b, s) ∈ l) :
    ∀ d : Dashboard,
      ((l.foldl (fun d p => d.setText p.1 p.2) d).views b).text = s := by
  induction l with
  | nil => exact absurd hm (List.not_mem_nil _)
  | cons p l ih =>
    intro d
    rw [List.map_cons, List.nodup_cons] at hn
    rw [List.foldl_cons]
    rcases List.mem_cons.1 hm with e | hm'
    · subst e
      rw [foldl_setText_other l b hn.1, setText_text_self]
    · exact ih hn.2 hm' _

theorem fetchedTexts_keys (f : Fetched) (pods : Str) :
    (fetchedTexts f pods).map Prod.fst = dataPanels := rfl

theorem dataPanels_nodup : dataPanels.Nodup := by decide

theorem fetchedTexts_of_panel (f : Fetched) (pods : Str) (b : TextView)
    (hb : b ∈ dataPanels) : ∃ s : Str, (b, s) ∈ fetchedTexts f pods := by
  rw [← fetchedTexts_keys f pods, List.mem_map] at hb
  obtain ⟨p, hp, rfl⟩ := hb
  exact ⟨p.2, hp⟩

/-- The cache after the writes of a refresh: every data panel has its new text. -/
theorem storeFetched_cache (d : Dashboard) (f : Fetched) (pods : Str) (b : TextView)
    (s : Str) (hm : (b, s) ∈ fetchedTexts f pods) :
    (storeFetched d f pods).contentCache b = some s := by
  unfold storeFetched
  exact foldl_setCache_get (fetchedTexts f pods)
    (by rw [fetchedTexts_keys]; exact dataPanels_nodup) b s hm d

theorem storeFetched_frame (d : Dashboard) (f : Fetched) (pods : Str) :
    ∃ c : TextView → Option Str,
      storeFetched d f pods = { d with contentCache := c, nsList := f.nsNames } := by
  unfold storeFetched
  obtain ⟨c, hc⟩ := foldl_setCache_frame (fetchedTexts f pods) d
  rw [hc]
  exact ⟨_, rfl⟩

theorem recolor_frame (d : Dashboard) (f : Fetched) :
    ∃ c : TextView → Option Color, recolor d f = { d with borderDefaults := c } := by
  unfold recolor
  dsimp only
  split <;> split <;> exact ⟨_, rfl⟩

theorem resizeItem_frame (d : Dashboard) (f : PageFlex) (item : TextView) (a b : Int) :
    ∃ s : PageFlex → TextView → Option (Int × Int),
      d.resizeItem f item a b = { d with slots := s } := by
  unfold Dashboard.resizeItem
  split <;> exact ⟨_, rfl⟩

theorem adjustFor_frame (d : Dashboard) (f : PageFlex) (item : TextView) (m : Int) :
    ∃ (v : TextView → Widget) (s : PageFlex → TextView → Option (Int × Int)),
      adjustFor d f item m = { d with views := v, slots := s } := by
  unfold adjustFor adjust
  split
  · dsimp only
    obtain ⟨s, hs⟩ := resizeItem_frame d f item 0 1
    rw [hs]
    split <;> exact ⟨_, _, rfl⟩
  · dsimp only
    have hr : ∃ s : PageFlex → TextView → Option (Int × Int),
        (if m > 0 then d.resizeItem f item m 0 else d.resizeItem f item 1 0)
          = { d with slots := s } := by
      split <;> exact resizeItem_frame _ _ _ _ _
    obtain ⟨s, hs⟩ := hr
    rw [hs]
    exact ⟨_, _, rfl⟩

theorem adjustFor_text_other (d : Dashboard) (f : PageFlex) (item b : TextView) (m : Int)
    (h : b ≠ item) : ((adjustFor d f item m).views b).text = (d.views b).text := by
  unfold adjustFor adjust
  split
  · dsimp only
    obtain ⟨s, hs⟩ := resizeItem_frame d f item 0 1
    rw [hs]
    split
    · rw [setBorderColor_text, setText_text_other _ _ _ _ h, setBorder_text]
    · rw [setBorderColor_text, setBorder_text]
  · dsimp only
    have hr : ∃ s : PageFlex → TextView → Option (Int × Int),
        (if m > 0 then d.resizeItem f item m 0 else d.resizeItem f item 1 0)
          = { d with slots := s } := by
      split <;> exact resizeItem_frame _ _ _ _ _
    obtain ⟨s, hs⟩ := hr
    rw [hs]
    simp only [if_true]
    rw [setBorderColor_text, setBorder_text, setText_text_other _ _ _ _ h]

/-- After `adjust` a panel shows what it showed, or the empty text when its cached
text is blank. -/
theorem adjustFor_text_self (d : Dashboard) (f : PageFlex) (item : TextView) (m : Int) :
    ((adjustFor d f item m).views item).text = (d.views item).text ∨
    (TrimSpace (d.cached item) = [] ∧ ((adjustFor d f item m).views item).text = []) := by
  unfold adjustFor adjust
  by_cases hblank : TrimSpace (d.cached item) = []
  · right
    refine ⟨hblank, ?_⟩
    have hdec : decide (TrimSpace (d.cached item) ≠ []) = false := by simp [hblank]
    rw [hdec]
    dsimp only
    have hr : ∃ s : PageFlex → TextView → Option (Int × Int),
        (if m > 0 then d.resizeItem f item m 0 else d.resizeItem f item 1 0)
          = { d with slots := s } := by
      split <;> exact resizeItem_frame _ _ _ _ _
    obtain ⟨s, hs⟩ := hr
    simp only [Bool.false_eq_true, if_false, if_true]
    rw [hs, setBorderColor_text, setBorder_text, setText_text_self]
  · left
    have hdec : decide (TrimSpace (d.cached item) ≠ []) = true := by simp [hblank]
    rw [hdec]
    dsimp only
    obtain ⟨s, hs⟩ := resizeItem_frame d f item 0 1
    simp only [if_true]
    rw [hs]
    have hc : TrimSpace (Dashboard.cached (({ d with slots := s } : Dashboard).setBorder
        item true) item) ≠ [] := hblank
    rw [if_neg hc, setBorderColor_text, setBorder_text]

theorem ShowsCache_adjustFor (d : Dashboard) (f : PageFlex) (item b : TextView) (m : Int)
    (h : ShowsCache d b) : ShowsCache (adjustFor d f item m) b := by
  obtain ⟨v, s, hv⟩ := adjustFor_frame d f item m
  have hc : (adjustFor d f item m).contentCache = d.contentCache := by rw [hv]
  by_cases hb : b = item
  · subst hb
    rcases adjustFor_text_self d f b m with ht | ⟨hbl, ht⟩
    · exact ShowsCache_congr d _ b ht hc h
    · right
      unfold Dashboard.cached at hbl ⊢
      rw [hc]
      exact ⟨hbl, ht⟩
  · exact ShowsCache_congr d _ b (adjustFor_text_other d f item b m hb) hc h

theorem ShowsCache_adjustAll (d : Dashboard) (b : TextView) (h : ShowsCache d b) :
    ShowsCache (adjustAll d) b := by
  unfold adjustAll
  have key : ∀ (l : List (PageFlex × TextView × Int)) (x : Dashboard), ShowsCache x b →
      ShowsCache (l.foldl (fun d p => adjustFor d p.1 p.2.1 p.2.2) x) b := by
    intro l
    induction l with
    | nil => intro x hx; exact hx
    | cons p l ih =>
      intro x hx
      rw [List.foldl_cons]
      exact ih _ (ShowsCache_adjustFor x p.1 p.2.1 b p.2.2 hx)
  exact key adjustCalls d h

theorem adjustAll_frame (d : Dashboard) :
    ∃ (v : TextView → Widget) (s : PageFlex → TextView → Option (Int × Int)),
      adjustAll d = { d with views := v, slots := s } := by
  unfold adjustAll
  have key : ∀ (l : List (PageFlex × TextView × Int)) (x : Dashboard),
      ∃ (v : TextView → Widget) (s : PageFlex → TextView → Option (Int × Int)),
        l.foldl (fun d p => adjustFor d p.1 p.2.1 p.2.2) x = { x with views := v, slots := s } := by
    intro l
    induction l with
    | nil => intro x; exact ⟨_, _, rfl⟩
    | cons p l ih =>
      intro x
      obtain ⟨v, s, hv⟩ := adjustFor_frame x p.1 p.2.1 p.2.2
      obtain ⟨w, t, hw⟩ := ih (adjustFor x p.1 p.2.1 p.2.2)
      rw [List.foldl_cons, hw, hv]
      exact ⟨_, _, rfl⟩
  exact key adjustCalls d

theorem focusIfNone_frame (d : Dashboard) :
    ∃ p : Option Primitive, focusIfNone d = { d with focus := p } := by
  unfold focusIfNone focusFirst
  split
  · split <;> exact ⟨_, rfl⟩
  · exact ⟨_, rfl⟩

/-! ## Displayed and cached text of a running dashboard -/

theorem showFetched_none (L : Lib) (d : Dashboard) (f : Fetched) (pods : Str)
    (hb : d.browseBox = none) : showFetched L d f pods = showAll d f pods := by
  unfold showFetched
  rw [hb]

/-- A refresh commit made while no panel is in browse mode: every data panel has its
new text in the cache and shows it, or shows the empty text when it is blank, and
no panel is in browse mode afterwards. -/
theorem update_outside_browse (L : Lib) (d : Dashboard) (f : Fetched)
    (hb : d.browseBox = none) :
    (update L d f).browseBox = none ∧
    (∀ (b : TextView) (s : Str), (b, s) ∈ fetchedTexts f (dataClampLines f.pods 30) →
      (update L d f).cached b = s) ∧
    (∀ b ∈ dataPanels, ShowsCache (update L d f) b) := by
  unfold update
  dsimp only
  generalize dataClampLines f.pods 30 = pods
  obtain ⟨c1, h1⟩ := storeFetched_frame d f pods
  have hcache := storeFetched_cache d f pods
  generalize storeFetched d f pods = s1 at h1 hcache
  obtain ⟨c2, h2⟩ := recolor_frame s1 f
  generalize recolor s1 f = s2 at h2
  have hb2 : s2.browseBox = none := by rw [h2, h1]; exact hb
  have hc2 : s2.contentCache = s1.contentCache := by rw [h2]
  rw [showFetched_none L s2 f pods hb2]
  have hshow : ∀ (b : TextView) (s : Str), (b, s) ∈ fetchedTexts f pods →
      ((showAll s2 f pods).views b).text = s := by
    intro b s hm
    unfold showAll
    exact foldl_setText_get (fetchedTexts f pods)
      (by rw [fetchedTexts_keys]; exact dataPanels_nodup) b s hm s2
  obtain ⟨v3, h3⟩ : ∃ v : TextView → Widget, showAll s2 f pods = { s2 with views := v } := by
    unfold showAll
    exact foldl_setText_frame _ _
  generalize showAll s2 f pods = s3 at h3 hshow
  have hc3 : s3.contentCache = s1.contentCache := by rw [h3]; exact hc2
  have hb3 : s3.browseBox = none := by rw [h3]; exact hb2
  have hS3 : ∀ b ∈ dataPanels, ShowsCache s3 b := by
    intro b hbm
    obtain ⟨s, hs⟩ := fetchedTexts_of_panel f pods b hbm
    left
    unfold Dashboard.cached
    rw [hshow b s hs, hc3, hcache b s hs]
    rfl
  obtain ⟨v4, sl4, h4⟩ := adjustAll_frame s3
  have hS4 := fun b hbm => ShowsCache_adjustAll s3 b (hS3 b hbm)
  generalize adjustAll s3 = s4 at h4 hS4
  have hc4 : s4.contentCache = s1.contentCache := by rw [h4]; exact hc3
  have hb4 : s4.browseBox = none := by rw [h4]; exact hb3
  obtain ⟨p5, h5⟩ := focusIfNone_frame s4
  generalize focusIfNone s4 = s5 at h5
  have hc5 : s5.contentCache = s1.contentCache := by rw [h5]; exact hc4
  have hb5 : s5.browseBox = none := by rw [h5]; exact hb4
  have hS5 : ∀ b ∈ dataPanels, ShowsCache s5 b := by
    intro b hbm
    exact ShowsCache_congr s4 s5 b (by rw [h5]) (by rw [h5]) (hS4 b hbm)
  obtain ⟨v6, h6⟩ := highlightFocus_frame s5
  have hc6 : (highlightFocus s5).contentCache = s1.contentCache := by rw [h6]; exact hc5
  refine ⟨by rw [h6]; exact hb5, ?_, ?_⟩
  · intro b s hm
    unfold Dashboard.cached
    rw [hc6, hcache b s hm]
    rfl
  · intro b hbm
    exact ShowsCache_congr s5 _ b (highlightFocus_text s5 b) (by rw [h6]) (hS5 b hbm)

theorem InSync_update (L : Lib) (d : Dashboard) (f : Fetched) (hb : d.browseBox = none) :
    InSync (update L d f) := by
  obtain ⟨h1, _, h3⟩ := update_outside_browse L d f hb
  constructor
  · intro b hbm _
    exact h3 b hbm
  · intro b hbb
    rw [h1] at hbb
    exact Option.noConfusion hbb

theorem foldl_const_text_other (l : List TextView) (s : Str) (b : TextView) (hb : b ∉ l) :
    ∀ d : Dashboard,
      ((l.foldl (fun d b => d.setText b s) d).views b).text = (d.views b).text := by
  induction l with
  | nil => intro d; rfl
  | cons a l ih =>
    intro d
    have h1 : b ≠ a := fun e => hb (e ▸ List.mem_cons_self _ _)
    have h2 : b ∉ l := fun m => hb (List.mem_cons_of_mem _ m)
    rw [List.foldl_cons, ih h2, setText_text_other _ _ _ _ h1]

theorem foldl_const_text (l : List TextView) (s : Str) (b : TextView) (hb : b ∈ l) :
    ∀ d : Dashboard, ((l.foldl (fun d b => d.setText b s) d).views b).text = s := by
  induction l with
  | nil => exact absurd hb (List.not_mem_nil _)
  | cons a l ih =>
    intro d
    rw [List.foldl_cons]
    by_cases hl : b ∈ l
    · exact ih hl _
    · have e : b = a := by
        rcases List.mem_cons.1 hb with e | e
        · exact e
        · exact absurd e hl
      subst e
      rw [foldl_const_text_other l s b hl, setText_text_self]

theorem started_placeholders (L : Lib) (ns : Str) (b : TextView)
    (hb : b ∈ placeholderPanels) :
    ((started L ns).views b).text = placeholder ∧ (started L ns).contentCache b = none := by
  unfold started
  have hsched : ∀ x : Dashboard, (scheduleUpdate x).views = x.views ∧
      (scheduleUpdate x).contentCache = x.contentCache := by
    intro x
    unfold scheduleUpdate
    split <;> exact ⟨rfl, rfl⟩
  rw [(hsched _).1, (hsched _).2]
  obtain ⟨v, hv⟩ := setPage_frame L (NewDashboard ns) (NewDashboard ns).currentPage
  have hne : b ≠ .pageIndicator := by rintro rfl; exact absurd hb (by decide)
  constructor
  · unfold setPage
    dsimp only
    rw [highlightFocus_text]
    have hff : ∀ x : Dashboard, (focusFirst x).views = x.views := by
      intro x
      unfold focusFirst
      split <;> rfl
    rw [hff, setText_text_other _ _ _ _ hne]
    have hex : exitBrowse (NewDashboard ns) = { NewDashboard ns with browseBox := none } := by
      unfold exitBrowse
      rfl
    rw [hex]
    show ((NewDashboard ns).views b).text = placeholder
    unfold NewDashboard setPlaceholders
    exact foldl_const_text _ placeholder b hb _
  · rw [hv]
    rfl

theorem InSync_run (L : Lib) (evs : List Event) :
    ∀ d : Dashboard, InSync d → (∀ e ∈ evs, ∀ f : Fetched, e ≠ .commit f) →
      InSync (run L d evs) := by
  induction evs with
  | nil => intro d h _; exact h
  | cons e evs ih =>
    intro d h hne
    show InSync (run L (step L d e) evs)
    exact ih _ (InSync_step L d e (hne e (List.mem_cons_self _ _)) h)
      (fun e' he' => hne e' (List.mem_cons_of_mem _ he'))

set_option maxRecDepth 100000 in
/-- C15, as stated, fails in two ways. A dashboard just started is a reachable state
in which the pods panel displays the placeholder `Carregando...` while its cache is
empty and no panel is in browse mode. And in the sample run, with the pods panel
in browse mode, a refresh that brings a second deployment writes the new workloads
text to the cache and leaves the workloads panel displaying the old one. -/
theorem display_cache_counterexample :
    Reachable asciiLib (started asciiLib []) ∧
    (started asciiLib []).browseBox = none ∧
    ((started asciiLib []).views .podsView).text = "Carregando...".toList ∧
    (started asciiLib []).cached .podsView = [] ∧
    (run asciiLib sampleFocused
      [.key .enter,
        .commit { sampleFetched with
          wl := "DEPLOY\nNAME READY UP-TO-DATE AVAILABLE AGE\nweb 1/1 1 1 5d\napi 2/2 2 2 1m".toList
        }]).browseBox = some .podsView ∧
    (run asciiLib sampleFocused
      [.key .enter,
        .commit { sampleFetched with
          wl := "DEPLOY\nNAME READY UP-TO-DATE AVAILABLE AGE\nweb 1/1 1 1 5d\napi 2/2 2 2 1m".toList
        }]).cached .workloadsView
      = "DEPLOY\nNAME READY UP-TO-DATE AVAILABLE AGE\nweb 1/1 1 1 5d\napi 2/2 2 2 1m".toList ∧
    ((run asciiLib sampleFocused
      [.key .enter,
        .commit { sampleFetched with
          wl := "DEPLOY\nNAME READY UP-TO-DATE AVAILABLE AGE\nweb 1/1 1 1 5d\napi 2/2 2 2 1m".toList
        }]).views .workloadsView).text
      = "DEPLOY\nNAME READY UP-TO-DATE AVAILABLE AGE\nweb 1/1 1 1 5d".toList :=
  ⟨⟨[], [], rfl⟩, by decide, by decide, by decide, by decide, by decide, by decide⟩

/-- C15, amended: a refresh commit made while no panel is in browse mode leaves every
data panel with its new text in the cache and on display, a panel whose new text is
blank displaying the empty text; from then on every event other than a commit keeps
every data panel outside browse mode displaying its cached text, so this holds in
every state reached before the next commit. Before the first refresh the panels of
`setPlaceholders` display the placeholder and have no cached text. -/
theorem display_follows_cache (L : Lib) :
    (∀ (d : Dashboard) (f : Fetched), d.browseBox = none →
      InSync (update L d f) ∧
      (∀ (b : TextView) (s : Str), (b, s) ∈ fetchedTexts f (dataClampLines f.pods 30) →
        (update L d f).cached b = s ∧
        (((update L d f).views b).text = s ∨
          (TrimSpace s = [] ∧ ((update L d f).views b).text = []))) ∧
      (∀ evs : List Event, (∀ e ∈ evs, ∀ f' : Fetched, e ≠ .commit f') →
        InSync (run L (update L d f) evs))) ∧
    (∀ (d : Dashboard) (e : Event), InSync d → (∀ f : Fetched, e ≠ .commit f) →
      InSync (step L d e)) ∧
    (∀ (ns : Str) (b : TextView), b ∈ placeholderPanels →
      ((started L ns).views b).text = placeholder ∧ (started L ns).contentCache b = none) := by
  refine ⟨?_, ?_, ?_⟩
  · intro d f hb
    obtain ⟨h1, h2, h3⟩ := update_outside_browse L d f hb
    have hsync := InSync_update L d f hb
    refine ⟨hsync, ?_, ?_⟩
    · intro b s hm
      have hbm : b ∈ dataPanels := by
        rw [← fetchedTexts_keys f (dataClampLines f.pods 30)]
        exact List.mem_map.2 ⟨(b, s), hm, rfl⟩
      have hc := h2 b s hm
      refine ⟨hc, ?_⟩
      have hs := h3 b hbm
      unfold ShowsCache at hs
      rw [hc] at hs
      exact hs
    · intro evs hne
      exact InSync_run L evs _ hsync hne
  · intro d e h hne
    exact InSync_step L d e hne h
  · intro ns b hb
    exact started_placeholders L ns b hb

end KTwins
